import Mathlib

/-!
Shallow embedding of the treebitmap crate (src/tree_bitmap/{node.rs, allocator.rs, mod.rs}).

Machine integers (`u32`) are modelled as `Nat`; every stored bitmap is kept below
`2 ^ 32` by the operations themselves, and theorems carry the bound explicitly where
they need it.  `count_ones` and `trailing_zeros` mirror the `u32` intrinsics
(`trailing_zeros 0 = 32` as in Rust).
-/

namespace TreeBitmapModel

/-- Halving recursion for the population count; 32 steps exhaust any `u32` value. -/
def count_ones_fuel : Nat → Nat → Nat
  | 0, _ => 0
  | fuel + 1, n => if n = 0 then 0 else n % 2 + count_ones_fuel fuel (n / 2)

/-- Population count of a 32-bit value, mirroring `u32::count_ones`. -/
def count_ones (n : Nat) : Nat := count_ones_fuel 32 n

/-- Halving recursion for the trailing-zero count. -/
def trailing_zeros_fuel : Nat → Nat → Nat
  | 0, _ => 32
  | fuel + 1, n =>
    if n = 0 then 32
    else if n % 2 = 1 then 0
    else 1 + trailing_zeros_fuel fuel (n / 2)

/-- Number of trailing zero bits of a 32-bit value, mirroring `u32::trailing_zeros`
(which is 32 at 0). -/
def trailing_zeros (n : Nat) : Nat := trailing_zeros_fuel 32 n

/-- `INT_MASK` from node.rs: the high 16 bits of the 32-bit bitmap. -/
def INT_MASK : Nat := 0xffff0000

/-- `EXT_MASK` from node.rs: the low 16 bits of the 32-bit bitmap. -/
def EXT_MASK : Nat := 0x0000ffff

/-- `END_BIT` from node.rs: bit 16, the endnode flag. -/
def END_BIT : Nat := 1 <<< 16

/-- `END_BIT_MASK` from node.rs: `!END_BIT` as a `u32`, i.e. all bits except bit 16. -/
def END_BIT_MASK : Nat := 0xfffeffff

/-- `MSB` from node.rs. -/
def MSB : Nat := 1 <<< 31

/-- `AllocatorHandle` from allocator.rs: collection length plus base offset. -/
structure AllocatorHandle where
  len : Nat
  offset : Nat
deriving Repr, DecidableEq

/-- `AllocatorHandle::generate`. -/
def AllocatorHandle.generate (len offset : Nat) : AllocatorHandle := ⟨len, offset⟩

/-- `Node` from node.rs: bitmap plus child and result base pointers. -/
structure Node where
  bitmap : Nat
  child_ptr : Nat
  result_ptr : Nat
deriving Repr, DecidableEq

/-- `INTERNAL_LOOKUP_TABLE` from node.rs, row-indexed by masklen 0..4, column by nibble. -/
def INTERNAL_LOOKUP_TABLE : List (List Nat) := [
  [1 <<< 31, 0, 0, 0, 0, 0, 0, 0, 0, 0, 0, 0, 0, 0, 0, 0],
  [1 <<< 30, 0, 0, 0, 0, 0, 0, 0, 1 <<< 29, 0, 0, 0, 0, 0, 0, 0],
  [1 <<< 28, 0, 0, 0, 1 <<< 27, 0, 0, 0, 1 <<< 26, 0, 0, 0, 1 <<< 25, 0, 0, 0],
  [1 <<< 24, 0, 1 <<< 23, 0, 1 <<< 22, 0, 1 <<< 21, 0, 1 <<< 20, 0, 1 <<< 19, 0,
   1 <<< 18, 0, 1 <<< 17, 0],
  [END_BIT ||| 1 <<< 15, END_BIT ||| 1 <<< 14, END_BIT ||| 1 <<< 13, END_BIT ||| 1 <<< 12,
   END_BIT ||| 1 <<< 11, END_BIT ||| 1 <<< 10, END_BIT ||| 1 <<< 9, END_BIT ||| 1 <<< 8,
   END_BIT ||| 1 <<< 7, END_BIT ||| 1 <<< 6, END_BIT ||| 1 <<< 5, END_BIT ||| 1 <<< 4,
   END_BIT ||| 1 <<< 3, END_BIT ||| 1 <<< 2, END_BIT ||| 1 <<< 1, END_BIT ||| 1]]

/-- `gen_bitmap` from node.rs. -/
def gen_bitmap (pfx : Nat) (masklen : Nat) : Nat :=
  (INTERNAL_LOOKUP_TABLE.getD masklen []).getD pfx 0

/-- `MATCH_MASKS` from node.rs: for each nibble, the set of internal/external slots it
can match. -/
def MATCH_MASKS : List Nat :=
  [MSB ||| MSB >>> 1 ||| MSB >>> 3 ||| MSB >>> 7 ||| MSB >>> 16,
   MSB ||| MSB >>> 1 ||| MSB >>> 3 ||| MSB >>> 7 ||| MSB >>> 17,
   MSB ||| MSB >>> 1 ||| MSB >>> 3 ||| MSB >>> 8 ||| MSB >>> 18,
   MSB ||| MSB >>> 1 ||| MSB >>> 3 ||| MSB >>> 8 ||| MSB >>> 19,
   MSB ||| MSB >>> 1 ||| MSB >>> 4 ||| MSB >>> 9 ||| MSB >>> 20,
   MSB ||| MSB >>> 1 ||| MSB >>> 4 ||| MSB >>> 9 ||| MSB >>> 21,
   MSB ||| MSB >>> 1 ||| MSB >>> 4 ||| MSB >>> 10 ||| MSB >>> 22,
   MSB ||| MSB >>> 1 ||| MSB >>> 4 ||| MSB >>> 10 ||| MSB >>> 23,
   MSB ||| MSB >>> 2 ||| MSB >>> 5 ||| MSB >>> 11 ||| MSB >>> 24,
   MSB ||| MSB >>> 2 ||| MSB >>> 5 ||| MSB >>> 11 ||| MSB >>> 25,
   MSB ||| MSB >>> 2 ||| MSB >>> 5 ||| MSB >>> 12 ||| MSB >>> 26,
   MSB ||| MSB >>> 2 ||| MSB >>> 5 ||| MSB >>> 12 ||| MSB >>> 27,
   MSB ||| MSB >>> 2 ||| MSB >>> 6 ||| MSB >>> 13 ||| MSB >>> 28,
   MSB ||| MSB >>> 2 ||| MSB >>> 6 ||| MSB >>> 13 ||| MSB >>> 29,
   MSB ||| MSB >>> 2 ||| MSB >>> 6 ||| MSB >>> 14 ||| MSB >>> 30,
   MSB ||| MSB >>> 2 ||| MSB >>> 6 ||| MSB >>> 14 ||| MSB >>> 31]

/-- `BIT_MATCH` from node.rs: number of bits matched within one node, per bit index. -/
def BIT_MATCH : List Nat :=
  [0, 1, 1, 2, 2, 2, 2, 3, 3, 3, 3, 3, 3, 3, 3, 0,
   4, 4, 4, 4, 4, 4, 4, 4, 4, 4, 4, 4, 4, 4, 4, 4]

/-- `Node::new`. -/
def Node.new : Node := ⟨0, 0, 0⟩

/-- `Node::is_blank`. -/
def Node.is_blank (n : Node) : Bool :=
  n.bitmap == 0 && n.child_ptr == 0 && n.result_ptr == 0

/-- `Node::is_empty`. -/
def Node.is_empty (n : Node) : Bool :=
  n.bitmap &&& END_BIT_MASK == 0

/-- `Node::is_endnode`. -/
def Node.is_endnode (n : Node) : Bool :=
  0 < n.bitmap &&& END_BIT

/-- `Node::internal`. -/
def Node.internal (n : Node) : Nat :=
  if n.is_endnode then n.bitmap &&& END_BIT_MASK else n.bitmap &&& INT_MASK

/-- `Node::external`. -/
def Node.external (n : Node) : Nat :=
  if n.is_endnode then 0 else n.bitmap &&& EXT_MASK

/-- `Node::make_endnode` (release semantics; the debug asserts are preconditions). -/
def Node.make_endnode (n : Node) : Node :=
  { n with bitmap := n.bitmap ||| END_BIT }

/-- `Node::make_normalnode`. -/
def Node.make_normalnode (n : Node) : Node :=
  { n with bitmap := n.bitmap &&& END_BIT_MASK }

/-- `Node::child_count`. -/
def Node.child_count (n : Node) : Nat := count_ones n.external

/-- `Node::result_count`. -/
def Node.result_count (n : Node) : Nat := count_ones n.internal

/-- `Node::result_handle`. -/
def Node.result_handle (n : Node) : AllocatorHandle :=
  AllocatorHandle.generate n.result_count n.result_ptr

/-- `Node::child_handle`. -/
def Node.child_handle (n : Node) : AllocatorHandle :=
  AllocatorHandle.generate n.child_count n.child_ptr

/-- `Node::set_internal` (release semantics). -/
def Node.set_internal (n : Node) (bm : Nat) : Node :=
  { n with bitmap := n.bitmap ||| bm }

/-- `Node::unset_internal` (release semantics). -/
def Node.unset_internal (n : Node) (bm : Nat) : Node :=
  { n with bitmap := n.bitmap ^^^ bm }

/-- `Node::set_external` (release semantics). -/
def Node.set_external (n : Node) (bm : Nat) : Node :=
  { n with bitmap := n.bitmap ||| bm }

/-- `Node::unset_external` (release semantics). -/
def Node.unset_external (n : Node) (bm : Nat) : Node :=
  { n with bitmap := n.bitmap ^^^ bm }

/-- `MatchResult` from node.rs. -/
inductive MatchResult where
  | Match : AllocatorHandle → Nat → Nat → MatchResult
  | Chase : AllocatorHandle → Nat → MatchResult
  | NoMatch : MatchResult
deriving Repr, DecidableEq

/-- `Node::match_internal`. -/
def Node.match_internal (n : Node) (match_mask : Nat) : MatchResult :=
  let result_match := n.internal &&& match_mask
  if 0 < result_match then
    let result_hdl := n.result_handle
    let best_match_bit_index := 31 - trailing_zeros result_match
    let best_match_result_index :=
      match best_match_bit_index with
      | 0 => 0
      | _ => count_ones (n.internal >>> (32 - best_match_bit_index))
    MatchResult.Match result_hdl best_match_result_index best_match_bit_index
  else MatchResult.NoMatch

/-- `Node::match_external`. -/
def Node.match_external (n : Node) (match_mask : Nat) : MatchResult :=
  let child_match := n.external &&& match_mask
  if 0 < child_match then
    let child_hdl := n.child_handle
    let best_match_bit_index := 31 - trailing_zeros child_match
    let best_match_child_index :=
      match best_match_bit_index with
      | 0 => 0
      | _ => count_ones (n.external >>> (32 - best_match_bit_index))
    MatchResult.Chase child_hdl best_match_child_index
  else MatchResult.NoMatch

/-- `Node::match_segment`. -/
def Node.match_segment (n : Node) (segment : Nat) : MatchResult :=
  let match_mask := MATCH_MASKS.getD segment 0
  match n.match_external match_mask with
  | MatchResult.NoMatch => n.match_internal match_mask
  | x => x

/-- `LEN2BUCKET` from allocator.rs. -/
def LEN2BUCKET : List Nat :=
  [0, 0, 1, 2, 2, 3, 3, 4, 4, 5, 5, 5, 5, 6, 6, 6, 6,
   7, 7, 7, 7, 7, 7, 7, 7, 8, 8, 8, 8, 8, 8, 8, 8]

/-- `choose_bucket` from allocator.rs (defined on 0..=32; out-of-range is a contract
violation in the source). -/
def choose_bucket (len : Nat) : Nat := LEN2BUCKET.getD len 0

/-- The bucket spacings `{1,2,4,6,8,12,16,24,32}` used by `Allocator::new` /
`Allocator::with_capacity` in allocator.rs. -/
def SPACINGS : List Nat := [1, 2, 4, 6, 8, 12, 16, 24, 32]

/-! ### The bucket allocator (allocator.rs)

A `BucketVec`'s raw buffer is modelled as a total function `Nat → α`; uninitialised
memory reads give unspecified (default) values, matching the release-build contract
that higher layers write before reading.  The free list is a stack (the source uses
`Vec::push`/`Vec::pop` at the vector's end; here the list head is the stack top). -/

/-- Pointwise update of a function, modelling a single memory write. -/
def updf {α : Type} (f : Nat → α) (i : Nat) (v : α) : Nat → α :=
  fun p => if p = i then v else f p

/-- `BucketVec` from allocator.rs. -/
structure BucketVec (α : Type) where
  buf : Nat → α
  len : Nat
  freelist : List Nat
  spacing : Nat

/-- `BucketVec::with_capacity` (the capacity hint has no observable effect). -/
def BucketVec.with_capacity (α : Type) [Inhabited α] (spacing : Nat) : BucketVec α :=
  { buf := fun _ => default, len := 0, freelist := [], spacing := spacing }

/-- `BucketVec::alloc_slot`: pop the free list, or extend the buffer by one spacing. -/
def BucketVec.alloc_slot {α : Type} (b : BucketVec α) : Nat × BucketVec α :=
  match b.freelist with
  | n :: rest => (n, { b with freelist := rest })
  | [] => (b.len, { b with len := b.len + b.spacing })

/-- `BucketVec::free_slot`. -/
def BucketVec.free_slot {α : Type} (b : BucketVec α) (slot : Nat) : BucketVec α :=
  { b with freelist := slot :: b.freelist }

/-- `BucketVec::get_slot_entry`. -/
def BucketVec.get_slot_entry {α : Type} (b : BucketVec α) (slot index : Nat) : α :=
  b.buf (slot + index)

/-- `BucketVec::set_slot_entry`. -/
def BucketVec.set_slot_entry {α : Type} (b : BucketVec α) (slot index : Nat) (value : α) :
    BucketVec α :=
  { b with buf := updf b.buf (slot + index) value }

/-- `BucketVec::replace_slot_entry`. -/
def BucketVec.replace_slot_entry {α : Type} (b : BucketVec α) (slot index : Nat)
    (value : α) : α × BucketVec α :=
  (b.buf (slot + index), { b with buf := updf b.buf (slot + index) value })

/-- `BucketVec::insert_slot_entry`: shift entries `index..spacing-1` right by one and
write `value` at `index` (the window's last entry falls off). -/
def BucketVec.insert_slot_entry {α : Type} (b : BucketVec α) (slot index : Nat)
    (value : α) : BucketVec α :=
  { b with buf := fun p =>
      if p = slot + index then value
      else if slot + index < p ∧ p < slot + b.spacing then b.buf (p - 1)
      else b.buf p }

/-- `BucketVec::remove_slot_entry`: read the entry out and shift the rest left. -/
def BucketVec.remove_slot_entry {α : Type} (b : BucketVec α) (slot index : Nat) :
    α × BucketVec α :=
  (b.buf (slot + index),
   { b with buf := fun p =>
       if slot + index ≤ p ∧ p + 1 < slot + b.spacing then b.buf (p + 1)
       else b.buf p })

/-- `BucketVec::move_slot`: copy `min spacing dst.spacing` entries into a fresh slot of
`dst`, free the source slot.  Returns the destination slot and both updated buckets. -/
def BucketVec.move_slot {α : Type} (b : BucketVec α) (slot : Nat) (dst : BucketVec α) :
    Nat × BucketVec α × BucketVec α :=
  let nitems := min b.spacing dst.spacing
  let r := dst.alloc_slot
  let dst_slot := r.1
  let dst1 := r.2
  let dst2 := { dst1 with buf := (fun p =>
      if dst_slot ≤ p ∧ p < dst_slot + nitems then b.buf (slot + (p - dst_slot))
      else dst1.buf p) }
  (dst_slot, b.free_slot slot, dst2)

/-- `Allocator` from allocator.rs: nine `BucketVec`s.  The bucket array is modelled as
a function; only indices 0..8 are ever produced by `choose_bucket`. -/
structure Allocator (α : Type) where
  buckets : Nat → BucketVec α

/-- `Allocator::with_capacity` (the capacity hint has no observable effect). -/
def Allocator.with_capacity (α : Type) [Inhabited α] : Allocator α :=
  { buckets := fun i => BucketVec.with_capacity α (SPACINGS.getD i 0) }

/-- `Allocator::alloc`. -/
def Allocator.alloc {α : Type} (a : Allocator α) (count : Nat) :
    AllocatorHandle × Allocator α :=
  let bucket_index := choose_bucket count
  let r := (a.buckets bucket_index).alloc_slot
  (⟨count, r.1⟩, ⟨updf a.buckets bucket_index r.2⟩)

/-- `Allocator::free`: frees the slot and clears the handle's offset. -/
def Allocator.free {α : Type} (a : Allocator α) (hdl : AllocatorHandle) :
    AllocatorHandle × Allocator α :=
  let bucket_index := choose_bucket hdl.len
  (⟨hdl.len, 0⟩,
   ⟨updf a.buckets bucket_index ((a.buckets bucket_index).free_slot hdl.offset)⟩)

/-- `Allocator::get`. -/
def Allocator.get {α : Type} (a : Allocator α) (hdl : AllocatorHandle) (index : Nat) : α :=
  (a.buckets (choose_bucket hdl.len)).get_slot_entry hdl.offset index

/-- `Allocator::set`. -/
def Allocator.set {α : Type} (a : Allocator α) (hdl : AllocatorHandle) (index : Nat)
    (value : α) : Allocator α :=
  let bucket_index := choose_bucket hdl.len
  ⟨updf a.buckets bucket_index ((a.buckets bucket_index).set_slot_entry hdl.offset index value)⟩

/-- `Allocator::replace`. -/
def Allocator.replace {α : Type} (a : Allocator α) (hdl : AllocatorHandle) (index : Nat)
    (value : α) : α × Allocator α :=
  let bucket_index := choose_bucket hdl.len
  let r := (a.buckets bucket_index).replace_slot_entry hdl.offset index value
  (r.1, ⟨updf a.buckets bucket_index r.2⟩)

/-- `Allocator::insert`: migrate to a larger bucket when the length crosses a bucket
boundary, then insert in place; the handle's length grows by one. -/
def Allocator.insert {α : Type} (a : Allocator α) (hdl : AllocatorHandle) (index : Nat)
    (value : α) : AllocatorHandle × Allocator α :=
  let bucket_index := choose_bucket hdl.len
  let next_bucket_index := choose_bucket (hdl.len + 1)
  if bucket_index = next_bucket_index then
    (⟨hdl.len + 1, hdl.offset⟩,
     ⟨updf a.buckets bucket_index
        ((a.buckets bucket_index).insert_slot_entry hdl.offset index value)⟩)
  else
    let r := (a.buckets bucket_index).move_slot hdl.offset (a.buckets next_bucket_index)
    let slot := r.1
    let bks := updf (updf a.buckets bucket_index r.2.1) next_bucket_index r.2.2
    (⟨hdl.len + 1, slot⟩,
     ⟨updf bks next_bucket_index ((bks next_bucket_index).insert_slot_entry slot index value)⟩)

/-- `Allocator::remove`: remove in place, then migrate to a smaller bucket when the
length crosses a bucket boundary; the handle's length shrinks by one. -/
def Allocator.remove {α : Type} (a : Allocator α) (hdl : AllocatorHandle) (index : Nat) :
    α × AllocatorHandle × Allocator α :=
  let bucket_index := choose_bucket hdl.len
  let next_bucket_index := choose_bucket (hdl.len - 1)
  let r0 := (a.buckets bucket_index).remove_slot_entry hdl.offset index
  let a1 := updf a.buckets bucket_index r0.2
  if bucket_index = next_bucket_index then
    (r0.1, ⟨hdl.len - 1, hdl.offset⟩, ⟨a1⟩)
  else
    let r := (a1 bucket_index).move_slot hdl.offset (a1 next_bucket_index)
    (r0.1, ⟨hdl.len - 1, r.1⟩,
     ⟨updf (updf a1 bucket_index r.2.1) next_bucket_index r.2.2⟩)

/-! ### Slot-level lemmas for the allocator -/

theorem updf_self {α : Type} (f : Nat → α) (i : Nat) (v : α) : updf f i v i = v := by
  simp [updf]

theorem updf_other {α : Type} (f : Nat → α) (i j : Nat) (v : α) (h : j ≠ i) :
    updf f i v j = f j := by
  simp [updf, h]

theorem alloc_slot_spacing {α : Type} (b : BucketVec α) :
    b.alloc_slot.2.spacing = b.spacing := by
  obtain ⟨buf, len, fl, sp⟩ := b
  cases fl <;> rfl

theorem insert_slot_entry_spacing {α : Type} (b : BucketVec α) (slot index : Nat) (v : α) :
    (b.insert_slot_entry slot index v).spacing = b.spacing := rfl

theorem insert_slot_entry_freelist {α : Type} (b : BucketVec α) (slot index : Nat) (v : α) :
    (b.insert_slot_entry slot index v).freelist = b.freelist := rfl

theorem get_insert_slot_lt {α : Type} (b : BucketVec α) (slot index j : Nat) (v : α)
    (h : j < index) :
    (b.insert_slot_entry slot index v).get_slot_entry slot j = b.get_slot_entry slot j := by
  show (if slot + j = slot + index then v
      else if slot + index < slot + j ∧ slot + j < slot + b.spacing then b.buf (slot + j - 1)
      else b.buf (slot + j)) = b.buf (slot + j)
  rw [if_neg (by omega), if_neg (by omega)]

theorem get_insert_slot_self {α : Type} (b : BucketVec α) (slot index : Nat) (v : α) :
    (b.insert_slot_entry slot index v).get_slot_entry slot index = v := by
  show (if slot + index = slot + index then v
      else if slot + index < slot + index ∧ slot + index < slot + b.spacing then
        b.buf (slot + index - 1)
      else b.buf (slot + index)) = v
  rw [if_pos rfl]

theorem get_insert_slot_gt {α : Type} (b : BucketVec α) (slot index j : Nat) (v : α)
    (h1 : index < j) (h2 : j < b.spacing) :
    (b.insert_slot_entry slot index v).get_slot_entry slot j =
      b.get_slot_entry slot (j - 1) := by
  show (if slot + j = slot + index then v
      else if slot + index < slot + j ∧ slot + j < slot + b.spacing then b.buf (slot + j - 1)
      else b.buf (slot + j)) = b.buf (slot + (j - 1))
  rw [if_neg (by omega), if_pos (by omega)]
  have hc : slot + j - 1 = slot + (j - 1) := by omega
  rw [hc]

theorem move_slot_src {α : Type} (b dst : BucketVec α) (slot : Nat) :
    (b.move_slot slot dst).2.1 = b.free_slot slot := rfl

theorem move_slot_dst_spacing {α : Type} (b dst : BucketVec α) (slot : Nat) :
    (b.move_slot slot dst).2.2.spacing = dst.spacing := by
  simp only [BucketVec.move_slot]
  exact alloc_slot_spacing dst

theorem move_slot_get {α : Type} (b dst : BucketVec α) (slot j : Nat)
    (h : j < min b.spacing dst.spacing) :
    (b.move_slot slot dst).2.2.get_slot_entry (b.move_slot slot dst).1 j =
      b.get_slot_entry slot j := by
  simp only [BucketVec.move_slot, BucketVec.get_slot_entry]
  have hc : (b.move_slot slot dst).1 ≤ (b.move_slot slot dst).1 + j ∧
      (b.move_slot slot dst).1 + j < (b.move_slot slot dst).1 + min b.spacing dst.spacing := by
    omega
  simp only [BucketVec.move_slot] at hc
  simp [hc]

/-! ### Claim C7: `Allocator::insert` -/

theorem len_le_spacing : ∀ len, len < 33 → len ≤ SPACINGS.getD (choose_bucket len) 0 := by
  decide

theorem choose_bucket_lt9 (len : Nat) : choose_bucket len < 9 := by
  by_cases h : len < 33
  · revert h
    revert len
    decide
  · unfold choose_bucket
    rw [List.getD_eq_default]
    · decide
    · simp [LEN2BUCKET]
      omega


theorem allocator_get_mk {α : Type} (f : Nat → BucketVec α) (l o idx : Nat) :
    Allocator.get ⟨f⟩ ⟨l, o⟩ idx = (f (choose_bucket l)).get_slot_entry o idx := rfl

theorem allocator_insert_same {α : Type} (a : Allocator α) (hdl : AllocatorHandle)
    (i : Nat) (v : α) (h : choose_bucket hdl.len = choose_bucket (hdl.len + 1)) :
    a.insert hdl i v =
      (⟨hdl.len + 1, hdl.offset⟩,
       ⟨updf a.buckets (choose_bucket hdl.len)
          ((a.buckets (choose_bucket hdl.len)).insert_slot_entry hdl.offset i v)⟩) := by
  simp only [Allocator.insert]
  rw [if_pos h]

theorem allocator_insert_diff {α : Type} (a : Allocator α) (hdl : AllocatorHandle)
    (i : Nat) (v : α) (h : ¬ choose_bucket hdl.len = choose_bucket (hdl.len + 1)) :
    a.insert hdl i v =
      (⟨hdl.len + 1,
        ((a.buckets (choose_bucket hdl.len)).move_slot hdl.offset
          (a.buckets (choose_bucket (hdl.len + 1)))).1⟩,
       ⟨updf
          (updf (updf a.buckets (choose_bucket hdl.len)
            ((a.buckets (choose_bucket hdl.len)).move_slot hdl.offset
              (a.buckets (choose_bucket (hdl.len + 1)))).2.1)
            (choose_bucket (hdl.len + 1))
            ((a.buckets (choose_bucket hdl.len)).move_slot hdl.offset
              (a.buckets (choose_bucket (hdl.len + 1)))).2.2)
          (choose_bucket (hdl.len + 1))
          ((((a.buckets (choose_bucket hdl.len)).move_slot hdl.offset
              (a.buckets (choose_bucket (hdl.len + 1)))).2.2).insert_slot_entry
            ((a.buckets (choose_bucket hdl.len)).move_slot hdl.offset
              (a.buckets (choose_bucket (hdl.len + 1)))).1 i v)⟩) := by
  simp only [Allocator.insert]
  rw [if_neg h]
  simp [updf_self]

/-- Claim C7: for a live collection `e_0..e_{len-1}` with `len < 32` and `i ≤ len`,
`Allocator::insert` migrates the slot to a larger bucket exactly when
`choose_bucket (len+1)` differs from `choose_bucket len` (the old slot is returned to
the old bucket's free list), increments the handle length, and afterwards `get`
returns `e_j` for `j < i`, the new value at `i`, and `e_(j-1)` for `i < j ≤ len`. -/
theorem allocator_insert_correct {α : Type} [Inhabited α] (a : Allocator α)
    (hdl : AllocatorHandle) (i : Nat) (v : α) (es : List α)
    (hsp : ∀ k, k < 9 → (a.buckets k).spacing = SPACINGS.getD k 0)
    (hlen : hdl.len < 32) (hi : i ≤ hdl.len) (hes : es.length = hdl.len)
    (hget : ∀ j, j < hdl.len → a.get hdl j = es.getD j default) :
    (a.insert hdl i v).1.len = hdl.len + 1 ∧
    (choose_bucket (hdl.len + 1) = choose_bucket hdl.len →
      (a.insert hdl i v).1.offset = hdl.offset) ∧
    (choose_bucket (hdl.len + 1) ≠ choose_bucket hdl.len →
      ((a.insert hdl i v).2.buckets (choose_bucket hdl.len)).freelist =
        hdl.offset :: (a.buckets (choose_bucket hdl.len)).freelist) ∧
    (∀ j, j < i → (a.insert hdl i v).2.get (a.insert hdl i v).1 j = es.getD j default) ∧
    (a.insert hdl i v).2.get (a.insert hdl i v).1 i = v ∧
    (∀ j, i < j → j < hdl.len + 1 →
      (a.insert hdl i v).2.get (a.insert hdl i v).1 j = es.getD (j - 1) default) := by
  have hsp1 : hdl.len ≤ (a.buckets (choose_bucket hdl.len)).spacing := by
    rw [hsp _ (choose_bucket_lt9 _)]; exact len_le_spacing hdl.len (by omega)
  have hsp2 : hdl.len + 1 ≤ (a.buckets (choose_bucket (hdl.len + 1))).spacing := by
    rw [hsp _ (choose_bucket_lt9 _)]; exact len_le_spacing (hdl.len + 1) (by omega)
  by_cases hb : choose_bucket hdl.len = choose_bucket (hdl.len + 1)
  · rw [allocator_insert_same a hdl i v hb]
    have hbb : ∀ (X : BucketVec α),
        (updf a.buckets (choose_bucket hdl.len) X) (choose_bucket (hdl.len + 1)) = X := by
      intro X
      rw [← hb, updf_self]
    refine ⟨rfl, fun _ => rfl, fun hc => absurd hb.symm hc, ?_, ?_, ?_⟩
    · intro j hj
      dsimp only
      rw [allocator_get_mk, hbb, get_insert_slot_lt _ _ _ _ _ hj]
      exact hget j (by omega)
    · dsimp only
      rw [allocator_get_mk, hbb]
      exact get_insert_slot_self _ _ _ _
    · intro j hj1 hj2
      dsimp only
      rw [allocator_get_mk, hbb, get_insert_slot_gt _ _ _ _ _ hj1 (by rw [hb] at hsp1 ⊢; omega)]
      exact hget (j - 1) (by omega)
  · rw [allocator_insert_diff a hdl i v hb]
    have hmin : hdl.len ≤ min (a.buckets (choose_bucket hdl.len)).spacing
        (a.buckets (choose_bucket (hdl.len + 1))).spacing := by omega
    have hd2sp : (((a.buckets (choose_bucket hdl.len)).move_slot hdl.offset
        (a.buckets (choose_bucket (hdl.len + 1)))).2.2).spacing =
        (a.buckets (choose_bucket (hdl.len + 1))).spacing :=
      move_slot_dst_spacing _ _ _
    refine ⟨rfl, fun hc => absurd hc.symm hb, ?_, ?_, ?_, ?_⟩
    · intro _
      dsimp only
      rw [updf_other _ _ _ _ (fun hc => hb hc), updf_other _ _ _ _ (fun hc => hb hc),
        updf_self]
      rfl
    · intro j hj
      dsimp only
      rw [allocator_get_mk, updf_self, get_insert_slot_lt _ _ _ _ _ hj,
        move_slot_get _ _ _ _ (by omega)]
      exact hget j (by omega)
    · dsimp only
      rw [allocator_get_mk, updf_self]
      exact get_insert_slot_self _ _ _ _
    · intro j hj1 hj2
      dsimp only
      rw [allocator_get_mk, updf_self, get_insert_slot_gt _ _ _ _ _ hj1 (by rw [hd2sp]; omega),
        move_slot_get _ _ _ _ (by omega)]
      exact hget (j - 1) (by omega)

theorem allocator_insert_correct_witness :
    ((Allocator.with_capacity Nat).insert ⟨0, 0⟩ 0 15).1.len = 1 ∧
    ((Allocator.with_capacity Nat).insert ⟨0, 0⟩ 0 15).2.get
      ((Allocator.with_capacity Nat).insert ⟨0, 0⟩ 0 15).1 0 = 15 := by
  have h := allocator_insert_correct (Allocator.with_capacity Nat) ⟨0, 0⟩ 0 15 []
    (fun _ _ => rfl) (by decide) (Nat.le_refl 0) rfl (fun j hj => absurd hj (Nat.not_lt_zero j))
  exact ⟨h.1, h.2.2.2.2.1⟩

/-! ### Basic facts about the bit utilities -/

theorem count_ones_zero : count_ones 0 = 0 := rfl

theorem count_ones_fuel_congr : ∀ f g n, n < 2 ^ f → n < 2 ^ g →
    count_ones_fuel f n = count_ones_fuel g n := by
  intro f
  induction f with
  | zero =>
    intro g n hf _
    have hn : n = 0 := by
      have h1 : (2 : Nat) ^ 0 = 1 := rfl
      omega
    subst hn
    cases g <;> simp [count_ones_fuel]
  | succ f ih =>
    intro g n hf hg
    cases g with
    | zero =>
      have hn : n = 0 := by
        have h1 : (2 : Nat) ^ 0 = 1 := rfl
        omega
      subst hn
      simp [count_ones_fuel]
    | succ g =>
      by_cases hn : n = 0
      · subst hn; simp [count_ones_fuel]
      · have hf2 : n / 2 < 2 ^ f := by
          rw [pow_succ] at hf; omega
        have hg2 : n / 2 < 2 ^ g := by
          rw [pow_succ] at hg; omega
        simp only [count_ones_fuel, if_neg hn]
        rw [ih g (n / 2) hf2 hg2]

theorem trailing_zeros_fuel_congr : ∀ f g n, n < 2 ^ f → n < 2 ^ g →
    trailing_zeros_fuel f n = trailing_zeros_fuel g n := by
  intro f
  induction f with
  | zero =>
    intro g n hf _
    have hn : n = 0 := by
      have h1 : (2 : Nat) ^ 0 = 1 := rfl
      omega
    subst hn
    cases g <;> simp [trailing_zeros_fuel]
  | succ f ih =>
    intro g n hf hg
    cases g with
    | zero =>
      have hn : n = 0 := by
        have h1 : (2 : Nat) ^ 0 = 1 := rfl
        omega
      subst hn
      simp [trailing_zeros_fuel]
    | succ g =>
      by_cases hn : n = 0
      · subst hn; simp [trailing_zeros_fuel]
      · have hf2 : n / 2 < 2 ^ f := by
          rw [pow_succ] at hf; omega
        have hg2 : n / 2 < 2 ^ g := by
          rw [pow_succ] at hg; omega
        simp only [trailing_zeros_fuel, if_neg hn]
        rw [ih g (n / 2) hf2 hg2]

theorem trailing_zeros_odd (n : Nat) (h : n % 2 = 1) : trailing_zeros n = 0 := by
  have hn : n ≠ 0 := by omega
  have e : trailing_zeros n =
      if n = 0 then 32
      else if n % 2 = 1 then 0
      else 1 + trailing_zeros_fuel 31 (n / 2) := rfl
  rw [e, if_neg hn, if_pos h]

theorem trailing_zeros_even (n : Nat) (hb : n < 2 ^ 32) (hn : n ≠ 0) (h : n % 2 = 0) :
    trailing_zeros n = 1 + trailing_zeros (n / 2) := by
  have e : trailing_zeros n =
      if n = 0 then 32
      else if n % 2 = 1 then 0
      else 1 + trailing_zeros_fuel 31 (n / 2) := rfl
  rw [e, if_neg hn, if_neg (by omega), trailing_zeros]
  have h31 : n / 2 < 2 ^ 31 := by
    have h2 : (2 : Nat) ^ 32 = 2 ^ 31 * 2 := by norm_num
    omega
  rw [trailing_zeros_fuel_congr 31 32 (n / 2) h31 (by omega)]

/-- The trailing-zero count of a nonzero `u32` value is a set bit. -/
theorem testBit_trailing_zeros (n : Nat) (hn : n ≠ 0) (hb : n < 2 ^ 32) :
    Nat.testBit n (trailing_zeros n) = true := by
  induction n using Nat.strong_induction_on with
  | _ n ih =>
    rcases Nat.mod_two_eq_zero_or_one n with h | h
    · have hhalf : n / 2 ≠ 0 := by
        intro h0
        have := Nat.div_add_mod n 2
        rw [h0, h] at this
        exact hn (by omega)
      rw [trailing_zeros_even n hb hn h]
      have := ih (n / 2) (Nat.div_lt_self (Nat.pos_of_ne_zero hn) (by decide)) hhalf
        (by omega)
      rw [Nat.add_comm 1 (trailing_zeros (n / 2)), Nat.testBit_add_one]
      exact this
    · rw [trailing_zeros_odd n h]
      simp [Nat.testBit_zero]
      omega

/-- All bits below the trailing-zero count are clear. -/
theorem testBit_lt_trailing_zeros (n : Nat) (q : Nat) (hb : n < 2 ^ 32)
    (hq : q < trailing_zeros n) : Nat.testBit n q = false := by
  induction n using Nat.strong_induction_on generalizing q with
  | _ n ih =>
    by_cases hn : n = 0
    · subst hn; simp
    rcases Nat.mod_two_eq_zero_or_one n with h | h
    · rw [trailing_zeros_even n hb hn h] at hq
      cases q with
      | zero =>
        simp [Nat.testBit_zero]
        omega
      | succ q' =>
        rw [Nat.testBit_add_one]
        exact ih (n / 2) (Nat.div_lt_self (Nat.pos_of_ne_zero hn) (by decide)) q'
          (by omega) (by omega)
    · rw [trailing_zeros_odd n h] at hq
      omega

/-- The trailing-zero count is determined by the least set bit. -/
theorem trailing_zeros_eq_of_least (n p : Nat) (hb : n < 2 ^ 32)
    (hset : Nat.testBit n p = true)
    (hlow : ∀ q, q < p → Nat.testBit n q = false) : trailing_zeros n = p := by
  have hn : n ≠ 0 := by
    intro h0; rw [h0] at hset; simp at hset
  rcases Nat.lt_trichotomy (trailing_zeros n) p with h | h | h
  · have := hlow _ h
    rw [testBit_trailing_zeros n hn hb] at this
    simp at this
  · exact h
  · have := testBit_lt_trailing_zeros n p hb h
    rw [hset] at this
    simp at this

theorem shiftRight_eq_zero (n k : Nat) (h : n < 2 ^ k) : n >>> k = 0 := by
  rw [Nat.shiftRight_eq_div_pow]
  exact Nat.div_eq_of_lt h

/-- A set bit of `n < 2^32` sits below 32. -/
theorem testBit_lt_32 (n p : Nat) (hn : n < 2 ^ 32) (h : Nat.testBit n p = true) :
    p < 32 := by
  by_contra hp
  have : Nat.testBit n p = false := by
    apply Nat.testBit_eq_false_of_lt
    calc n < 2 ^ 32 := hn
    _ ≤ 2 ^ p := Nat.pow_le_pow_right (by decide) (by omega)
  rw [h] at this
  simp at this

theorem internal_lt (n : Node) (hb : n.bitmap < 2 ^ 32) : n.internal < 2 ^ 32 := by
  have h1 : n.bitmap &&& END_BIT_MASK ≤ n.bitmap := Nat.and_le_left
  have h2 : n.bitmap &&& INT_MASK ≤ n.bitmap := Nat.and_le_left
  unfold Node.internal
  split <;> omega

/-! ### Claim C5: characterisation of `Node::match_internal` -/

/-- Claim C5: for every node (with a 32-bit bitmap) and every match mask,
`match_internal` returns `NoMatch` exactly when `internal() AND mm` is zero; otherwise
it returns a match whose MSB-first bit index is `31 - p` where `p` is the rightmost
(least-significant) set bit of `internal() AND mm`, and whose result index is the
number of bits of `internal()` strictly more significant than that bit. -/
theorem match_internal_characterisation (n : Node) (mm : Nat) (hb : n.bitmap < 2 ^ 32) :
    (n.internal &&& mm = 0 → n.match_internal mm = MatchResult.NoMatch) ∧
    (∀ p, Nat.testBit (n.internal &&& mm) p = true →
      (∀ q, q < p → Nat.testBit (n.internal &&& mm) q = false) →
      n.match_internal mm =
        MatchResult.Match n.result_handle (count_ones (n.internal >>> (p + 1))) (31 - p)) := by
  constructor
  · intro h0
    unfold Node.match_internal
    simp [h0]
  · intro p hset hlow
    have hx : n.internal &&& mm ≠ 0 := by
      intro h0; rw [h0] at hset; simp at hset
    have hxlt : n.internal &&& mm < 2 ^ 32 := by
      have h1 : n.internal &&& mm ≤ n.internal := Nat.and_le_left
      have := internal_lt n hb
      omega
    have hp32 : p < 32 := testBit_lt_32 _ p hxlt hset
    have htz : trailing_zeros (n.internal &&& mm) = p :=
      trailing_zeros_eq_of_least _ p hxlt hset hlow
    unfold Node.match_internal
    have hpos : 0 < n.internal &&& mm := Nat.pos_of_ne_zero hx
    simp only [hpos, if_true, htz]
    by_cases hp : p = 31
    · subst hp
      norm_num
      rw [shiftRight_eq_zero _ 32 (internal_lt n hb), count_ones_zero]
    · have h31 : 31 - p ≠ 0 := by omega
      have h32 : 32 - (31 - p) = p + 1 := by omega
      rcases Nat.exists_eq_succ_of_ne_zero h31 with ⟨k, hk⟩
      rw [hk]
      simp only [← hk, h32]

theorem match_internal_characterisation_witness :
    let n : Node := ⟨(1 <<< 30) ||| (1 <<< 27), 0, 0⟩
    n.match_internal (MATCH_MASKS.getD 5 0) =
      MatchResult.Match n.result_handle (count_ones (n.internal >>> (27 + 1))) (31 - 27) := by
  exact (match_internal_characterisation ⟨(1 <<< 30) ||| (1 <<< 27), 0, 0⟩
    (MATCH_MASKS.getD 5 0) (by decide)).2 27 (by decide) (by decide)

/-! ### Claim C8: `choose_bucket` picks the first bucket with sufficient spacing -/

/-- Claim C8: for every `len` in `0..=32`, `choose_bucket len` is an index below 9,
the spacing at that index is at least `len`, every earlier bucket has spacing
strictly below `len`, and `choose_bucket 0 = 0`. -/
theorem choose_bucket_first_fit :
    (∀ len, len < 33 →
      choose_bucket len < 9 ∧
      len ≤ SPACINGS.getD (choose_bucket len) 0 ∧
      (∀ j, j < choose_bucket len → SPACINGS.getD j 0 < len)) ∧
    choose_bucket 0 = 0 := by
  decide

theorem choose_bucket_first_fit_witness :
    choose_bucket 7 < 9 ∧ 7 ≤ SPACINGS.getD (choose_bucket 7) 0 ∧
      SPACINGS.getD 3 0 < 7 ∧ choose_bucket 0 = 0 := by
  exact ⟨(choose_bucket_first_fit.1 7 (by decide)).1,
    (choose_bucket_first_fit.1 7 (by decide)).2.1,
    (choose_bucket_first_fit.1 7 (by decide)).2.2 3 (by decide),
    choose_bucket_first_fit.2⟩

/-! ### The trie itself (mod.rs) -/

instance : Inhabited Node := ⟨Node.new⟩

/-- `TreeBitmap` from mod.rs (the `should_drop` flag only steers `Drop` and is
omitted). -/
structure TreeBitmap (α : Type) where
  trienodes : Allocator Node
  results : Allocator α
  len : Nat

/-- `TreeBitmap::with_capacity` (and `new`): a fresh root node in slot 0 of the node
arena. -/
def TreeBitmap.with_capacity (α : Type) [Inhabited α] : TreeBitmap α :=
  let trieallocator := Allocator.with_capacity Node
  let r0 := trieallocator.alloc 0
  let r1 := r0.2.insert r0.1 0 Node.new
  { trienodes := r1.2, results := Allocator.with_capacity α, len := 0 }

/-- `TreeBitmap::new`. -/
def TreeBitmap.new (α : Type) [Inhabited α] : TreeBitmap α :=
  TreeBitmap.with_capacity α

/-- `TreeBitmap::root_handle`. -/
def TreeBitmap.root_handle {α : Type} (_ : TreeBitmap α) : AllocatorHandle :=
  AllocatorHandle.generate 1 0

/-- The loop body of `TreeBitmap::push_down`: pop `k` length-4 values out of the
parent's result array (always at `remove_at`) and append, for each, a fresh child
node with internal bit `MSB` and a one-element result array. -/
def push_down_loop {α : Type} (results : Allocator α) (trienodes : Allocator Node)
    (result_hdl child_node_hdl : AllocatorHandle) (remove_at : Nat) :
    Nat → Allocator α × Allocator Node × AllocatorHandle × AllocatorHandle
  | 0 => (results, trienodes, result_hdl, child_node_hdl)
  | k + 1 =>
    let rc := results.alloc 0
    let rr := rc.2.remove result_hdl remove_at
    let ri := rr.2.2.insert rc.1 0 rr.1
    let child_node0 := Node.new.set_internal (1 <<< 31)
    let child_node := { child_node0 with result_ptr := ri.1.offset }
    let insert_node_at := child_node_hdl.len
    let ti := trienodes.insert child_node_hdl insert_node_at child_node
    push_down_loop ri.2 ti.2 rr.2.1 ti.1 remove_at k

/-- `TreeBitmap::push_down`. -/
def TreeBitmap.push_down {α : Type} (t : TreeBitmap α) (node : Node) :
    Node × TreeBitmap α :=
  let internal_node_count := count_ones (node.internal &&& 0xffff0000)
  let remove_at := internal_node_count
  let nodes_to_pushdown := count_ones (node.internal &&& 0x0000ffff)
  if 0 < nodes_to_pushdown then
    let r := t.trienodes.alloc 0
    let lp := push_down_loop t.results r.2 node.result_handle r.1 remove_at
      nodes_to_pushdown
    let node1 := { node with result_ptr := lp.2.2.1.offset, child_ptr := lp.2.2.2.offset }
    if internal_node_count = 0 then
      let fr := lp.1.free lp.2.2.1
      (({ node1 with result_ptr := 0 }).make_normalnode,
       { t with trienodes := lp.2.1, results := fr.2 })
    else
      (node1.make_normalnode, { t with trienodes := lp.2.1, results := lp.1 })
  else
    (node.make_normalnode, t)

mutual

/-- The walking loop of `TreeBitmap::insert` (mod.rs lines 156-241): chase an existing
branch while at least four bits are left. -/
def TreeBitmap.insertLoop {α : Type} (t : TreeBitmap α) (nibbles : List Nat)
    (value : α) (cur_hdl : AllocatorHandle) (cur_index bits_left loop_count : Nat) :
    Option α × TreeBitmap α :=
  let nibble := nibbles.getD loop_count 0
  let cur_node := t.trienodes.get cur_hdl cur_index
  match cur_node.match_segment nibble with
  | MatchResult.Chase child_hdl index =>
      if h : 4 ≤ bits_left then
        t.insertLoop nibbles value child_hdl index (bits_left - 4) (loop_count + 1)
      else
        t.insertRest nibbles value cur_hdl cur_index bits_left loop_count
  | MatchResult.Match _ _ _ =>
      t.insertRest nibbles value cur_hdl cur_index bits_left loop_count
  | MatchResult.NoMatch =>
      t.insertRest nibbles value cur_hdl cur_index bits_left loop_count
termination_by 2 * bits_left + 1
decreasing_by
  all_goals simp_wf
  all_goals omega

/-- The non-chasing remainder of the `insert` loop body: either the final node is
reached and the value is placed, or a branch is added (after `push_down` on an
endnode) and the loop continues below it. -/
def TreeBitmap.insertRest {α : Type} (t : TreeBitmap α) (nibbles : List Nat)
    (value : α) (cur_hdl : AllocatorHandle) (cur_index bits_left loop_count : Nat) :
    Option α × TreeBitmap α :=
  let nibble := nibbles.getD loop_count 0
  let cur_node := t.trienodes.get cur_hdl cur_index
  let bitmap := gen_bitmap nibble (min 4 bits_left)
  if hfinal : (cur_node.is_endnode = true ∧ bits_left ≤ 4) ∨ bits_left ≤ 3 then
    let ar := if cur_node.result_count = 0 then t.results.alloc 0
      else (cur_node.result_handle, t.results)
    let result_index :=
      count_ones (cur_node.internal >>> trailing_zeros (bitmap &&& END_BIT_MASK))
    if 0 < cur_node.internal &&& (bitmap &&& END_BIT_MASK) then
      let rr := ar.2.replace ar.1 (result_index - 1) value
      let cur_node1 := { cur_node with result_ptr := ar.1.offset }
      (some rr.1,
       { t with results := rr.2,
                trienodes := t.trienodes.set cur_hdl cur_index cur_node1 })
    else
      let cur_node1 := cur_node.set_internal (bitmap &&& END_BIT_MASK)
      let ri := ar.2.insert ar.1 result_index value
      let cur_node2 := { cur_node1 with result_ptr := ri.1.offset }
      (none,
       { t with results := ri.2,
                trienodes := t.trienodes.set cur_hdl cur_index cur_node2,
                len := t.len + 1 })
  else
    let pd := if cur_node.is_endnode then t.push_down cur_node else (cur_node, t)
    let cur_node1 := pd.1
    let t1 := pd.2
    let ac := if cur_node1.child_count = 0 then t1.trienodes.alloc 0
      else (cur_node1.child_handle, t1.trienodes)
    let child_index := count_ones (cur_node1.external >>> trailing_zeros bitmap)
    if 0 < cur_node1.external &&& (bitmap &&& END_BIT_MASK) then
      match cur_node1.match_segment nibble with
      | MatchResult.Chase child_hdl2 index =>
          let t2 := { t1 with trienodes := ac.2.set cur_hdl cur_index cur_node1 }
          t2.insertLoop nibbles value child_hdl2 index (bits_left - 4) (loop_count + 1)
      | _ => (none, t1)
    else
      let cur_node2 := cur_node1.set_external (bitmap &&& END_BIT_MASK)
      let child_node := Node.new.make_endnode
      let ti := ac.2.insert ac.1 child_index child_node
      let cur_node3 := { cur_node2 with child_ptr := ti.1.offset }
      let t2 := { t1 with trienodes := ti.2.set cur_hdl cur_index cur_node3 }
      t2.insertLoop nibbles value ti.1 child_index (bits_left - 4) (loop_count + 1)
termination_by 2 * bits_left
decreasing_by
  all_goals simp_wf
  all_goals
    (have h3 : ¬ bits_left ≤ 3 := fun hx => hfinal (Or.inr hx)
     omega)

end

/-- `TreeBitmap::insert`. -/
def TreeBitmap.insert {α : Type} (t : TreeBitmap α) (nibbles : List Nat)
    (masklen : Nat) (value : α) : Option α × TreeBitmap α :=
  t.insertLoop nibbles value (AllocatorHandle.generate 1 0) 0 masklen 0

/-- The walking loop of `TreeBitmap::longest_match`, accumulating the best internal
match seen so far. -/
def TreeBitmap.longestMatchLoop {α : Type} (t : TreeBitmap α) (nibbles : List Nat)
    (cur_hdl : AllocatorHandle) (cur_index : Nat) (bits_matched bits_searched : Nat)
    (best_match : Option (AllocatorHandle × Nat)) :
    Nat × Option (AllocatorHandle × Nat) :=
  match nibbles with
  | [] => (bits_matched, best_match)
  | nibble :: rest =>
    let cur_node := t.trienodes.get cur_hdl cur_index
    let match_mask := MATCH_MASKS.getD nibble 0
    let st := match cur_node.match_internal match_mask with
      | MatchResult.Match result_hdl result_index matching_bit_index =>
          (bits_searched + BIT_MATCH.getD matching_bit_index 0,
           some (result_hdl, result_index))
      | _ => (bits_matched, best_match)
    if cur_node.is_endnode then (st.1, st.2)
    else match cur_node.match_external match_mask with
      | MatchResult.Chase child_hdl child_index =>
          t.longestMatchLoop rest child_hdl child_index st.1 (bits_searched + 4) st.2
      | _ => (st.1, st.2)

/-- `TreeBitmap::longest_match`: bits matched plus the stored value. -/
def TreeBitmap.longest_match {α : Type} [Inhabited α] (t : TreeBitmap α)
    (nibbles : List Nat) : Option (Nat × α) :=
  let r := t.longestMatchLoop nibbles (AllocatorHandle.generate 1 0) 0 0 0 Option.none
  match r.2 with
  | some (result_hdl, result_index) => some (r.1, t.results.get result_hdl result_index)
  | none => none

/-- `TreeBitmap::remove_child` (mod.rs lines 296-340), recursive; the source indexes
`nibbles[0]`, which is only reached with a long-enough nibble slice (`getD` models the
in-contract accesses). -/
def TreeBitmap.remove_child {α : Type} [Inhabited α] (t : TreeBitmap α) (node : Node)
    (nibbles : List Nat) (masklen : Nat) : Option α × Node × TreeBitmap α :=
  let nibble := nibbles.getD 0 0
  let bitmap := gen_bitmap nibble (min masklen 4) &&& END_BIT_MASK
  if hfinal : masklen < 4 ∨ (node.is_endnode = true ∧ masklen = 4) then
    match node.match_internal bitmap with
    | MatchResult.Match result_hdl result_index _ =>
        let node1 := node.unset_internal bitmap
        let rr := t.results.remove result_hdl result_index
        let fr := if node1.result_count = 0 then rr.2.2.free rr.2.1 else (rr.2.1, rr.2.2)
        let node2 := { node1 with result_ptr := fr.1.offset }
        (some rr.1, node2, { t with results := fr.2, len := t.len - 1 })
    | _ => (none, node, t)
  else
    match node.match_external bitmap with
    | MatchResult.Chase child_node_hdl index =>
        let child_node := t.trienodes.get child_node_hdl index
        let rc := t.remove_child child_node (nibbles.drop 1) (masklen - 4)
        let child_node1 := rc.2.1
        let t1 := rc.2.2
        let child_node2 :=
          if child_node1.child_count = 0 ∧ child_node1.is_endnode = false then
            child_node1.make_endnode
          else child_node1
        if child_node2.is_empty then
          let tr := t1.trienodes.remove child_node_hdl index
          let node1 := node.unset_external bitmap
          let fr := if tr.2.1.len = 0 then tr.2.2.free tr.2.1 else (tr.2.1, tr.2.2)
          let node2 := { node1 with child_ptr := fr.1.offset }
          (rc.1, node2, { t1 with trienodes := fr.2 })
        else
          let node1 := { node with child_ptr := child_node_hdl.offset }
          (rc.1, node1,
           { t1 with trienodes := t1.trienodes.set child_node_hdl index child_node2 })
    | _ => (none, node, t)
termination_by masklen
decreasing_by
  simp_wf
  have h3 : ¬ masklen < 4 := fun hx => hfinal (Or.inl hx)
  omega

/-- `TreeBitmap::remove`. -/
def TreeBitmap.remove {α : Type} [Inhabited α] (t : TreeBitmap α) (nibbles : List Nat)
    (masklen : Nat) : Option α × TreeBitmap α :=
  let root_hdl := AllocatorHandle.generate 1 0
  let root_node := t.trienodes.get root_hdl 0
  let rc := t.remove_child root_node nibbles masklen
  (rc.1, { rc.2.2 with trienodes := rc.2.2.trienodes.set root_hdl 0 rc.2.1 })

/-! ### Fuel-indexed mirrors of the recursive walks

The mutual well-founded recursions above do not reduce inside the kernel; these
structurally recursive mirrors (plus the equivalence lemmas below) let concrete
executions be checked by `decide`. -/

/-- The chase payload of a `MatchResult`, used by the fuel-indexed insert mirror. -/
def MatchResult.chase : MatchResult → Option (AllocatorHandle × Nat)
  | MatchResult.Chase h i => some (h, i)
  | _ => none

/-- Fuel-indexed mirror of `TreeBitmap.insertLoop` (single structural recursion so
the kernel can evaluate it). -/
def TreeBitmap.insertLoopF {α : Type} (fuel : Nat) (t : TreeBitmap α)
    (nibbles : List Nat) (value : α) (cur_hdl : AllocatorHandle)
    (cur_index bits_left loop_count : Nat) : Option α × TreeBitmap α :=
  match fuel with
  | 0 => (none, t)
  | fuel + 1 =>
    let nibble := nibbles.getD loop_count 0
    let cur_node := t.trienodes.get cur_hdl cur_index
    match (cur_node.match_segment nibble).chase, decide (4 ≤ bits_left) with
    | some (child_hdl, index), true =>
        t.insertLoopF fuel nibbles value child_hdl index (bits_left - 4) (loop_count + 1)
    | _, _ =>
      let bitmap := gen_bitmap nibble (min 4 bits_left)
      if (cur_node.is_endnode = true ∧ bits_left ≤ 4) ∨ bits_left ≤ 3 then
        let ar := if cur_node.result_count = 0 then t.results.alloc 0
          else (cur_node.result_handle, t.results)
        let result_index :=
          count_ones (cur_node.internal >>> trailing_zeros (bitmap &&& END_BIT_MASK))
        if 0 < cur_node.internal &&& (bitmap &&& END_BIT_MASK) then
          let rr := ar.2.replace ar.1 (result_index - 1) value
          let cur_node1 := { cur_node with result_ptr := ar.1.offset }
          (some rr.1,
           { t with results := rr.2,
                    trienodes := t.trienodes.set cur_hdl cur_index cur_node1 })
        else
          let cur_node1 := cur_node.set_internal (bitmap &&& END_BIT_MASK)
          let ri := ar.2.insert ar.1 result_index value
          let cur_node2 := { cur_node1 with result_ptr := ri.1.offset }
          (none,
           { t with results := ri.2,
                    trienodes := t.trienodes.set cur_hdl cur_index cur_node2,
                    len := t.len + 1 })
      else
        let pd := if cur_node.is_endnode then t.push_down cur_node else (cur_node, t)
        let cur_node1 := pd.1
        let t1 := pd.2
        let ac := if cur_node1.child_count = 0 then t1.trienodes.alloc 0
          else (cur_node1.child_handle, t1.trienodes)
        let child_index := count_ones (cur_node1.external >>> trailing_zeros bitmap)
        if 0 < cur_node1.external &&& (bitmap &&& END_BIT_MASK) then
          match cur_node1.match_segment nibble with
          | MatchResult.Chase child_hdl2 index =>
              let t2 := { t1 with trienodes := ac.2.set cur_hdl cur_index cur_node1 }
              t2.insertLoopF fuel nibbles value child_hdl2 index (bits_left - 4)
                (loop_count + 1)
          | _ => (none, t1)
        else
          let cur_node2 := cur_node1.set_external (bitmap &&& END_BIT_MASK)
          let child_node := Node.new.make_endnode
          let ti := ac.2.insert ac.1 child_index child_node
          let cur_node3 := { cur_node2 with child_ptr := ti.1.offset }
          let t2 := { t1 with trienodes := ti.2.set cur_hdl cur_index cur_node3 }
          t2.insertLoopF fuel nibbles value ti.1 child_index (bits_left - 4) (loop_count + 1)

/-- The non-chasing part of `insertLoopF`'s body, as its own function (definitionally
equal to the catch-all arm above). -/
def TreeBitmap.insertRestF {α : Type} (fuel : Nat) (t : TreeBitmap α)
    (nibbles : List Nat) (value : α) (cur_hdl : AllocatorHandle)
    (cur_index bits_left loop_count : Nat) : Option α × TreeBitmap α :=
  let nibble := nibbles.getD loop_count 0
  let cur_node := t.trienodes.get cur_hdl cur_index
  let bitmap := gen_bitmap nibble (min 4 bits_left)
  if (cur_node.is_endnode = true ∧ bits_left ≤ 4) ∨ bits_left ≤ 3 then
    let ar := if cur_node.result_count = 0 then t.results.alloc 0
      else (cur_node.result_handle, t.results)
    let result_index :=
      count_ones (cur_node.internal >>> trailing_zeros (bitmap &&& END_BIT_MASK))
    if 0 < cur_node.internal &&& (bitmap &&& END_BIT_MASK) then
      let rr := ar.2.replace ar.1 (result_index - 1) value
      let cur_node1 := { cur_node with result_ptr := ar.1.offset }
      (some rr.1,
       { t with results := rr.2,
                trienodes := t.trienodes.set cur_hdl cur_index cur_node1 })
    else
      let cur_node1 := cur_node.set_internal (bitmap &&& END_BIT_MASK)
      let ri := ar.2.insert ar.1 result_index value
      let cur_node2 := { cur_node1 with result_ptr := ri.1.offset }
      (none,
       { t with results := ri.2,
                trienodes := t.trienodes.set cur_hdl cur_index cur_node2,
                len := t.len + 1 })
  else
    let pd := if cur_node.is_endnode then t.push_down cur_node else (cur_node, t)
    let cur_node1 := pd.1
    let t1 := pd.2
    let ac := if cur_node1.child_count = 0 then t1.trienodes.alloc 0
      else (cur_node1.child_handle, t1.trienodes)
    let child_index := count_ones (cur_node1.external >>> trailing_zeros bitmap)
    if 0 < cur_node1.external &&& (bitmap &&& END_BIT_MASK) then
      match cur_node1.match_segment nibble with
      | MatchResult.Chase child_hdl2 index =>
          let t2 := { t1 with trienodes := ac.2.set cur_hdl cur_index cur_node1 }
          t2.insertLoopF fuel nibbles value child_hdl2 index (bits_left - 4)
            (loop_count + 1)
      | _ => (none, t1)
    else
      let cur_node2 := cur_node1.set_external (bitmap &&& END_BIT_MASK)
      let child_node := Node.new.make_endnode
      let ti := ac.2.insert ac.1 child_index child_node
      let cur_node3 := { cur_node2 with child_ptr := ti.1.offset }
      let t2 := { t1 with trienodes := ti.2.set cur_hdl cur_index cur_node3 }
      t2.insertLoopF fuel nibbles value ti.1 child_index (bits_left - 4) (loop_count + 1)

theorem insertLoopF_succ {α : Type} (fuel : Nat) (t : TreeBitmap α)
    (nibbles : List Nat) (value : α) (cur_hdl : AllocatorHandle)
    (cur_index bits_left loop_count : Nat) :
    t.insertLoopF (fuel + 1) nibbles value cur_hdl cur_index bits_left loop_count =
      match ((t.trienodes.get cur_hdl cur_index).match_segment
          (nibbles.getD loop_count 0)).chase, decide (4 ≤ bits_left) with
      | some (child_hdl, index), true =>
          t.insertLoopF fuel nibbles value child_hdl index (bits_left - 4) (loop_count + 1)
      | _, _ =>
          t.insertRestF fuel nibbles value cur_hdl cur_index bits_left loop_count := rfl

theorem insertRestF_eq_insertRest {α : Type} : ∀ fuel : Nat,
    (∀ (t : TreeBitmap α) nibbles value cur_hdl cur_index bits_left loop_count,
      bits_left + 2 ≤ fuel →
      t.insertLoopF fuel nibbles value cur_hdl cur_index bits_left loop_count =
        t.insertLoop nibbles value cur_hdl cur_index bits_left loop_count) ∧
    (∀ (t : TreeBitmap α) nibbles value cur_hdl cur_index bits_left loop_count,
      bits_left ≤ fuel + 2 →
      t.insertRestF fuel nibbles value cur_hdl cur_index bits_left loop_count =
        t.insertRest nibbles value cur_hdl cur_index bits_left loop_count) := by
  intro fuel
  induction fuel with
  | zero =>
    constructor
    · exact fun _ _ _ _ _ _ _ h => absurd h (by omega)
    · intro t nibbles value cur_hdl cur_index bits_left loop_count h
      rw [TreeBitmap.insertRestF, TreeBitmap.insertRest]
      split
      · rfl
      · exact absurd (Or.inr (by omega)) (by assumption)
  | succ fuel ih =>
    have hL : ∀ (t : TreeBitmap α) nibbles value cur_hdl cur_index bits_left loop_count,
        bits_left + 2 ≤ fuel + 1 →
        t.insertLoopF (fuel + 1) nibbles value cur_hdl cur_index bits_left loop_count =
          t.insertLoop nibbles value cur_hdl cur_index bits_left loop_count := by
      intro t nibbles value cur_hdl cur_index bits_left loop_count h
      rw [insertLoopF_succ, TreeBitmap.insertLoop]
      rcases hms : (t.trienodes.get cur_hdl cur_index).match_segment
          (nibbles.getD loop_count 0) with ⟨mh, mi, mb⟩ | ⟨ch, idx⟩ | -
      all_goals simp only [MatchResult.chase]
      · apply ih.2
        omega
      · by_cases h4 : 4 ≤ bits_left
        · rw [decide_eq_true h4]
          rw [dif_pos h4]
          apply ih.1
          omega
        · rw [decide_eq_false h4]
          rw [dif_neg h4]
          apply ih.2
          omega
      · apply ih.2
        omega
    refine ⟨hL, ?_⟩
    intro t nibbles value cur_hdl cur_index bits_left loop_count h
    rw [TreeBitmap.insertRestF, TreeBitmap.insertRest]
    split
    · rfl
    · have h4 : ¬ bits_left ≤ 3 := by
        intro hx
        exact absurd (Or.inr hx) (by assumption)
      dsimp only
      repeat' split
      all_goals try rfl
      all_goals (apply hL; omega)

/-- `insert` evaluated through its fuel-indexed mirror. -/
theorem insert_eq_insertF {α : Type} (t : TreeBitmap α) (nibbles : List Nat)
    (masklen : Nat) (value : α) :
    t.insert nibbles masklen value =
      t.insertLoopF (masklen + 2) nibbles value (AllocatorHandle.generate 1 0) 0 masklen 0 := by
  rw [TreeBitmap.insert,
    (insertRestF_eq_insertRest (masklen + 2)).1 _ _ _ _ _ _ _ (by omega)]

/-- Fuel-indexed mirror of `TreeBitmap.remove_child`. -/
def TreeBitmap.remove_childF {α : Type} [Inhabited α] (fuel : Nat) (t : TreeBitmap α)
    (node : Node) (nibbles : List Nat) (masklen : Nat) :
    Option α × Node × TreeBitmap α :=
  match fuel with
  | 0 => (none, node, t)
  | fuel + 1 =>
    let nibble := nibbles.getD 0 0
    let bitmap := gen_bitmap nibble (min masklen 4) &&& END_BIT_MASK
    if masklen < 4 ∨ (node.is_endnode = true ∧ masklen = 4) then
      match node.match_internal bitmap with
      | MatchResult.Match result_hdl result_index _ =>
          let node1 := node.unset_internal bitmap
          let rr := t.results.remove result_hdl result_index
          let fr := if node1.result_count = 0 then rr.2.2.free rr.2.1 else (rr.2.1, rr.2.2)
          let node2 := { node1 with result_ptr := fr.1.offset }
          (some rr.1, node2, { t with results := fr.2, len := t.len - 1 })
      | _ => (none, node, t)
    else
      match node.match_external bitmap with
      | MatchResult.Chase child_node_hdl index =>
          let child_node := t.trienodes.get child_node_hdl index
          let rc := t.remove_childF fuel child_node (nibbles.drop 1) (masklen - 4)
          let child_node1 := rc.2.1
          let t1 := rc.2.2
          let child_node2 :=
            if child_node1.child_count = 0 ∧ child_node1.is_endnode = false then
              child_node1.make_endnode
            else child_node1
          if child_node2.is_empty then
            let tr := t1.trienodes.remove child_node_hdl index
            let node1 := node.unset_external bitmap
            let fr := if tr.2.1.len = 0 then tr.2.2.free tr.2.1 else (tr.2.1, tr.2.2)
            let node2 := { node1 with child_ptr := fr.1.offset }
            (rc.1, node2, { t1 with trienodes := fr.2 })
          else
            let node1 := { node with child_ptr := child_node_hdl.offset }
            (rc.1, node1,
             { t1 with trienodes := t1.trienodes.set child_node_hdl index child_node2 })
      | _ => (none, node, t)

theorem remove_childF_eq {α : Type} [Inhabited α] : ∀ (fuel : Nat) (t : TreeBitmap α)
    (node : Node) (nibbles : List Nat) (masklen : Nat), masklen + 1 ≤ fuel →
    t.remove_childF fuel node nibbles masklen = t.remove_child node nibbles masklen := by
  intro fuel
  induction fuel with
  | zero => exact fun _ _ _ _ h => absurd h (by omega)
  | succ fuel ih =>
    intro t node nibbles masklen h
    rw [TreeBitmap.remove_childF, TreeBitmap.remove_child]
    split
    · rfl
    · have h4 : ¬ masklen < 4 := by
        intro hx
        exact absurd (Or.inl hx) (by assumption)
      dsimp only
      split
      · rw [ih _ _ _ (masklen - 4) (by omega)]
      · rfl

/-- Discipline of one bucket: correct spacing, length a multiple of it, and a
duplicate-free free list of aligned slots inside the used region. -/
def bucketInv {α : Type} (b : BucketVec α) (sp : Nat) : Prop :=
  b.spacing = sp ∧ 0 < sp ∧ sp ∣ b.len ∧
  (∀ s ∈ b.freelist, sp ∣ s ∧ s + sp ≤ b.len) ∧ b.freelist.Nodup

/-- Allocator-wide bucket discipline. -/
def AllocInv {α : Type} (a : Allocator α) : Prop :=
  ∀ i, i < 9 → bucketInv (a.buckets i) (SPACINGS.getD i 0)

/-- The handle denotes a live (allocated, not freed) slot of the right bucket. -/
def HdlOk {α : Type} (a : Allocator α) (hdl : AllocatorHandle) : Prop :=
  hdl.len ≤ 32 ∧
  SPACINGS.getD (choose_bucket hdl.len) 0 ∣ hdl.offset ∧
  hdl.offset + SPACINGS.getD (choose_bucket hdl.len) 0 ≤
    (a.buckets (choose_bucket hdl.len)).len ∧
  hdl.offset ∉ (a.buckets (choose_bucket hdl.len)).freelist

/-- Two handles denote different slots. -/
def HdlDisj (h1 h2 : AllocatorHandle) : Prop :=
  choose_bucket h1.len ≠ choose_bucket h2.len ∨ h1.offset ≠ h2.offset

theorem spacing_pos : ∀ i, i < 9 → 0 < SPACINGS.getD i 0 := by decide

/-- Distinct aligned slots have disjoint element windows. -/
theorem aligned_slots_disjoint (sp s1 s2 i1 i2 : Nat) (hd1 : sp ∣ s1) (hd2 : sp ∣ s2)
    (hne : s1 ≠ s2) (hi1 : i1 < sp) (_ : i2 < sp) : s1 + i1 ≠ s2 + i2 := by
  obtain ⟨q1, hq1⟩ := hd1
  obtain ⟨q2, hq2⟩ := hd2
  subst hq1
  subst hq2
  rcases Nat.lt_trichotomy q1 q2 with h | h | h
  · have : sp * q1 + i1 < sp * q2 := by
      calc sp * q1 + i1 < sp * q1 + sp := by omega
      _ = sp * (q1 + 1) := by ring
      _ ≤ sp * q2 := Nat.mul_le_mul_left sp (by omega)
    omega
  · subst h
    exact absurd rfl hne
  · have : sp * q2 + i2 < sp * q1 := by
      calc sp * q2 + i2 < sp * q2 + sp := by omega
      _ = sp * (q2 + 1) := by ring
      _ ≤ sp * q1 := Nat.mul_le_mul_left sp (by omega)
    omega

/-! #### `alloc_slot` and `Allocator.alloc` -/

theorem alloc_slot_bucketInv {α : Type} (b : BucketVec α) (sp : Nat)
    (h : bucketInv b sp) :
    bucketInv b.alloc_slot.2 sp ∧
    sp ∣ b.alloc_slot.1 ∧ b.alloc_slot.1 + sp ≤ b.alloc_slot.2.len ∧
    b.alloc_slot.1 ∉ b.alloc_slot.2.freelist ∧
    b.alloc_slot.2.buf = b.buf ∧ b.len ≤ b.alloc_slot.2.len ∧
    (∀ s, s ∈ b.alloc_slot.2.freelist → s ∈ b.freelist) ∧
    (∀ s, s ∈ b.freelist → s ≠ b.alloc_slot.1 → s ∈ b.alloc_slot.2.freelist) := by
  obtain ⟨buf, len, fl, sp0⟩ := b
  obtain ⟨hsp, hpos, hdvd, hfl, hnd⟩ := h
  simp only at hsp
  subst hsp
  cases fl with
  | nil =>
    simp only [BucketVec.alloc_slot]
    refine ⟨⟨rfl, hpos, Nat.dvd_add hdvd dvd_rfl, by simp, by simp⟩,
      hdvd, le_refl _, by simp, trivial, by omega, by simp, by simp⟩
  | cons s rest =>
    simp only [BucketVec.alloc_slot]
    simp only [List.nodup_cons] at hnd
    refine ⟨⟨rfl, hpos, hdvd, fun x hx => hfl x (List.mem_cons_of_mem _ hx), hnd.2⟩,
      (hfl s (List.mem_cons_self _ _)).1, (hfl s (List.mem_cons_self _ _)).2,
      hnd.1, trivial, le_refl _, fun x hx => List.mem_cons_of_mem _ hx, ?_⟩
    intro x hx hne
    rcases List.mem_cons.mp hx with h | h
    · exact absurd h hne
    · exact h

/-- A fresh slot is distinct from every live slot of the same bucket. -/
theorem alloc_slot_fresh {α : Type} (b : BucketVec α) (sp s : Nat)
    (h : bucketInv b sp) (hdvd : sp ∣ s) (hlen : s + sp ≤ b.len)
    (hnf : s ∉ b.freelist) : b.alloc_slot.1 ≠ s := by
  obtain ⟨buf, len, fl, sp0⟩ := b
  obtain ⟨hsp, hpos, _, hfl, hnd⟩ := h
  simp only at hsp
  subst hsp
  cases fl with
  | nil =>
    simp only [BucketVec.alloc_slot]
    simp only at hlen
    omega
  | cons hd rest =>
    simp only [BucketVec.alloc_slot]
    intro hcon
    subst hcon
    exact hnf (by simp)

/-! #### Writes stay inside their slot window -/

theorem set_slot_entry_outside {α : Type} (b : BucketVec α) (slot index p : Nat) (v : α)
    (hidx : index < b.spacing) (hp : p < slot ∨ slot + b.spacing ≤ p) :
    (b.set_slot_entry slot index v).buf p = b.buf p := by
  simp only [BucketVec.set_slot_entry, updf]
  rw [if_neg (by omega)]

theorem insert_slot_entry_outside {α : Type} (b : BucketVec α) (slot index p : Nat)
    (v : α) (hidx : index < b.spacing) (hp : p < slot ∨ slot + b.spacing ≤ p) :
    (b.insert_slot_entry slot index v).buf p = b.buf p := by
  show (if p = slot + index then v
      else if slot + index < p ∧ p < slot + b.spacing then b.buf (p - 1)
      else b.buf p) = b.buf p
  rw [if_neg (by omega), if_neg (by omega)]

theorem remove_slot_entry_outside {α : Type} (b : BucketVec α) (slot index p : Nat)
    (hp : p < slot ∨ slot + b.spacing ≤ p) :
    (b.remove_slot_entry slot index).2.buf p = b.buf p := by
  show (if slot + index ≤ p ∧ p + 1 < slot + b.spacing then b.buf (p + 1)
      else b.buf p) = b.buf p
  rw [if_neg (by omega)]

theorem remove_slot_entry_ret {α : Type} (b : BucketVec α) (slot index : Nat) :
    (b.remove_slot_entry slot index).1 = b.get_slot_entry slot index := rfl

theorem get_remove_slot_lt {α : Type} (b : BucketVec α) (slot index j : Nat)
    (h : j < index) :
    (b.remove_slot_entry slot index).2.get_slot_entry slot j =
      b.get_slot_entry slot j := by
  show (if slot + index ≤ slot + j ∧ slot + j + 1 < slot + b.spacing then b.buf (slot + j + 1)
      else b.buf (slot + j)) = b.buf (slot + j)
  rw [if_neg (by omega)]

theorem get_remove_slot_ge {α : Type} (b : BucketVec α) (slot index j : Nat)
    (h1 : index ≤ j) (h2 : j + 1 < b.spacing) :
    (b.remove_slot_entry slot index).2.get_slot_entry slot j =
      b.get_slot_entry slot (j + 1) := by
  show (if slot + index ≤ slot + j ∧ slot + j + 1 < slot + b.spacing then b.buf (slot + j + 1)
      else b.buf (slot + j)) = b.buf (slot + (j + 1))
  rw [if_pos (by omega)]
  rfl

theorem move_slot_outside {α : Type} (b dst : BucketVec α) (slot p : Nat)
    (hp : p < (b.move_slot slot dst).1 ∨
      (b.move_slot slot dst).1 + min b.spacing dst.spacing ≤ p) :
    (b.move_slot slot dst).2.2.buf p = dst.buf p := by
  have halloc : dst.alloc_slot.2.buf = dst.buf := by
    obtain ⟨buf, len, fl, sp⟩ := dst
    cases fl <;> rfl
  simp only [BucketVec.move_slot] at hp ⊢
  rw [if_neg (by omega), halloc]

theorem move_slot_dst_len_freelist {α : Type} (b dst : BucketVec α) (slot : Nat) :
    (b.move_slot slot dst).2.2.len = dst.alloc_slot.2.len ∧
    (b.move_slot slot dst).2.2.freelist = dst.alloc_slot.2.freelist ∧
    (b.move_slot slot dst).1 = dst.alloc_slot.1 := ⟨rfl, rfl, rfl⟩

/-! #### `Allocator.set`, `replace`, `free` -/

theorem allocator_set_structure {α : Type} (a : Allocator α) (hdl : AllocatorHandle)
    (index : Nat) (v : α) (i : Nat) :
    ((a.set hdl index v).buckets i).freelist = (a.buckets i).freelist ∧
    ((a.set hdl index v).buckets i).len = (a.buckets i).len ∧
    ((a.set hdl index v).buckets i).spacing = (a.buckets i).spacing := by
  simp only [Allocator.set, updf]
  split
  · next h => subst h; exact ⟨rfl, rfl, rfl⟩
  · exact ⟨rfl, rfl, rfl⟩

theorem allocator_set_inv {α : Type} (a : Allocator α) (hdl : AllocatorHandle)
    (index : Nat) (v : α) (hinv : AllocInv a) : AllocInv (a.set hdl index v) := by
  intro i hi
  have h := hinv i hi
  obtain ⟨h1, h2, h3⟩ := allocator_set_structure a hdl index v i
  obtain ⟨ha, hb, hc, hd, he⟩ := h
  exact ⟨by rw [h3]; exact ha, hb, by rw [h2]; exact hc,
    by rw [h1, h2]; exact hd, by rw [h1]; exact he⟩

theorem allocator_set_hdlok {α : Type} (a : Allocator α) (hdl h2 : AllocatorHandle)
    (index : Nat) (v : α) (h : HdlOk a h2) : HdlOk (a.set hdl index v) h2 := by
  obtain ⟨ha, hb, hc, hd⟩ := h
  obtain ⟨h1, h2', _⟩ := allocator_set_structure a hdl index v (choose_bucket h2.len)
  exact ⟨ha, hb, by rw [h2']; exact hc, by rw [h1]; exact hd⟩

theorem allocator_set_get_ne {α : Type} (a : Allocator α) (hdl : AllocatorHandle)
    (index j : Nat) (v : α) (h : j ≠ index) :
    (a.set hdl index v).get hdl j = a.get hdl j := by
  show ((updf a.buckets (choose_bucket hdl.len)
      ((a.buckets (choose_bucket hdl.len)).set_slot_entry hdl.offset index v))
      (choose_bucket hdl.len)).get_slot_entry hdl.offset j = a.get hdl j
  rw [updf_self]
  show updf (a.buckets (choose_bucket hdl.len)).buf (hdl.offset + index) v
      (hdl.offset + j) = a.get hdl j
  rw [updf_other _ _ _ _ (by omega)]
  rfl

theorem allocator_set_frame {α : Type} (a : Allocator α) (hdl h2 : AllocatorHandle)
    (index j : Nat) (v : α) (hinv : AllocInv a) (hok1 : HdlOk a hdl) (hok2 : HdlOk a h2)
    (hdisj : HdlDisj hdl h2) (hj : j < SPACINGS.getD (choose_bucket h2.len) 0)
    (hidx : index < SPACINGS.getD (choose_bucket hdl.len) 0) :
    (a.set hdl index v).get h2 j = a.get h2 j := by
  by_cases hbq : choose_bucket hdl.len = choose_bucket h2.len
  · have hne : hdl.offset ≠ h2.offset := by
      rcases hdisj with h | h
      · exact absurd hbq h
      · exact h
    show ((updf a.buckets (choose_bucket hdl.len)
        ((a.buckets (choose_bucket hdl.len)).set_slot_entry hdl.offset index v))
        (choose_bucket h2.len)).get_slot_entry h2.offset j = a.get h2 j
    rw [← hbq, updf_self]
    show updf (a.buckets (choose_bucket hdl.len)).buf (hdl.offset + index) v
        (h2.offset + j) = a.get h2 j
    rw [updf_other]
    · show (a.buckets (choose_bucket hdl.len)).buf (h2.offset + j) = a.get h2 j
      rw [hbq]
      rfl
    · apply aligned_slots_disjoint (SPACINGS.getD (choose_bucket h2.len) 0)
      · exact hok2.2.1
      · rw [← hbq]; exact hok1.2.1
      · exact fun hc => hne hc.symm
      · exact hj
      · rw [← hbq]; exact hidx
  · show ((updf a.buckets (choose_bucket hdl.len)
        ((a.buckets (choose_bucket hdl.len)).set_slot_entry hdl.offset index v))
        (choose_bucket h2.len)).get_slot_entry h2.offset j = a.get h2 j
    rw [updf_other _ _ _ _ (fun hc => hbq hc.symm)]
    rfl

theorem allocator_free_state {α : Type} (a : Allocator α) (hdl : AllocatorHandle) :
    (a.free hdl).1 = ⟨hdl.len, 0⟩ ∧
    (∀ i, ((a.free hdl).2.buckets i).buf = (a.buckets i).buf ∧
      ((a.free hdl).2.buckets i).len = (a.buckets i).len ∧
      ((a.free hdl).2.buckets i).spacing = (a.buckets i).spacing) ∧
    ((a.free hdl).2.buckets (choose_bucket hdl.len)).freelist =
      hdl.offset :: (a.buckets (choose_bucket hdl.len)).freelist ∧
    (∀ i, i ≠ choose_bucket hdl.len →
      ((a.free hdl).2.buckets i).freelist = (a.buckets i).freelist) := by
  refine ⟨rfl, ?_, ?_, ?_⟩
  · intro i
    simp only [Allocator.free, updf]
    split
    · next h => subst h; exact ⟨rfl, rfl, rfl⟩
    · exact ⟨rfl, rfl, rfl⟩
  · show ((updf a.buckets (choose_bucket hdl.len)
      ((a.buckets (choose_bucket hdl.len)).free_slot hdl.offset))
      (choose_bucket hdl.len)).freelist = _
    rw [updf_self]
    rfl
  · intro i hi
    show ((updf a.buckets (choose_bucket hdl.len)
      ((a.buckets (choose_bucket hdl.len)).free_slot hdl.offset)) i).freelist = _
    rw [updf_other _ _ _ _ hi]

theorem allocator_free_inv {α : Type} (a : Allocator α) (hdl : AllocatorHandle)
    (hinv : AllocInv a) (hok : HdlOk a hdl) : AllocInv (a.free hdl).2 := by
  intro i hi
  obtain ⟨_, hbufs, hfl, hflo⟩ := allocator_free_state a hdl
  obtain ⟨ha, hb, hc, hd, he⟩ := hinv i hi
  by_cases hieq : i = choose_bucket hdl.len
  · subst hieq
    refine ⟨by rw [(hbufs _).2.2]; exact ha, hb, by rw [(hbufs _).2.1]; exact hc, ?_, ?_⟩
    · rw [hfl, (hbufs _).2.1]
      intro s hs
      rcases List.mem_cons.mp hs with h | h
      · subst h
        exact ⟨hok.2.1, hok.2.2.1⟩
      · exact hd s h
    · rw [hfl]
      exact List.nodup_cons.mpr ⟨hok.2.2.2, he⟩
  · refine ⟨by rw [(hbufs i).2.2]; exact ha, hb, by rw [(hbufs i).2.1]; exact hc, ?_, ?_⟩
    · rw [hflo i hieq, (hbufs i).2.1]
      exact hd
    · rw [hflo i hieq]
      exact he

theorem allocator_free_hdlok {α : Type} (a : Allocator α) (hdl h2 : AllocatorHandle)
    (hok2 : HdlOk a h2) (hdisj : HdlDisj hdl h2) : HdlOk (a.free hdl).2 h2 := by
  obtain ⟨_, hbufs, hfl, hflo⟩ := allocator_free_state a hdl
  obtain ⟨ha, hb, hc, hd⟩ := hok2
  refine ⟨ha, hb, by rw [(hbufs _).2.1]; exact hc, ?_⟩
  by_cases hieq : choose_bucket h2.len = choose_bucket hdl.len
  · rw [hieq, hfl]
    intro hmem
    rcases List.mem_cons.mp hmem with h | h
    · rcases hdisj with hx | hx
      · exact hx (by rw [hieq])
      · exact hx (by rw [h])
    · rw [hieq] at hd
      exact hd h
  · rw [hflo _ hieq]
    exact hd

theorem allocator_free_get {α : Type} (a : Allocator α) (hdl h2 : AllocatorHandle)
    (j : Nat) : (a.free hdl).2.get h2 j = a.get h2 j := by
  obtain ⟨_, hbufs, _, _⟩ := allocator_free_state a hdl
  simp only [Allocator.get, BucketVec.get_slot_entry]
  rw [(hbufs _).1]

/-- A cell of one aligned slot lies outside any other aligned slot's window. -/
theorem aligned_window_outside (sp s1 s2 j : Nat) (hd1 : sp ∣ s1) (hd2 : sp ∣ s2)
    (hne : s1 ≠ s2) (hj : j < sp) : s2 + j < s1 ∨ s1 + sp ≤ s2 + j := by
  obtain ⟨q1, hq1⟩ := hd1
  obtain ⟨q2, hq2⟩ := hd2
  subst hq1
  subst hq2
  rcases Nat.lt_trichotomy q1 q2 with h | h | h
  · right
    calc sp * q1 + sp = sp * (q1 + 1) := by ring
    _ ≤ sp * q2 := Nat.mul_le_mul_left sp (by omega)
    _ ≤ sp * q2 + j := by omega
  · exact absurd (by rw [h]) hne
  · left
    calc sp * q2 + j < sp * q2 + sp := by omega
    _ = sp * (q2 + 1) := by ring
    _ ≤ sp * q1 := Nat.mul_le_mul_left sp (by omega)

theorem free_slot_bucketInv {α : Type} (b : BucketVec α) (sp s : Nat)
    (h : bucketInv b sp) (hd : sp ∣ s) (hl : s + sp ≤ b.len) (hn : s ∉ b.freelist) :
    bucketInv (b.free_slot s) sp := by
  obtain ⟨h1, h2, h3, h4, h5⟩ := h
  refine ⟨h1, h2, h3, ?_, List.nodup_cons.mpr ⟨hn, h5⟩⟩
  intro x hx
  rcases List.mem_cons.mp hx with hx | hx
  · subst hx
    exact ⟨hd, hl⟩
  · exact h4 x hx

/-- Structural effects and framing for `Allocator.insert`. -/
theorem allocator_insert_ok {α : Type} (a : Allocator α) (hdl : AllocatorHandle)
    (index : Nat) (v : α) (hinv : AllocInv a) (hok : HdlOk a hdl) (hlen : hdl.len < 32)
    (hidx : index ≤ hdl.len) :
    AllocInv (a.insert hdl index v).2 ∧
    HdlOk (a.insert hdl index v).2 (a.insert hdl index v).1 ∧
    (a.insert hdl index v).1.len = hdl.len + 1 ∧
    (∀ h2, HdlOk a h2 → HdlDisj hdl h2 →
      HdlOk (a.insert hdl index v).2 h2 ∧ HdlDisj (a.insert hdl index v).1 h2 ∧
      (∀ j, j < SPACINGS.getD (choose_bucket h2.len) 0 →
        (a.insert hdl index v).2.get h2 j = a.get h2 j)) := by
  have hb1lt : choose_bucket hdl.len < 9 := choose_bucket_lt9 _
  have hb2lt : choose_bucket (hdl.len + 1) < 9 := choose_bucket_lt9 _
  have hbi1 := hinv _ hb1lt
  have hbi2 := hinv _ hb2lt
  have hsp1 : (a.buckets (choose_bucket hdl.len)).spacing =
      SPACINGS.getD (choose_bucket hdl.len) 0 := hbi1.1
  have hsp1len : hdl.len ≤ SPACINGS.getD (choose_bucket hdl.len) 0 :=
    len_le_spacing _ (by omega)
  have hsp2len : hdl.len + 1 ≤ SPACINGS.getD (choose_bucket (hdl.len + 1)) 0 :=
    len_le_spacing _ (by omega)
  by_cases hb : choose_bucket hdl.len = choose_bucket (hdl.len + 1)
  · rw [allocator_insert_same a hdl index v hb]
    have hspeq : SPACINGS.getD (choose_bucket (hdl.len + 1)) 0 =
        SPACINGS.getD (choose_bucket hdl.len) 0 := by rw [hb]
    set X := (a.buckets (choose_bucket hdl.len)).insert_slot_entry hdl.offset index v
      with hX
    have hfl : ∀ i, ((updf a.buckets (choose_bucket hdl.len) X) i).freelist =
        (a.buckets i).freelist ∧
        ((updf a.buckets (choose_bucket hdl.len) X) i).len = (a.buckets i).len ∧
        ((updf a.buckets (choose_bucket hdl.len) X) i).spacing =
          (a.buckets i).spacing := by
      intro i
      by_cases hi : i = choose_bucket hdl.len
      · subst hi
        rw [updf_self]
        exact ⟨rfl, rfl, rfl⟩
      · rw [updf_other _ _ _ _ hi]
        exact ⟨rfl, rfl, rfl⟩
    refine ⟨?_, ?_, rfl, ?_⟩
    · intro i hi
      obtain ⟨h1f, h2f, h3f⟩ := hfl i
      obtain ⟨ha, hc, hd, he, hg⟩ := hinv i hi
      exact ⟨by rw [h3f]; exact ha, hc, by rw [h2f]; exact hd,
        by rw [h1f, h2f]; exact he, by rw [h1f]; exact hg⟩
    · refine ⟨?_, ?_, ?_, ?_⟩
      · show hdl.len + 1 ≤ 32
        omega
      · show SPACINGS.getD (choose_bucket (hdl.len + 1)) 0 ∣ hdl.offset
        rw [← hb]
        exact hok.2.1
      · show hdl.offset + SPACINGS.getD (choose_bucket (hdl.len + 1)) 0 ≤
          ((updf a.buckets (choose_bucket hdl.len) X) (choose_bucket (hdl.len + 1))).len
        rw [(hfl _).2.1, ← hb]
        exact hok.2.2.1
      · show hdl.offset ∉
          ((updf a.buckets (choose_bucket hdl.len) X) (choose_bucket (hdl.len + 1))).freelist
        rw [(hfl _).1, ← hb]
        exact hok.2.2.2
    · intro h2 hok2 hdisj
      refine ⟨⟨hok2.1, hok2.2.1, ?_, ?_⟩, ?_, ?_⟩
      · show h2.offset + SPACINGS.getD (choose_bucket h2.len) 0 ≤
          ((updf a.buckets (choose_bucket hdl.len) X) (choose_bucket h2.len)).len
        rw [(hfl _).2.1]
        exact hok2.2.2.1
      · show h2.offset ∉
          ((updf a.buckets (choose_bucket hdl.len) X) (choose_bucket h2.len)).freelist
        rw [(hfl _).1]
        exact hok2.2.2.2
      · show choose_bucket (hdl.len + 1) ≠ choose_bucket h2.len ∨ hdl.offset ≠ h2.offset
        rcases hdisj with h | h
        · exact Or.inl (by rw [← hb]; exact h)
        · exact Or.inr h
      · intro j hj
        show ((updf a.buckets (choose_bucket hdl.len) X)
          (choose_bucket h2.len)).get_slot_entry h2.offset j = a.get h2 j
        by_cases hbq : choose_bucket h2.len = choose_bucket hdl.len
        · have hne : hdl.offset ≠ h2.offset := by
            rcases hdisj with h | h
            · exact absurd hbq.symm h
            · exact h
          rw [hbq, updf_self]
          show X.buf (h2.offset + j) = a.get h2 j
          rw [hX]
          rw [insert_slot_entry_outside _ _ _ _ _ (by rw [hsp1]; omega)
            (by
              rw [hsp1]
              apply aligned_window_outside _ _ _ _ hok.2.1
                (by rw [← hbq]; exact hok2.2.1) hne
              rw [← hbq]
              exact hj)]
          show (a.buckets (choose_bucket hdl.len)).buf (h2.offset + j) = a.get h2 j
          rw [← hbq]
          rfl
        · rw [updf_other _ _ _ _ hbq]
          rfl
  · rw [allocator_insert_diff a hdl index v hb]
    obtain ⟨hai, had, hal, haf, habuf, halen, hasub, hasup⟩ :=
      alloc_slot_bucketInv (a.buckets (choose_bucket (hdl.len + 1)))
        (SPACINGS.getD (choose_bucket (hdl.len + 1)) 0) hbi2
    have hmv := move_slot_dst_len_freelist (a.buckets (choose_bucket hdl.len))
      (a.buckets (choose_bucket (hdl.len + 1))) hdl.offset
    have hsp2 : (a.buckets (choose_bucket (hdl.len + 1))).spacing =
        SPACINGS.getD (choose_bucket (hdl.len + 1)) 0 := hbi2.1
    set B1 := choose_bucket hdl.len with hB1
    set B2 := choose_bucket (hdl.len + 1) with hB2
    set mv := (a.buckets B1).move_slot hdl.offset (a.buckets B2) with hmvdef
    have hd2sp : mv.2.2.spacing = (a.buckets B2).spacing := move_slot_dst_spacing _ _ _
    have hfinal : ∀ i, ((⟨updf (updf (updf a.buckets B1 mv.2.1) B2 mv.2.2) B2
        (mv.2.2.insert_slot_entry mv.1 index v)⟩ : Allocator α).buckets i) =
        (updf (updf (updf a.buckets B1 mv.2.1) B2 mv.2.2) B2
          (mv.2.2.insert_slot_entry mv.1 index v)) i := fun _ => rfl
    have hbk1 : (updf (updf (updf a.buckets B1 mv.2.1) B2 mv.2.2) B2
        (mv.2.2.insert_slot_entry mv.1 index v)) B1 = mv.2.1 := by
      rw [updf_other _ _ _ _ hb, updf_other _ _ _ _ hb, updf_self]
    have hbk2 : (updf (updf (updf a.buckets B1 mv.2.1) B2 mv.2.2) B2
        (mv.2.2.insert_slot_entry mv.1 index v)) B2 =
        mv.2.2.insert_slot_entry mv.1 index v := updf_self _ _ _
    have hbko : ∀ i, i ≠ B1 → i ≠ B2 →
        (updf (updf (updf a.buckets B1 mv.2.1) B2 mv.2.2) B2
          (mv.2.2.insert_slot_entry mv.1 index v)) i = a.buckets i := by
      intro i h1 h2
      rw [updf_other _ _ _ _ h2, updf_other _ _ _ _ h2, updf_other _ _ _ _ h1]
    have hsrc : mv.2.1 = (a.buckets B1).free_slot hdl.offset := rfl
    refine ⟨?_, ?_, rfl, ?_⟩
    · intro i hi
      by_cases h1 : i = B1
      · subst h1
        rw [hfinal, hbk1, hsrc]
        exact free_slot_bucketInv _ _ _ (hinv _ hi) hok.2.1 hok.2.2.1 hok.2.2.2
      · by_cases h2 : i = B2
        · subst h2
          rw [hfinal, hbk2]
          obtain ⟨i1, i2, i3, i4, i5⟩ := hai
          refine ⟨?_, i2, ?_, ?_, ?_⟩
          · rw [insert_slot_entry_spacing, hd2sp, hsp2]
          · rw [show (mv.2.2.insert_slot_entry mv.1 index v).len = mv.2.2.len from rfl,
              hmv.1]
            exact i3
          · rw [insert_slot_entry_freelist,
              show (mv.2.2.insert_slot_entry mv.1 index v).len = mv.2.2.len from rfl,
              hmv.2.1, hmv.1]
            exact i4
          · rw [insert_slot_entry_freelist, hmv.2.1]
            exact i5
        · rw [hfinal, hbko i h1 h2]
          exact hinv i hi
    · refine ⟨?_, ?_, ?_, ?_⟩
      · show hdl.len + 1 ≤ 32
        omega
      · show SPACINGS.getD B2 0 ∣ mv.1
        rw [hmv.2.2]
        exact had
      · show mv.1 + SPACINGS.getD B2 0 ≤ _
        rw [hfinal, hbk2,
          show (mv.2.2.insert_slot_entry mv.1 index v).len = mv.2.2.len from rfl,
          hmv.1, hmv.2.2]
        exact hal
      · show mv.1 ∉ _
        rw [hfinal, hbk2, insert_slot_entry_freelist, hmv.2.1, hmv.2.2]
        exact haf
    · intro h2 hok2 hdisj
      have hok2' : HdlOk (⟨updf (updf (updf a.buckets B1 mv.2.1) B2 mv.2.2) B2
          (mv.2.2.insert_slot_entry mv.1 index v)⟩ : Allocator α) h2 := by
        refine ⟨hok2.1, hok2.2.1, ?_, ?_⟩
        · by_cases hq1 : choose_bucket h2.len = B1
          · rw [hfinal, hq1, hbk1, hsrc,
              show ((a.buckets B1).free_slot hdl.offset).len = (a.buckets B1).len from rfl]
            rw [← hq1]
            exact hok2.2.2.1
          · by_cases hq2 : choose_bucket h2.len = B2
            · rw [hfinal, hq2, hbk2,
                show (mv.2.2.insert_slot_entry mv.1 index v).len = mv.2.2.len from rfl,
                hmv.1]
              calc h2.offset + SPACINGS.getD B2 0
                  = h2.offset + SPACINGS.getD (choose_bucket h2.len) 0 := by rw [hq2]
                _ ≤ (a.buckets (choose_bucket h2.len)).len := hok2.2.2.1
                _ = (a.buckets B2).len := by rw [hq2]
                _ ≤ (a.buckets B2).alloc_slot.2.len := halen
            · rw [hfinal, hbko _ hq1 hq2]
              exact hok2.2.2.1
        · by_cases hq1 : choose_bucket h2.len = B1
          · rw [hfinal, hq1, hbk1, hsrc]
            show h2.offset ∉ hdl.offset :: (a.buckets B1).freelist
            intro hmem
            rcases List.mem_cons.mp hmem with hx | hx
            · rcases hdisj with hy | hy
              · exact hy hq1.symm
              · exact hy hx.symm
            · rw [← hq1] at hx
              exact hok2.2.2.2 hx
          · by_cases hq2 : choose_bucket h2.len = B2
            · rw [hfinal, hq2, hbk2, insert_slot_entry_freelist, hmv.2.1]
              intro hmem
              have := hasub _ hmem
              rw [← hq2] at this
              exact hok2.2.2.2 this
            · rw [hfinal, hbko _ hq1 hq2]
              exact hok2.2.2.2
      refine ⟨hok2', ?_, ?_⟩
      · by_cases hq2 : choose_bucket h2.len = B2
        · refine Or.inr ?_
          show mv.1 ≠ h2.offset
          rw [hmv.2.2]
          apply alloc_slot_fresh _ _ _ hbi2
          · rw [← hq2]
            exact hok2.2.1
          · rw [← hq2]
            exact hok2.2.2.1
          · rw [← hq2]
            exact hok2.2.2.2
        · exact Or.inl (fun hc => hq2 (by rw [← hc]))
      · intro j hj
        by_cases hq2 : choose_bucket h2.len = B2
        · have hfresh : mv.1 ≠ h2.offset := by
            rw [hmv.2.2]
            apply alloc_slot_fresh _ _ _ hbi2
            · rw [← hq2]; exact hok2.2.1
            · rw [← hq2]; exact hok2.2.2.1
            · rw [← hq2]; exact hok2.2.2.2
          show ((updf (updf (updf a.buckets B1 mv.2.1) B2 mv.2.2) B2
            (mv.2.2.insert_slot_entry mv.1 index v)) (choose_bucket h2.len)).get_slot_entry
            h2.offset j = _
          rw [hq2, hbk2]
          show (mv.2.2.insert_slot_entry mv.1 index v).buf (h2.offset + j) = _
          have houts : h2.offset + j < mv.1 ∨ mv.1 + mv.2.2.spacing ≤ h2.offset + j := by
            rw [hd2sp, hsp2]
            apply aligned_window_outside _ _ _ _ (by rw [hmv.2.2]; exact had)
              (by rw [← hq2]; exact hok2.2.1) hfresh
            rw [← hq2]
            exact hj
          rw [insert_slot_entry_outside _ _ _ _ _ (by rw [hd2sp, hsp2]; omega) houts]
          rw [move_slot_outside]
          · show (a.buckets B2).buf (h2.offset + j) = _
            rw [← hq2]
            rfl
          · have hmin : min (a.buckets B1).spacing (a.buckets B2).spacing ≤
                mv.2.2.spacing := by
              rw [hd2sp]
              exact min_le_right _ _
            have hp : ((a.buckets B1).move_slot hdl.offset (a.buckets B2)).1 = mv.1 :=
              rfl
            rw [hp]
            rcases houts with hx | hx
            · left
              exact hx
            · right
              omega
        · by_cases hq1 : choose_bucket h2.len = B1
          · show ((updf (updf (updf a.buckets B1 mv.2.1) B2 mv.2.2) B2
              (mv.2.2.insert_slot_entry mv.1 index v)) (choose_bucket h2.len)).get_slot_entry
              h2.offset j = _
            rw [hq1, hbk1, hsrc]
            show (a.buckets B1).buf (h2.offset + j) = _
            rw [← hq1]
            rfl
          · show ((updf (updf (updf a.buckets B1 mv.2.1) B2 mv.2.2) B2
              (mv.2.2.insert_slot_entry mv.1 index v)) (choose_bucket h2.len)).get_slot_entry
              h2.offset j = _
            rw [hbko _ hq1 hq2]
            rfl

theorem allocator_remove_same {α : Type} (a : Allocator α) (hdl : AllocatorHandle)
    (index : Nat) (h : choose_bucket hdl.len = choose_bucket (hdl.len - 1)) :
    a.remove hdl index =
      (((a.buckets (choose_bucket hdl.len)).remove_slot_entry hdl.offset index).1,
       ⟨hdl.len - 1, hdl.offset⟩,
       ⟨updf a.buckets (choose_bucket hdl.len)
          ((a.buckets (choose_bucket hdl.len)).remove_slot_entry hdl.offset index).2⟩) := by
  simp only [Allocator.remove]
  rw [if_pos h]

theorem allocator_remove_diff {α : Type} (a : Allocator α) (hdl : AllocatorHandle)
    (index : Nat) (h : ¬ choose_bucket hdl.len = choose_bucket (hdl.len - 1)) :
    a.remove hdl index =
      (((a.buckets (choose_bucket hdl.len)).remove_slot_entry hdl.offset index).1,
       ⟨hdl.len - 1,
        (((a.buckets (choose_bucket hdl.len)).remove_slot_entry hdl.offset index).2.move_slot
          hdl.offset (a.buckets (choose_bucket (hdl.len - 1)))).1⟩,
       ⟨updf (updf (updf a.buckets (choose_bucket hdl.len)
          ((a.buckets (choose_bucket hdl.len)).remove_slot_entry hdl.offset index).2)
          (choose_bucket hdl.len)
          (((a.buckets (choose_bucket hdl.len)).remove_slot_entry hdl.offset index).2.move_slot
            hdl.offset (a.buckets (choose_bucket (hdl.len - 1)))).2.1)
          (choose_bucket (hdl.len - 1))
          (((a.buckets (choose_bucket hdl.len)).remove_slot_entry hdl.offset index).2.move_slot
            hdl.offset (a.buckets (choose_bucket (hdl.len - 1)))).2.2⟩) := by
  simp only [Allocator.remove]
  rw [if_neg h]
  have e1 : (updf a.buckets (choose_bucket hdl.len)
      ((a.buckets (choose_bucket hdl.len)).remove_slot_entry hdl.offset index).2)
      (choose_bucket hdl.len) =
      ((a.buckets (choose_bucket hdl.len)).remove_slot_entry hdl.offset index).2 :=
    updf_self _ _ _
  have e2 : (updf a.buckets (choose_bucket hdl.len)
      ((a.buckets (choose_bucket hdl.len)).remove_slot_entry hdl.offset index).2)
      (choose_bucket (hdl.len - 1)) = a.buckets (choose_bucket (hdl.len - 1)) :=
    updf_other _ _ _ _ (fun hc => h hc.symm)
  rw [e1, e2]

theorem allocator_remove_ret {α : Type} (a : Allocator α) (hdl : AllocatorHandle)
    (index : Nat) : (a.remove hdl index).1 = a.get hdl index := by
  simp only [Allocator.remove]
  split <;> rfl

theorem remove_slot_entry_structure {α : Type} (b : BucketVec α) (slot index : Nat) :
    (b.remove_slot_entry slot index).2.freelist = b.freelist ∧
    (b.remove_slot_entry slot index).2.len = b.len ∧
    (b.remove_slot_entry slot index).2.spacing = b.spacing := ⟨rfl, rfl, rfl⟩

theorem remove_slot_entry_bucketInv {α : Type} (b : BucketVec α) (sp slot index : Nat)
    (h : bucketInv b sp) : bucketInv (b.remove_slot_entry slot index).2 sp := h

/-- Structural effects, contents and framing for `Allocator.remove`. -/
theorem allocator_remove_ok {α : Type} (a : Allocator α) (hdl : AllocatorHandle)
    (index : Nat) (hinv : AllocInv a) (hok : HdlOk a hdl) (hlen1 : 1 ≤ hdl.len)
    (hidx : index < hdl.len) :
    AllocInv (a.remove hdl index).2.2 ∧
    HdlOk (a.remove hdl index).2.2 (a.remove hdl index).2.1 ∧
    (a.remove hdl index).2.1.len = hdl.len - 1 ∧
    (∀ j, j < index → (a.remove hdl index).2.2.get (a.remove hdl index).2.1 j =
      a.get hdl j) ∧
    (∀ j, index ≤ j → j + 1 < hdl.len →
      (a.remove hdl index).2.2.get (a.remove hdl index).2.1 j = a.get hdl (j + 1)) ∧
    (∀ h2, HdlOk a h2 → HdlDisj hdl h2 →
      HdlOk (a.remove hdl index).2.2 h2 ∧ HdlDisj (a.remove hdl index).2.1 h2 ∧
      (∀ j, j < SPACINGS.getD (choose_bucket h2.len) 0 →
        (a.remove hdl index).2.2.get h2 j = a.get h2 j)) := by
  have hlen32 : hdl.len ≤ 32 := hok.1
  have hb1lt : choose_bucket hdl.len < 9 := choose_bucket_lt9 _
  have hb2lt : choose_bucket (hdl.len - 1) < 9 := choose_bucket_lt9 _
  have hbi1 := hinv _ hb1lt
  have hbi2 := hinv _ hb2lt
  have hsp1 : (a.buckets (choose_bucket hdl.len)).spacing =
      SPACINGS.getD (choose_bucket hdl.len) 0 := hbi1.1
  have hsp2b : (a.buckets (choose_bucket (hdl.len - 1))).spacing =
      SPACINGS.getD (choose_bucket (hdl.len - 1)) 0 := hbi2.1
  have hsp1len : hdl.len ≤ SPACINGS.getD (choose_bucket hdl.len) 0 :=
    len_le_spacing _ (by omega)
  have hsp2len : hdl.len - 1 ≤ SPACINGS.getD (choose_bucket (hdl.len - 1)) 0 :=
    len_le_spacing _ (by omega)
  by_cases hb : choose_bucket hdl.len = choose_bucket (hdl.len - 1)
  · rw [allocator_remove_same a hdl index hb]
    set X := ((a.buckets (choose_bucket hdl.len)).remove_slot_entry hdl.offset index).2
      with hX
    have hfl : ∀ i, ((updf a.buckets (choose_bucket hdl.len) X) i).freelist =
        (a.buckets i).freelist ∧
        ((updf a.buckets (choose_bucket hdl.len) X) i).len = (a.buckets i).len ∧
        ((updf a.buckets (choose_bucket hdl.len) X) i).spacing =
          (a.buckets i).spacing := by
      intro i
      by_cases hi : i = choose_bucket hdl.len
      · subst hi
        rw [updf_self]
        exact ⟨rfl, rfl, rfl⟩
      · rw [updf_other _ _ _ _ hi]
        exact ⟨rfl, rfl, rfl⟩
    refine ⟨?_, ?_, rfl, ?_, ?_, ?_⟩
    · intro i hi
      obtain ⟨h1f, h2f, h3f⟩ := hfl i
      obtain ⟨ha, hc, hd, he, hg⟩ := hinv i hi
      exact ⟨by rw [h3f]; exact ha, hc, by rw [h2f]; exact hd,
        by rw [h1f, h2f]; exact he, by rw [h1f]; exact hg⟩
    · refine ⟨?_, ?_, ?_, ?_⟩
      · show hdl.len - 1 ≤ 32
        omega
      · show SPACINGS.getD (choose_bucket (hdl.len - 1)) 0 ∣ hdl.offset
        rw [← hb]
        exact hok.2.1
      · show hdl.offset + SPACINGS.getD (choose_bucket (hdl.len - 1)) 0 ≤
          ((updf a.buckets (choose_bucket hdl.len) X) (choose_bucket (hdl.len - 1))).len
        rw [(hfl _).2.1, ← hb]
        exact hok.2.2.1
      · show hdl.offset ∉
          ((updf a.buckets (choose_bucket hdl.len) X) (choose_bucket (hdl.len - 1))).freelist
        rw [(hfl _).1, ← hb]
        exact hok.2.2.2
    · intro j hj
      show ((updf a.buckets (choose_bucket hdl.len) X)
        (choose_bucket (hdl.len - 1))).get_slot_entry hdl.offset j = a.get hdl j
      rw [← hb, updf_self, hX]
      exact get_remove_slot_lt _ _ _ _ hj
    · intro j hj1 hj2
      show ((updf a.buckets (choose_bucket hdl.len) X)
        (choose_bucket (hdl.len - 1))).get_slot_entry hdl.offset j = a.get hdl (j + 1)
      rw [← hb, updf_self, hX]
      exact get_remove_slot_ge _ _ _ _ hj1 (by rw [hsp1]; omega)
    · intro h2 hok2 hdisj
      refine ⟨⟨hok2.1, hok2.2.1, ?_, ?_⟩, ?_, ?_⟩
      · show h2.offset + SPACINGS.getD (choose_bucket h2.len) 0 ≤
          ((updf a.buckets (choose_bucket hdl.len) X) (choose_bucket h2.len)).len
        rw [(hfl _).2.1]
        exact hok2.2.2.1
      · show h2.offset ∉
          ((updf a.buckets (choose_bucket hdl.len) X) (choose_bucket h2.len)).freelist
        rw [(hfl _).1]
        exact hok2.2.2.2
      · show choose_bucket (hdl.len - 1) ≠ choose_bucket h2.len ∨ hdl.offset ≠ h2.offset
        rcases hdisj with h | h
        · exact Or.inl (by rw [← hb]; exact h)
        · exact Or.inr h
      · intro j hj
        show ((updf a.buckets (choose_bucket hdl.len) X)
          (choose_bucket h2.len)).get_slot_entry h2.offset j = a.get h2 j
        by_cases hbq : choose_bucket h2.len = choose_bucket hdl.len
        · have hne : hdl.offset ≠ h2.offset := by
            rcases hdisj with h | h
            · exact absurd hbq.symm h
            · exact h
          rw [hbq, updf_self]
          show X.buf (h2.offset + j) = a.get h2 j
          rw [hX]
          rw [remove_slot_entry_outside _ _ _ _
            (by
              rw [hsp1]
              apply aligned_window_outside _ _ _ _ hok.2.1
                (by rw [← hbq]; exact hok2.2.1) hne
              rw [← hbq]
              exact hj)]
          show (a.buckets (choose_bucket hdl.len)).buf (h2.offset + j) = a.get h2 j
          rw [← hbq]
          rfl
        · rw [updf_other _ _ _ _ hbq]
          rfl
  · rw [allocator_remove_diff a hdl index hb]
    set X := ((a.buckets (choose_bucket hdl.len)).remove_slot_entry hdl.offset index).2
      with hX
    have hXstr : X.freelist = (a.buckets (choose_bucket hdl.len)).freelist ∧
        X.len = (a.buckets (choose_bucket hdl.len)).len ∧
        X.spacing = (a.buckets (choose_bucket hdl.len)).spacing := ⟨rfl, rfl, rfl⟩
    obtain ⟨hai, had, hal, haf, habuf, halen, hasub, hasup⟩ :=
      alloc_slot_bucketInv (a.buckets (choose_bucket (hdl.len - 1)))
        (SPACINGS.getD (choose_bucket (hdl.len - 1)) 0) hbi2
    set B1 := choose_bucket hdl.len with hB1
    set B2 := choose_bucket (hdl.len - 1) with hB2
    set mv := X.move_slot hdl.offset (a.buckets B2) with hmvdef
    have hmv := move_slot_dst_len_freelist X (a.buckets B2) hdl.offset
    have hd2sp : mv.2.2.spacing = (a.buckets B2).spacing := move_slot_dst_spacing _ _ _
    have hbk1 : (updf (updf (updf a.buckets B1 X) B1 mv.2.1) B2 mv.2.2) B1 = mv.2.1 := by
      rw [updf_other _ _ _ _ hb, updf_self]
    have hbk2 : (updf (updf (updf a.buckets B1 X) B1 mv.2.1) B2 mv.2.2) B2 = mv.2.2 :=
      updf_self _ _ _
    have hbko : ∀ i, i ≠ B1 → i ≠ B2 →
        (updf (updf (updf a.buckets B1 X) B1 mv.2.1) B2 mv.2.2) i = a.buckets i := by
      intro i h1 h2
      rw [updf_other _ _ _ _ h2, updf_other _ _ _ _ h1, updf_other _ _ _ _ h1]
    have hsrc : mv.2.1 = X.free_slot hdl.offset := rfl
    have hXinv : bucketInv X (SPACINGS.getD B1 0) := hbi1
    refine ⟨?_, ?_, rfl, ?_, ?_, ?_⟩
    · intro i hi
      by_cases h1 : i = B1
      · subst h1
        show bucketInv ((updf (updf (updf a.buckets B1 X) B1 mv.2.1) B2 mv.2.2) B1) _
        rw [hbk1, hsrc]
        apply free_slot_bucketInv _ _ _ hXinv hok.2.1
        · rw [hXstr.2.1]
          exact hok.2.2.1
        · rw [hXstr.1]
          exact hok.2.2.2
      · by_cases h2 : i = B2
        · subst h2
          show bucketInv ((updf (updf (updf a.buckets B1 X) B1 mv.2.1) B2 mv.2.2) B2) _
          rw [hbk2]
          obtain ⟨i1, i2, i3, i4, i5⟩ := hai
          refine ⟨by rw [hd2sp, hsp2b], i2, by rw [hmv.1]; exact i3, ?_, ?_⟩
          · rw [hmv.2.1, hmv.1]
            exact i4
          · rw [hmv.2.1]
            exact i5
        · show bucketInv ((updf (updf (updf a.buckets B1 X) B1 mv.2.1) B2 mv.2.2) i) _
          rw [hbko i h1 h2]
          exact hinv i hi
    · refine ⟨?_, ?_, ?_, ?_⟩
      · show hdl.len - 1 ≤ 32
        omega
      · show SPACINGS.getD B2 0 ∣ mv.1
        rw [hmv.2.2]
        exact had
      · show mv.1 + SPACINGS.getD B2 0 ≤
          ((updf (updf (updf a.buckets B1 X) B1 mv.2.1) B2 mv.2.2) B2).len
        rw [hbk2, hmv.1, hmv.2.2]
        exact hal
      · show mv.1 ∉ ((updf (updf (updf a.buckets B1 X) B1 mv.2.1) B2 mv.2.2) B2).freelist
        rw [hbk2, hmv.2.1, hmv.2.2]
        exact haf
    · intro j hj
      show ((updf (updf (updf a.buckets B1 X) B1 mv.2.1) B2 mv.2.2) B2).get_slot_entry
        mv.1 j = a.get hdl j
      rw [hbk2]
      show mv.2.2.buf (mv.1 + j) = a.get hdl j
      have hcopy : mv.2.2.buf (mv.1 + j) = X.buf (hdl.offset + j) := by
        have h1 : j < min X.spacing (a.buckets B2).spacing := by
          rw [hXstr.2.2, hsp1, hsp2b]
          omega
        have := move_slot_get X (a.buckets B2) hdl.offset j h1
        simp only [BucketVec.get_slot_entry] at this
        exact this
      rw [hcopy, hX]
      exact get_remove_slot_lt _ _ _ _ hj
    · intro j hj1 hj2
      show ((updf (updf (updf a.buckets B1 X) B1 mv.2.1) B2 mv.2.2) B2).get_slot_entry
        mv.1 j = a.get hdl (j + 1)
      rw [hbk2]
      show mv.2.2.buf (mv.1 + j) = a.get hdl (j + 1)
      have hcopy : mv.2.2.buf (mv.1 + j) = X.buf (hdl.offset + j) := by
        have h1 : j < min X.spacing (a.buckets B2).spacing := by
          rw [hXstr.2.2, hsp1, hsp2b]
          omega
        have := move_slot_get X (a.buckets B2) hdl.offset j h1
        simp only [BucketVec.get_slot_entry] at this
        exact this
      rw [hcopy, hX]
      exact get_remove_slot_ge _ _ _ _ hj1 (by rw [hsp1]; omega)
    · intro h2 hok2 hdisj
      have hok2' : HdlOk (⟨updf (updf (updf a.buckets B1 X) B1 mv.2.1) B2 mv.2.2⟩ :
          Allocator α) h2 := by
        refine ⟨hok2.1, hok2.2.1, ?_, ?_⟩
        · by_cases hq1 : choose_bucket h2.len = B1
          · show h2.offset + SPACINGS.getD (choose_bucket h2.len) 0 ≤
              ((updf (updf (updf a.buckets B1 X) B1 mv.2.1) B2 mv.2.2)
                (choose_bucket h2.len)).len
            rw [hq1, hbk1, hsrc,
              show (X.free_slot hdl.offset).len = X.len from rfl, hXstr.2.1, ← hq1]
            exact hok2.2.2.1
          · by_cases hq2 : choose_bucket h2.len = B2
            · show h2.offset + SPACINGS.getD (choose_bucket h2.len) 0 ≤
                ((updf (updf (updf a.buckets B1 X) B1 mv.2.1) B2 mv.2.2)
                  (choose_bucket h2.len)).len
              rw [hq2, hbk2]
              rw [show mv.2.2.len = (a.buckets B2).alloc_slot.2.len from
                (move_slot_dst_len_freelist X (a.buckets B2) hdl.offset).1]
              calc h2.offset + SPACINGS.getD B2 0
                  = h2.offset + SPACINGS.getD (choose_bucket h2.len) 0 := by rw [hq2]
                _ ≤ (a.buckets (choose_bucket h2.len)).len := hok2.2.2.1
                _ = (a.buckets B2).len := by rw [hq2]
                _ ≤ (a.buckets B2).alloc_slot.2.len := halen
            · show h2.offset + SPACINGS.getD (choose_bucket h2.len) 0 ≤
                ((updf (updf (updf a.buckets B1 X) B1 mv.2.1) B2 mv.2.2)
                  (choose_bucket h2.len)).len
              rw [hbko _ hq1 hq2]
              exact hok2.2.2.1
        · by_cases hq1 : choose_bucket h2.len = B1
          · show h2.offset ∉ ((updf (updf (updf a.buckets B1 X) B1 mv.2.1) B2 mv.2.2)
              (choose_bucket h2.len)).freelist
            rw [hq1, hbk1, hsrc]
            show h2.offset ∉ hdl.offset :: X.freelist
            intro hmem
            rcases List.mem_cons.mp hmem with hx | hx
            · rcases hdisj with hy | hy
              · exact hy hq1.symm
              · exact hy hx.symm
            · rw [hXstr.1, ← hq1] at hx
              exact hok2.2.2.2 hx
          · by_cases hq2 : choose_bucket h2.len = B2
            · show h2.offset ∉ ((updf (updf (updf a.buckets B1 X) B1 mv.2.1) B2 mv.2.2)
                (choose_bucket h2.len)).freelist
              rw [hq2, hbk2, hmv.2.1]
              intro hmem
              have := hasub _ hmem
              rw [← hq2] at this
              exact hok2.2.2.2 this
            · show h2.offset ∉ ((updf (updf (updf a.buckets B1 X) B1 mv.2.1) B2 mv.2.2)
                (choose_bucket h2.len)).freelist
              rw [hbko _ hq1 hq2]
              exact hok2.2.2.2
      refine ⟨hok2', ?_, ?_⟩
      · by_cases hq2 : choose_bucket h2.len = B2
        · refine Or.inr ?_
          show mv.1 ≠ h2.offset
          rw [hmv.2.2]
          apply alloc_slot_fresh _ _ _ hbi2
          · rw [← hq2]
            exact hok2.2.1
          · rw [← hq2]
            exact hok2.2.2.1
          · rw [← hq2]
            exact hok2.2.2.2
        · exact Or.inl (fun hc => hq2 (by rw [← hc]))
      · intro j hj
        by_cases hq2 : choose_bucket h2.len = B2
        · have hfresh : mv.1 ≠ h2.offset := by
            rw [hmv.2.2]
            apply alloc_slot_fresh _ _ _ hbi2
            · rw [← hq2]; exact hok2.2.1
            · rw [← hq2]; exact hok2.2.2.1
            · rw [← hq2]; exact hok2.2.2.2
          show ((updf (updf (updf a.buckets B1 X) B1 mv.2.1) B2 mv.2.2)
            (choose_bucket h2.len)).get_slot_entry h2.offset j = a.get h2 j
          rw [hq2, hbk2]
          show mv.2.2.buf (h2.offset + j) = a.get h2 j
          have houts : h2.offset + j < mv.1 ∨ mv.1 + mv.2.2.spacing ≤ h2.offset + j := by
            rw [hd2sp, hsp2b]
            apply aligned_window_outside _ _ _ _ (by rw [hmv.2.2]; exact had)
              (by rw [← hq2]; exact hok2.2.1) hfresh
            rw [← hq2]
            exact hj
          rw [move_slot_outside]
          · show (a.buckets B2).buf (h2.offset + j) = a.get h2 j
            rw [← hq2]
            rfl
          · have hmin : min X.spacing (a.buckets B2).spacing ≤ mv.2.2.spacing := by
              rw [hd2sp]
              exact min_le_right _ _
            have hp : (X.move_slot hdl.offset (a.buckets B2)).1 = mv.1 := rfl
            rw [hp]
            rcases houts with hx | hx
            · left
              exact hx
            · right
              omega
        · by_cases hq1 : choose_bucket h2.len = B1
          · have hne : hdl.offset ≠ h2.offset := by
              rcases hdisj with h | h
              · exact absurd hq1.symm h
              · exact h
            show ((updf (updf (updf a.buckets B1 X) B1 mv.2.1) B2 mv.2.2)
              (choose_bucket h2.len)).get_slot_entry h2.offset j = a.get h2 j
            rw [hq1, hbk1, hsrc]
            show X.buf (h2.offset + j) = a.get h2 j
            rw [hX]
            rw [remove_slot_entry_outside _ _ _ _
              (by
                rw [hsp1]
                apply aligned_window_outside _ _ _ _ hok.2.1
                  (by
                    show SPACINGS.getD B1 0 ∣ h2.offset
                    rw [← hq1]
                    exact hok2.2.1) hne
                show j < SPACINGS.getD B1 0
                rw [← hq1]
                exact hj)]
            show (a.buckets B1).buf (h2.offset + j) = a.get h2 j
            rw [← hq1]
            rfl
          · show ((updf (updf (updf a.buckets B1 X) B1 mv.2.1) B2 mv.2.2)
              (choose_bucket h2.len)).get_slot_entry h2.offset j = a.get h2 j
            rw [hbko _ hq1 hq2]
            rfl

theorem hdlDisj_symm {h1 h2 : AllocatorHandle} (h : HdlDisj h1 h2) : HdlDisj h2 h1 := by
  rcases h with h | h
  · exact Or.inl (fun hc => h hc.symm)
  · exact Or.inr (fun hc => h hc.symm)

/-- Structural effects and framing for `Allocator.alloc`. -/
theorem allocator_alloc_ok {α : Type} (a : Allocator α) (count : Nat)
    (hinv : AllocInv a) (hc : count ≤ 32) :
    AllocInv (a.alloc count).2 ∧
    HdlOk (a.alloc count).2 (a.alloc count).1 ∧
    (a.alloc count).1.len = count ∧
    (∀ h2 j, (a.alloc count).2.get h2 j = a.get h2 j) ∧
    (∀ h2, HdlOk a h2 → HdlOk (a.alloc count).2 h2 ∧ HdlDisj (a.alloc count).1 h2) := by
  have hblt : choose_bucket count < 9 := choose_bucket_lt9 _
  obtain ⟨hai, had, hal, haf, habuf, halen, hasub, hasup⟩ :=
    alloc_slot_bucketInv (a.buckets (choose_bucket count))
      (SPACINGS.getD (choose_bucket count) 0) (hinv _ hblt)
  set B := choose_bucket count with hB
  have hbk : ∀ i, ((a.alloc count).2.buckets i) =
      updf a.buckets B (a.buckets B).alloc_slot.2 i := fun _ => rfl
  have hoff : (a.alloc count).1 = ⟨count, (a.buckets B).alloc_slot.1⟩ := rfl
  refine ⟨?_, ?_, rfl, ?_, ?_⟩
  · intro i hi
    rw [hbk]
    by_cases h1 : i = B
    · subst h1
      rw [updf_self]
      exact hai
    · rw [updf_other _ _ _ _ h1]
      exact hinv i hi
  · refine ⟨hc, ?_, ?_, ?_⟩
    · show SPACINGS.getD B 0 ∣ (a.buckets B).alloc_slot.1
      exact had
    · show (a.buckets B).alloc_slot.1 + SPACINGS.getD B 0 ≤
        ((a.alloc count).2.buckets B).len
      rw [hbk, updf_self]
      exact hal
    · show (a.buckets B).alloc_slot.1 ∉ ((a.alloc count).2.buckets B).freelist
      rw [hbk, updf_self]
      exact haf
  · intro h2 j
    show ((a.alloc count).2.buckets (choose_bucket h2.len)).get_slot_entry h2.offset j =
      (a.buckets (choose_bucket h2.len)).get_slot_entry h2.offset j
    rw [hbk]
    by_cases h1 : choose_bucket h2.len = B
    · rw [h1, updf_self]
      show (a.buckets B).alloc_slot.2.buf _ = _
      rw [habuf]
      rfl
    · rw [updf_other _ _ _ _ h1]
  · intro h2 hok2
    constructor
    · refine ⟨hok2.1, hok2.2.1, ?_, ?_⟩
      · rw [hbk]
        by_cases h1 : choose_bucket h2.len = B
        · rw [h1, updf_self]
          calc h2.offset + SPACINGS.getD B 0 ≤ (a.buckets B).len := by
                rw [← h1]
                exact hok2.2.2.1
          _ ≤ (a.buckets B).alloc_slot.2.len := halen
        · rw [updf_other _ _ _ _ h1]
          exact hok2.2.2.1
      · rw [hbk]
        by_cases h1 : choose_bucket h2.len = B
        · rw [h1, updf_self]
          intro hmem
          have := hasub _ hmem
          rw [← h1] at this
          exact hok2.2.2.2 this
        · rw [updf_other _ _ _ _ h1]
          exact hok2.2.2.2
    · by_cases h1 : choose_bucket h2.len = B
      · refine Or.inr ?_
        show (a.buckets B).alloc_slot.1 ≠ h2.offset
        apply alloc_slot_fresh _ _ _ (hinv _ hblt)
        · rw [← h1]
          exact hok2.2.1
        · rw [← h1]
          exact hok2.2.2.1
        · rw [← h1]
          exact hok2.2.2.2
      · refine Or.inl (fun hc => h1 ?_)
        rw [← hc]
        exact hB.symm

/-- Contents of the handle's own collection after `Allocator.insert` (function-indexed;
the hypotheses follow from `AllocInv`). -/
theorem allocator_insert_contents {α : Type} (a : Allocator α) (hdl : AllocatorHandle)
    (i : Nat) (v : α) (es : Nat → α) (hinv : AllocInv a) (hok : HdlOk a hdl)
    (hlen : hdl.len < 32) (hi : i ≤ hdl.len)
    (hget : ∀ j, j < hdl.len → a.get hdl j = es j) :
    (∀ j, j < i → (a.insert hdl i v).2.get (a.insert hdl i v).1 j = es j) ∧
    (a.insert hdl i v).2.get (a.insert hdl i v).1 i = v ∧
    (∀ j, i < j → j < hdl.len + 1 →
      (a.insert hdl i v).2.get (a.insert hdl i v).1 j = es (j - 1)) ∧
    (choose_bucket (hdl.len + 1) = choose_bucket hdl.len →
      (a.insert hdl i v).1.offset = hdl.offset) := by
  have hsp1 : (a.buckets (choose_bucket hdl.len)).spacing =
      SPACINGS.getD (choose_bucket hdl.len) 0 := (hinv _ (choose_bucket_lt9 _)).1
  have hsp2 : (a.buckets (choose_bucket (hdl.len + 1))).spacing =
      SPACINGS.getD (choose_bucket (hdl.len + 1)) 0 := (hinv _ (choose_bucket_lt9 _)).1
  have hsp1len : hdl.len ≤ (a.buckets (choose_bucket hdl.len)).spacing := by
    rw [hsp1]
    exact len_le_spacing hdl.len (by omega)
  have hsp2len : hdl.len + 1 ≤ (a.buckets (choose_bucket (hdl.len + 1))).spacing := by
    rw [hsp2]
    exact len_le_spacing (hdl.len + 1) (by omega)
  by_cases hb : choose_bucket hdl.len = choose_bucket (hdl.len + 1)
  · rw [allocator_insert_same a hdl i v hb]
    have hbb : ∀ (X : BucketVec α),
        (updf a.buckets (choose_bucket hdl.len) X) (choose_bucket (hdl.len + 1)) = X := by
      intro X
      rw [← hb, updf_self]
    refine ⟨?_, ?_, ?_, fun _ => rfl⟩
    · intro j hj
      dsimp only
      rw [allocator_get_mk, hbb, get_insert_slot_lt _ _ _ _ _ hj]
      exact hget j (by omega)
    · dsimp only
      rw [allocator_get_mk, hbb]
      exact get_insert_slot_self _ _ _ _
    · intro j hj1 hj2
      dsimp only
      rw [allocator_get_mk, hbb, get_insert_slot_gt _ _ _ _ _ hj1 (by rw [hb] at hsp1len ⊢; omega)]
      exact hget (j - 1) (by omega)
  · rw [allocator_insert_diff a hdl i v hb]
    have hmin : hdl.len ≤ min (a.buckets (choose_bucket hdl.len)).spacing
        (a.buckets (choose_bucket (hdl.len + 1))).spacing := by omega
    have hd2sp : (((a.buckets (choose_bucket hdl.len)).move_slot hdl.offset
        (a.buckets (choose_bucket (hdl.len + 1)))).2.2).spacing =
        (a.buckets (choose_bucket (hdl.len + 1))).spacing :=
      move_slot_dst_spacing _ _ _
    refine ⟨?_, ?_, ?_, fun hc => absurd hc.symm hb⟩
    · intro j hj
      dsimp only
      rw [allocator_get_mk, updf_self, get_insert_slot_lt _ _ _ _ _ hj,
        move_slot_get _ _ _ _ (by omega)]
      exact hget j (by omega)
    · dsimp only
      rw [allocator_get_mk, updf_self]
      exact get_insert_slot_self _ _ _ _
    · intro j hj1 hj2
      dsimp only
      rw [allocator_get_mk, updf_self, get_insert_slot_gt _ _ _ _ _ hj1 (by rw [hd2sp]; omega),
        move_slot_get _ _ _ _ (by omega)]
      exact hget (j - 1) (by omega)

theorem count_ones_fuel_zero_arg : ∀ f, count_ones_fuel f 0 = 0 := by
  intro f
  cases f <;> rfl

/-- Splitting a popcount at bit `k`: the low `k` bits and the rest count separately. -/
theorem count_ones_fuel_add : ∀ k m n, count_ones_fuel (m + k) n =
    count_ones_fuel k (n % 2 ^ k) + count_ones_fuel m (n / 2 ^ k) := by
  intro k
  induction k with
  | zero =>
    intro m n
    simp [count_ones_fuel, Nat.div_one]
  | succ k ih =>
    intro m n
    have hdvd : (2 : Nat) ∣ 2 ^ (k + 1) := dvd_pow_self 2 (by omega)
    have hmod2 : n % 2 ^ (k + 1) % 2 = n % 2 := Nat.mod_mod_of_dvd n hdvd
    have hmdiv : n % 2 ^ (k + 1) / 2 = n / 2 % 2 ^ k := by
      rw [pow_succ, Nat.mul_comm (2 ^ k) 2]
      exact Nat.mod_mul_right_div_self n 2 (2 ^ k)
    have hddiv : n / 2 ^ (k + 1) = n / 2 / 2 ^ k := by
      rw [Nat.div_div_eq_div_mul, ← pow_succ']
    by_cases hn : n = 0
    · subst hn
      simp [count_ones_fuel_zero_arg, Nat.zero_mod, Nat.zero_div]
    · have hL : count_ones_fuel (m + (k + 1)) n =
          n % 2 + count_ones_fuel (m + k) (n / 2) := by
        show (if n = 0 then 0 else n % 2 + count_ones_fuel (m + k) (n / 2)) = _
        rw [if_neg hn]
      rw [hL, ih m (n / 2)]
      by_cases hz : n % 2 ^ (k + 1) = 0
      · have h2 : n % 2 = 0 := by rw [← hmod2, hz]
        have h3 : n / 2 % 2 ^ k = 0 := by rw [← hmdiv, hz]
        rw [hz, h3, ← hddiv, count_ones_fuel_zero_arg, count_ones_fuel_zero_arg]
        omega
      · have hR : count_ones_fuel (k + 1) (n % 2 ^ (k + 1)) =
            n % 2 ^ (k + 1) % 2 + count_ones_fuel k (n % 2 ^ (k + 1) / 2) := by
          show (if n % 2 ^ (k + 1) = 0 then 0
            else n % 2 ^ (k + 1) % 2 + count_ones_fuel k (n % 2 ^ (k + 1) / 2)) = _
          rw [if_neg hz]
        rw [hR, hmod2, hmdiv, hddiv]
        omega

theorem and_low16 (n : Nat) : n &&& 0xffff = n % 2 ^ 16 := by
  have h : (0xffff : Nat) = 2 ^ 16 - 1 := by norm_num
  rw [h]
  exact Nat.and_pow_two_sub_one_eq_mod n 16

theorem and_high16 (n : Nat) (h : n < 2 ^ 32) :
    n &&& 0xffff0000 = n / 2 ^ 16 * 2 ^ 16 := by
  have hmask : (0xffff0000 : Nat) = (2 ^ 16 - 1) <<< 16 := by
    rw [Nat.shiftLeft_eq]
    norm_num
  have hdm : n / 2 ^ 16 * 2 ^ 16 = (n >>> 16) <<< 16 := by
    rw [Nat.shiftLeft_eq, Nat.shiftRight_eq_div_pow]
  rw [hmask, hdm]
  apply Nat.eq_of_testBit_eq
  intro i
  rw [Nat.testBit_and, Nat.testBit_shiftLeft, Nat.testBit_shiftLeft, Nat.testBit_shiftRight]
  by_cases hi : 16 ≤ i
  · rw [decide_eq_true hi, Bool.true_and, Bool.true_and]
    by_cases hi32 : i < 32
    · rw [Nat.testBit_two_pow_sub_one, decide_eq_true (by omega : i - 16 < 16),
        Bool.and_true, (by omega : 16 + (i - 16) = i)]
    · have h2 : 16 + (i - 16) = i := by omega
      have h1 : n.testBit i = false := by
        apply Nat.testBit_eq_false_of_lt
        calc n < 2 ^ 32 := h
        _ ≤ 2 ^ i := Nat.pow_le_pow_right (by omega) (by omega)
      rw [h2, h1, Bool.false_and]
  · rw [decide_eq_false hi]
    simp

/-- The popcount of a 32-bit value splits into the popcounts of its high and low
16-bit halves. -/
theorem count_ones_split (n : Nat) (h : n < 2 ^ 32) :
    count_ones (n &&& 0xffff0000) + count_ones (n &&& 0xffff) = count_ones n := by
  have hq : n / 2 ^ 16 < 2 ^ 16 := by
    have h32 : (2 : Nat) ^ 32 = 2 ^ 16 * 2 ^ 16 := by norm_num
    omega
  have hr : n % 2 ^ 16 < 2 ^ 16 := Nat.mod_lt n (by norm_num)
  rw [and_low16, and_high16 n h]
  have hhi : count_ones (n / 2 ^ 16 * 2 ^ 16) = count_ones_fuel 16 (n / 2 ^ 16) := by
    show count_ones_fuel 32 _ = _
    rw [show (32 : Nat) = 16 + 16 from rfl, count_ones_fuel_add 16 16,
      Nat.mul_mod_left, Nat.mul_div_cancel (n / 2 ^ 16) (by norm_num : (0 : Nat) < 2 ^ 16),
      count_ones_fuel_zero_arg, Nat.zero_add]
  have hlo : count_ones (n % 2 ^ 16) = count_ones_fuel 16 (n % 2 ^ 16) :=
    count_ones_fuel_congr 32 16 _ (by omega) hr
  have hall : count_ones n = count_ones_fuel 16 (n % 2 ^ 16) +
      count_ones_fuel 16 (n / 2 ^ 16) := by
    show count_ones_fuel 32 n = _
    rw [show (32 : Nat) = 16 + 16 from rfl, count_ones_fuel_add 16 16]
  rw [hhi, hlo, hall]
  omega

/-- Post-state of `push_down_loop` relative to the entry state: the parent's first
`remove_at` values survive, the `m` pending values move to fresh one-element result
slots, and `m` fresh single-`MSB` children are appended after the `child_len`
existing ones (whose one-element result slots are untouched). -/
def pushDownLoopPost {α : Type} (results0 : Allocator α)
    (child_len remove_at m : Nat) (keep pending : Nat → α) (children : Nat → Node)
    (r : Allocator α × Allocator Node × AllocatorHandle × AllocatorHandle) : Prop :=
  ∃ noff : Nat → Nat,
    AllocInv r.1 ∧ AllocInv r.2.1 ∧
    HdlOk r.1 r.2.2.1 ∧ HdlOk r.2.1 r.2.2.2 ∧
    r.2.2.1.len = remove_at ∧ r.2.2.2.len = child_len + m ∧
    (∀ j, j < remove_at → r.1.get r.2.2.1 j = keep j) ∧
    (∀ j, j < child_len → r.2.1.get r.2.2.2 j = children j) ∧
    (∀ j, j < m → r.2.1.get r.2.2.2 (child_len + j) =
      { Node.new.set_internal (1 <<< 31) with result_ptr := noff j }) ∧
    (∀ j, j < m → HdlOk r.1 ⟨1, noff j⟩ ∧ HdlDisj r.2.2.1 ⟨1, noff j⟩ ∧
      r.1.get ⟨1, noff j⟩ 0 = pending j) ∧
    (∀ j, j < child_len → HdlOk r.1 ⟨1, (children j).result_ptr⟩ ∧
      HdlDisj r.2.2.1 ⟨1, (children j).result_ptr⟩ ∧
      r.1.get ⟨1, (children j).result_ptr⟩ 0 =
        results0.get ⟨1, (children j).result_ptr⟩ 0)

/-- Correctness of the `push_down` loop: each iteration pops the value at
`remove_at`, moves it to a fresh one-element result slot and appends a fresh child
with internal bit `MSB` (`1 <<< 31`) pointing at that slot. -/
theorem push_down_loop_spec {α : Type} :
    ∀ (m : Nat) (results : Allocator α) (trienodes : Allocator Node)
      (result_hdl child_hdl : AllocatorHandle) (remove_at : Nat)
      (keep pending : Nat → α) (children : Nat → Node),
    AllocInv results → AllocInv trienodes →
    HdlOk results result_hdl → HdlOk trienodes child_hdl →
    result_hdl.len = remove_at + m →
    child_hdl.len + m ≤ 32 →
    (∀ j, j < remove_at → results.get result_hdl j = keep j) →
    (∀ j, j < m → results.get result_hdl (remove_at + j) = pending j) →
    (∀ j, j < child_hdl.len → trienodes.get child_hdl j = children j) →
    (∀ j, j < child_hdl.len → HdlOk results ⟨1, (children j).result_ptr⟩ ∧
      HdlDisj result_hdl ⟨1, (children j).result_ptr⟩) →
    pushDownLoopPost results child_hdl.len remove_at m keep pending children
      (push_down_loop results trienodes result_hdl child_hdl remove_at m) := by
  intro m
  induction m with
  | zero =>
    intro R0 T0 P C ra keep pending children hinvR hinvT hokP hokC hlenP h32 hkeep hpend
      hchildren hsing
    unfold pushDownLoopPost
    refine ⟨fun _ => 0, hinvR, hinvT, hokP, hokC, ?_, ?_, hkeep, hchildren, ?_, ?_, ?_⟩
    · show P.len = ra
      omega
    · show C.len = C.len + 0
      omega
    · intro j hj
      exact absurd hj (by omega)
    · intro j hj
      exact absurd hj (by omega)
    · intro j hj
      exact ⟨(hsing j hj).1, (hsing j hj).2, rfl⟩
  | succ k ih =>
    intro R0 T0 P C ra keep pending children hinvR hinvT hokP hokC hlenP h32 hkeep hpend
      hchildren hsing
    have hP32 : P.len ≤ 32 := hokP.1
    obtain ⟨hinvR1, hokA, hAlen, hgetR1, hframeA⟩ :=
      allocator_alloc_ok R0 0 hinvR (by omega)
    set rc := R0.alloc 0 with hrc
    have hokP1 : HdlOk rc.2 P := (hframeA P hokP).1
    have hdisjAP : HdlDisj rc.1 P := (hframeA P hokP).2
    obtain ⟨hinvR2, hokP2, hP2len, hremlt, hremge, hremframe⟩ :=
      allocator_remove_ok rc.2 P ra hinvR1 hokP1 (by omega) (by omega)
    set rr := rc.2.remove P ra with hrr
    have hA2 := hremframe rc.1 hokA (hdlDisj_symm hdisjAP)
    obtain ⟨hinvR3, hokA3, hA3lenEq, hinsframe⟩ :=
      allocator_insert_ok rr.2.2 rc.1 0 rr.1 hinvR2 hA2.1 (by omega) (Nat.zero_le _)
    obtain ⟨_, hinsget, _, _⟩ :=
      allocator_insert_contents rr.2.2 rc.1 0 rr.1 (fun _ => rr.1) hinvR2 hA2.1
        (by omega) (Nat.zero_le _) (fun j hj => absurd hj (by omega))
    set ri := rr.2.2.insert rc.1 0 rr.1 with hri
    set cn : Node := { Node.new.set_internal (1 <<< 31) with result_ptr := ri.1.offset }
      with hcn
    obtain ⟨hinvT1, hokC1, hC1len, _⟩ :=
      allocator_insert_ok T0 C C.len cn hinvT hokC (by omega) (Nat.le_refl _)
    obtain ⟨htlt, htself, _, _⟩ :=
      allocator_insert_contents T0 C C.len cn children hinvT hokC (by omega)
        (Nat.le_refl _) hchildren
    set ti := T0.insert C C.len cn with hti
    have hrr1 : rr.1 = pending 0 := by
      rw [hrr, allocator_remove_ret, hgetR1]
      exact hpend 0 (by omega)
    have heta : (⟨1, ri.1.offset⟩ : AllocatorHandle) = ri.1 := by
      have h1 : ri.1.len = 1 := by omega
      rw [← h1]
    have hPframe := hinsframe rr.2.1 hokP2 (hdlDisj_symm hA2.2.1)
    have hsp2 : rr.2.1.len ≤ SPACINGS.getD (choose_bucket rr.2.1.len) 0 :=
      len_le_spacing _ (by omega)
    have hkeep3 : ∀ j, j < ra → ri.2.get rr.2.1 j = keep j := by
      intro j hj
      rw [hPframe.2.2 j (by omega), hremlt j hj, hgetR1]
      exact hkeep j hj
    have hpend3 : ∀ j, j < k → ri.2.get rr.2.1 (ra + j) = pending (j + 1) := by
      intro j hj
      rw [hPframe.2.2 (ra + j) (by omega), hremge (ra + j) (by omega) (by omega), hgetR1]
      exact hpend (j + 1) (by omega)
    set children' : Nat → Node := fun j => if j = C.len then cn else children j with hch
    have hnew1 : HdlOk ri.2 ⟨1, ri.1.offset⟩ := by
      rw [heta]
      exact hokA3
    have hnew2 : HdlDisj rr.2.1 ⟨1, ri.1.offset⟩ := by
      rw [heta]
      exact hdlDisj_symm hPframe.2.1
    have hchild3 : ∀ j, j < ti.1.len → ti.2.get ti.1 j = children' j := by
      intro j hj
      simp only [hch]
      by_cases hje : j = C.len
      · subst hje
        rw [if_pos rfl]
        exact htself
      · rw [if_neg hje]
        exact htlt j (by omega)
    have hsing3 : ∀ j, j < ti.1.len → HdlOk ri.2 ⟨1, (children' j).result_ptr⟩ ∧
        HdlDisj rr.2.1 ⟨1, (children' j).result_ptr⟩ := by
      intro j hj
      simp only [hch]
      by_cases hje : j = C.len
      · subst hje
        rw [if_pos rfl]
        exact ⟨hnew1, hnew2⟩
      · rw [if_neg hje]
        have h0 := hsing j (by omega)
        have h1 := hframeA ⟨1, (children j).result_ptr⟩ h0.1
        have h3 := hremframe ⟨1, (children j).result_ptr⟩ h1.1 h0.2
        have h4 := hinsframe ⟨1, (children j).result_ptr⟩ h3.1 h1.2
        exact ⟨h4.1, h3.2.1⟩
    have IH := ih ri.2 ti.2 rr.2.1 ti.1 ra keep (fun j => pending (j + 1)) children'
      hinvR3 hinvT1 hPframe.1 hokC1 (by omega) (by omega) hkeep3 hpend3 hchild3 hsing3
    unfold pushDownLoopPost at IH
    obtain ⟨noff, Q1, Q2, Q3, Q4, Q5, Q6, Q7, Q8, Q9, Q10, Q11⟩ := IH
    have hstep : push_down_loop R0 T0 P C ra (k + 1) =
        push_down_loop ri.2 ti.2 rr.2.1 ti.1 ra k := rfl
    rw [hstep]
    unfold pushDownLoopPost
    refine ⟨fun j => if j = 0 then ri.1.offset else noff (j - 1),
      Q1, Q2, Q3, Q4, Q5, ?_, Q7, ?_, ?_, ?_, ?_⟩
    · omega
    · intro j hj
      rw [Q8 j (by omega)]
      show (if j = C.len then cn else children j) = children j
      rw [if_neg (by omega : ¬ j = C.len)]
    · intro j hj
      cases j with
      | zero =>
        have e0 : C.len + 0 = C.len := rfl
        rw [e0, Q8 C.len (by omega)]
        have hcc : children' C.len = cn := by
          show (if C.len = C.len then cn else children C.len) = cn
          rw [if_pos rfl]
        rw [hcc]
        show cn = { Node.new.set_internal (1 <<< 31) with result_ptr := ri.1.offset }
        rw [hcn]
      | succ j' =>
        have e1 : C.len + (j' + 1) = ti.1.len + j' := by omega
        rw [e1]
        exact Q9 j' (by omega)
    · intro j hj
      cases j with
      | zero =>
        have hcc : children' C.len = cn := by
          show (if C.len = C.len then cn else children C.len) = cn
          rw [if_pos rfl]
        have h := Q11 C.len (by omega)
        rw [hcc] at h
        have hcp : cn.result_ptr = ri.1.offset := rfl
        rw [hcp] at h
        refine ⟨h.1, h.2.1, ?_⟩
        show (push_down_loop ri.2 ti.2 rr.2.1 ti.1 ra k).1.get ⟨1, ri.1.offset⟩ 0 =
          pending 0
        rw [h.2.2, heta, hinsget]
        exact hrr1
      | succ j' =>
        exact Q10 j' (by omega)
    · intro j hj
      have hcj : children' j = children j := by
        show (if j = C.len then cn else children j) = children j
        rw [if_neg (by omega : ¬ j = C.len)]
      have h := Q11 j (by omega)
      rw [hcj] at h
      have h0 := hsing j hj
      have h1 := hframeA ⟨1, (children j).result_ptr⟩ h0.1
      have h3 := hremframe ⟨1, (children j).result_ptr⟩ h1.1 h0.2
      refine ⟨h.1, h.2.1, ?_⟩
      rw [h.2.2, (hinsframe ⟨1, (children j).result_ptr⟩ h3.1 h1.2).2.2 0
          (by show (0 : Nat) < SPACINGS.getD (choose_bucket 1) 0; decide),
        h3.2.2 0 (by show (0 : Nat) < SPACINGS.getD (choose_bucket 1) 0; decide), hgetR1]

/-! ### Claim C6: `push_down` -/

theorem cnee : (Node.new.set_internal (1 <<< 31)).bitmap &&& END_BIT = 0 := by decide

theorem child_node_not_endnode (rp : Nat) :
    ({ Node.new.set_internal (1 <<< 31) with result_ptr := rp } : Node).is_endnode =
      false := by
  show decide (0 < (Node.new.set_internal (1 <<< 31)).bitmap &&& END_BIT) = false
  rw [cnee]
  rfl

theorem and_end_bit_mask_zero (x : Nat) : x &&& END_BIT_MASK &&& END_BIT = 0 := by
  rw [Nat.and_assoc]
  rw [show END_BIT_MASK &&& END_BIT = 0 from by decide]
  exact Nat.and_zero x

/-- `push_down` on an endnode with one length-4 internal value (bitmap bit 15 of the
low half): the created child carries the single internal bit `MSB` but its endnode
flag is NOT set (`set_internal(1 << 31)` on a blank node never sets the endnode bit),
refuting the claim that the new children are endnodes. -/
theorem push_down_child_not_endnode :
    (let t := TreeBitmap.with_capacity Nat
     let node : Node := ⟨END_BIT ||| (1 <<< 15), 0, 0⟩
     let r := t.push_down node
     0 < count_ones (node.internal &&& 0xffff) ∧
     (r.2.trienodes.get ⟨1, r.1.child_ptr⟩ 0).bitmap = 1 <<< 31 ∧
     (r.2.trienodes.get ⟨1, r.1.child_ptr⟩ 0).is_endnode = false) := by
  decide

/-- Claim C6 (amended): for an endnode with `hi` length-0..3 internal values and
`0 < k` length-4 internal values whose result slot holds `values 0 .. values (hi+k-1)`,
`push_down` clears the endnode flag while keeping the rest of the bitmap
(`bitmap &&& END_BIT_MASK`, so the low 16 former internal bits are untouched and now
read as external bits), creates exactly `k` new children in order — each a fresh node
with single internal bit `MSB`, endnode flag CLEAR (not an endnode, contrary to the
original claim), and a one-element result slot holding the corresponding popped
length-4 value — keeps the parent's `hi` length-0..3 values in its (possibly
migrated) result slot, and when `hi = 0` frees the parent result slot and zeroes
`result_ptr`. -/
theorem push_down_children {α : Type} (t : TreeBitmap α) (node : Node)
    (values : Nat → α) (hi k : Nat)
    (hhi : hi = count_ones (node.internal &&& 0xffff0000))
    (hk : k = count_ones (node.internal &&& 0x0000ffff))
    (hkpos : 0 < k)
    (hbm : node.bitmap < 2 ^ 32)
    (hinvR : AllocInv t.results) (hinvT : AllocInv t.trienodes)
    (hokP : HdlOk t.results node.result_handle)
    (hvals : ∀ j, j < hi + k → t.results.get node.result_handle j = values j) :
    (t.push_down node).1.bitmap = node.bitmap &&& END_BIT_MASK ∧
    (t.push_down node).1.is_endnode = false ∧
    AllocInv (t.push_down node).2.results ∧
    AllocInv (t.push_down node).2.trienodes ∧
    ∃ chdl : AllocatorHandle,
      (t.push_down node).1.child_ptr = chdl.offset ∧ chdl.len = k ∧
      HdlOk (t.push_down node).2.trienodes chdl ∧
      (∀ j, j < k → ∃ rp : Nat,
        (t.push_down node).2.trienodes.get chdl j =
          { Node.new.set_internal (1 <<< 31) with result_ptr := rp } ∧
        ((t.push_down node).2.trienodes.get chdl j).is_endnode = false ∧
        HdlOk (t.push_down node).2.results ⟨1, rp⟩ ∧
        (t.push_down node).2.results.get ⟨1, rp⟩ 0 = values (hi + j)) ∧
      (hi = 0 → (t.push_down node).1.result_ptr = 0) ∧
      (0 < hi → ∃ rhdl : AllocatorHandle,
        (t.push_down node).1.result_ptr = rhdl.offset ∧ rhdl.len = hi ∧
        HdlOk (t.push_down node).2.results rhdl ∧
        ∀ j, j < hi → (t.push_down node).2.results.get rhdl j = values j) := by
  have hlen : node.result_handle.len = hi + k := by
    show count_ones node.internal = hi + k
    rw [hhi, hk]
    exact (count_ones_split node.internal (internal_lt node hbm)).symm
  have hk32 : hi + k ≤ 32 := by
    have h1 := hokP.1
    omega
  obtain ⟨hinvT1, hokC0, hC0len, hgetsT, hframeT⟩ :=
    allocator_alloc_ok t.trienodes 0 hinvT (by omega)
  have hspec := push_down_loop_spec k t.results (t.trienodes.alloc 0).2
    node.result_handle (t.trienodes.alloc 0).1 hi values (fun j => values (hi + j))
    (fun _ => Node.new) hinvR hinvT1 hokP hokC0 (by omega) (by omega)
    (fun j hj => hvals j (by omega)) (fun j hj => hvals (hi + j) (by omega))
    (fun j hj => absurd hj (by omega)) (fun j hj => absurd hj (by omega))
  unfold pushDownLoopPost at hspec
  obtain ⟨noff, Q1, Q2, Q3, Q4, Q5, Q6, Q7, Q8, Q9, Q10, Q11⟩ := hspec
  have hQ9 : ∀ j, j < k →
      (push_down_loop t.results (t.trienodes.alloc 0).2 node.result_handle
        (t.trienodes.alloc 0).1 hi k).2.1.get
      (push_down_loop t.results (t.trienodes.alloc 0).2 node.result_handle
        (t.trienodes.alloc 0).1 hi k).2.2.2 j =
      { Node.new.set_internal (1 <<< 31) with result_ptr := noff j } := by
    intro j hj
    have h := Q9 j hj
    rwa [show (t.trienodes.alloc 0).1.len + j = j from by omega] at h
  simp only [TreeBitmap.push_down]
  rw [← hhi, ← hk, if_pos hkpos]
  by_cases hhi0 : hi = 0
  · rw [if_pos hhi0]
    refine ⟨rfl, ?_, ?_, Q2, ?_⟩
    · show decide (0 < node.bitmap &&& END_BIT_MASK &&& END_BIT) = false
      rw [and_end_bit_mask_zero]
      rfl
    · exact allocator_free_inv _ _ Q1 Q3
    · refine ⟨(push_down_loop t.results (t.trienodes.alloc 0).2 node.result_handle
        (t.trienodes.alloc 0).1 hi k).2.2.2, rfl, by omega, Q4, ?_, fun _ => rfl,
        fun h => absurd h (by omega)⟩
      intro j hj
      refine ⟨noff j, hQ9 j hj, ?_, ?_, ?_⟩
      · rw [hQ9 j hj]
        exact child_node_not_endnode _
      · exact allocator_free_hdlok _ _ _ (Q10 j hj).1 (Q10 j hj).2.1
      · rw [allocator_free_get]
        exact (Q10 j hj).2.2
  · rw [if_neg hhi0]
    refine ⟨rfl, ?_, Q1, Q2, ?_⟩
    · show decide (0 < node.bitmap &&& END_BIT_MASK &&& END_BIT) = false
      rw [and_end_bit_mask_zero]
      rfl
    · refine ⟨(push_down_loop t.results (t.trienodes.alloc 0).2 node.result_handle
        (t.trienodes.alloc 0).1 hi k).2.2.2, rfl, by omega, Q4, ?_,
        fun h => absurd h hhi0, ?_⟩
      · intro j hj
        refine ⟨noff j, hQ9 j hj, ?_, (Q10 j hj).1, (Q10 j hj).2.2⟩
        rw [hQ9 j hj]
        exact child_node_not_endnode _
      · intro _
        exact ⟨(push_down_loop t.results (t.trienodes.alloc 0).2 node.result_handle
          (t.trienodes.alloc 0).1 hi k).2.2.1, rfl, Q5, Q3, Q7⟩

/-- Concrete instance for the `push_down` witness: an endnode with a single
length-4 internal value (bit 15 of the low half) and a live one-element result
slot. -/
def pdNode : Node := ⟨END_BIT ||| (1 <<< 15), 0, 0⟩

/-- Concrete tree state for the `push_down` witness. -/
def pdT : TreeBitmap Nat :=
  { trienodes := Allocator.with_capacity Node,
    results := ((Allocator.with_capacity Nat).alloc 1).2,
    len := 1 }

theorem push_down_children_witness :
    ((0 : Nat) < 1 ∧ HdlOk pdT.results pdNode.result_handle ∧
      AllocInv pdT.results) ∧
    ((pdT.push_down pdNode).1.bitmap = pdNode.bitmap &&& END_BIT_MASK ∧
    (pdT.push_down pdNode).1.is_endnode = false ∧
    AllocInv (pdT.push_down pdNode).2.results ∧
    AllocInv (pdT.push_down pdNode).2.trienodes ∧
    ∃ chdl : AllocatorHandle,
      (pdT.push_down pdNode).1.child_ptr = chdl.offset ∧ chdl.len = 1 ∧
      HdlOk (pdT.push_down pdNode).2.trienodes chdl ∧
      (∀ j, j < 1 → ∃ rp : Nat,
        (pdT.push_down pdNode).2.trienodes.get chdl j =
          { Node.new.set_internal (1 <<< 31) with result_ptr := rp } ∧
        ((pdT.push_down pdNode).2.trienodes.get chdl j).is_endnode = false ∧
        HdlOk (pdT.push_down pdNode).2.results ⟨1, rp⟩ ∧
        (pdT.push_down pdNode).2.results.get ⟨1, rp⟩ 0 = (fun _ => (0 : Nat)) (0 + j)) ∧
      ((0 : Nat) = 0 → (pdT.push_down pdNode).1.result_ptr = 0) ∧
      ((0 : Nat) < 0 → ∃ rhdl : AllocatorHandle,
        (pdT.push_down pdNode).1.result_ptr = rhdl.offset ∧ rhdl.len = 0 ∧
        HdlOk (pdT.push_down pdNode).2.results rhdl ∧
        ∀ j, j < 0 → (pdT.push_down pdNode).2.results.get rhdl j =
          (fun _ => (0 : Nat)) j)) :=
  ⟨⟨by decide, by unfold HdlOk; decide, by unfold AllocInv bucketInv; decide⟩,
   push_down_children pdT pdNode (fun _ => 0) 0 1 (by decide) (by decide) (by decide)
     (by decide) (by unfold AllocInv bucketInv; decide)
     (by unfold AllocInv bucketInv; decide) (by unfold HdlOk; decide) (by decide)⟩

/-! ### Bit toolkit for single-slot internal updates -/

theorem count_ones_eq_countP : ∀ f n, n < 2 ^ f →
    count_ones_fuel f n = (List.range f).countP (fun i => n.testBit i) := by
  intro f
  induction f with
  | zero =>
    intro n h
    have hn : n = 0 := by
      have h1 : (2 : Nat) ^ 0 = 1 := rfl
      omega
    subst hn
    rfl
  | succ f ih =>
    intro n h
    by_cases hn : n = 0
    · subst hn
      rw [count_ones_fuel_zero_arg]
      have hz : ∀ i ∈ List.range (f + 1), (fun i => Nat.testBit 0 i) i = false := by
        intro i _
        simp
      rw [List.countP_eq_zero.mpr]
      intro a ha
      simp
    · have hL : count_ones_fuel (f + 1) n = n % 2 + count_ones_fuel f (n / 2) := by
        show (if n = 0 then 0 else n % 2 + count_ones_fuel f (n / 2)) = _
        rw [if_neg hn]
      have hmap : (List.range f).countP ((fun i => n.testBit i) ∘ Nat.succ) =
          (List.range f).countP (fun i => (n / 2).testBit i) := by
        apply List.countP_congr
        intro a _
        show n.testBit (a + 1) = true ↔ (n / 2).testBit a = true
        rw [Nat.testBit_add_one]
      have hb : n.testBit 0 = decide (n % 2 = 1) := by
        have h1 : n.testBit 0 = decide (n / 2 ^ 0 % 2 = 1) := Nat.testBit_to_div_mod
        simpa using h1
      rw [hL, List.range_succ_eq_map, List.countP_cons, List.countP_map, hmap,
        ih (n / 2) (by rw [pow_succ] at h; omega)]
      show n % 2 + _ = _ + (if n.testBit 0 then 1 else 0)
      rw [hb]
      rcases Nat.mod_two_eq_zero_or_one n with h2 | h2 <;> rw [h2]
      · rw [decide_eq_false (by omega)]
        simp
      · rw [decide_eq_true (by omega)]
        simp [Nat.add_comm]

theorem count_ones32_eq_countP (n : Nat) (h : n < 2 ^ 32) :
    count_ones n = (List.range 32).countP (fun i => n.testBit i) :=
  count_ones_eq_countP 32 n h

/-- Counting over `range n` after flipping one position `p` from `false` to `true`
adds one. -/
theorem countP_update (f g : Nat → Bool) (p n : Nat) (hp : p < n)
    (hfg : ∀ i, i ≠ p → f i = g i) (hfp : f p = true) (hgp : g p = false) :
    (List.range n).countP f = (List.range n).countP g + 1 := by
  have hd : n = p + ((n - p - 1) + 1) := by omega
  have split : ∀ q : Nat → Bool,
      (List.range n).countP q = (List.range p).countP q +
        ((List.range (n - p - 1)).countP (fun a => q (p + Nat.succ a)) +
          if q (p + 0) then 1 else 0) := by
    intro q
    calc (List.range n).countP q = (List.range (p + ((n - p - 1) + 1))).countP q := by
          rw [← hd]
    _ = (List.range p).countP q +
        ((List.range ((n - p - 1) + 1)).map (p + ·)).countP q := by
          rw [List.range_add, List.countP_append]
    _ = (List.range p).countP q +
        (List.range ((n - p - 1) + 1)).countP (q ∘ (p + ·)) := by
          rw [List.countP_map]
    _ = (List.range p).countP q +
        (((List.range (n - p - 1)).map Nat.succ).countP (q ∘ (p + ·)) +
          if (q ∘ (p + ·)) 0 then 1 else 0) := by
          rw [List.range_succ_eq_map, List.countP_cons]
    _ = _ := by
          rw [List.countP_map]
          rfl
  rw [split f, split g]
  have e1 : (List.range p).countP f = (List.range p).countP g := by
    apply List.countP_congr
    intro a ha
    rw [hfg a (by have := List.mem_range.mp ha; omega)]
  have e2 : (List.range (n - p - 1)).countP (fun a => f (p + Nat.succ a)) =
      (List.range (n - p - 1)).countP (fun a => g (p + Nat.succ a)) := by
    apply List.countP_congr
    intro a _
    rw [hfg (p + Nat.succ a) (by omega)]
  have e3 : f (p + 0) = true := hfp
  have e4 : g (p + 0) = false := hgp
  rw [e1, e2, e3, e4, if_pos rfl, if_neg (by decide : ¬ (false = true))]
  omega

theorem or_two_pow_lt (x p : Nat) (hx : x < 2 ^ 32) (hp : p < 32) :
    x ||| 2 ^ p < 2 ^ 32 :=
  Nat.or_lt_two_pow hx (Nat.pow_lt_pow_right (by omega) hp)

theorem xor_two_pow_lt (x p : Nat) (hx : x < 2 ^ 32) (hp : p < 32) :
    x ^^^ 2 ^ p < 2 ^ 32 :=
  Nat.xor_lt_two_pow hx (Nat.pow_lt_pow_right (by omega) hp)

/-- Setting a clear bit adds one to the popcount. -/
theorem count_or_two_pow (x p : Nat) (hx : x < 2 ^ 32) (hp : p < 32)
    (hbit : x.testBit p = false) :
    count_ones (x ||| 2 ^ p) = count_ones x + 1 := by
  rw [count_ones32_eq_countP x hx, count_ones32_eq_countP _ (or_two_pow_lt x p hx hp)]
  apply countP_update _ _ p 32 hp
  · intro i hi
    show (x ||| 2 ^ p).testBit i = x.testBit i
    rw [Nat.testBit_or, Nat.testBit_two_pow, decide_eq_false (fun hc => hi hc.symm)]
    simp
  · show (x ||| 2 ^ p).testBit p = true
    rw [Nat.testBit_or, Nat.testBit_two_pow, decide_eq_true rfl]
    simp
  · exact hbit

/-- Clearing a set bit removes one from the popcount. -/
theorem count_xor_two_pow (x p : Nat) (hx : x < 2 ^ 32) (hp : p < 32)
    (hbit : x.testBit p = true) :
    count_ones x = count_ones (x ^^^ 2 ^ p) + 1 := by
  rw [count_ones32_eq_countP x hx, count_ones32_eq_countP _ (xor_two_pow_lt x p hx hp)]
  apply countP_update _ _ p 32 hp
  · intro i hi
    show x.testBit i = (x ^^^ 2 ^ p).testBit i
    rw [Nat.testBit_xor, Nat.testBit_two_pow, decide_eq_false (fun hc => hi hc.symm)]
    simp
  · exact hbit
  · show (x ^^^ 2 ^ p).testBit p = false
    rw [Nat.testBit_xor, Nat.testBit_two_pow, decide_eq_true rfl, hbit]
    rfl

theorem and_two_pow_of_testBit_false (x p : Nat) (h : x.testBit p = false) :
    x &&& 2 ^ p = 0 := by
  rw [Nat.and_two_pow, h]
  simp

theorem and_two_pow_of_testBit_true (x p : Nat) (h : x.testBit p = true) :
    x &&& 2 ^ p = 2 ^ p := by
  rw [Nat.and_two_pow, h]
  simp

theorem or_two_pow_testBit_self (x p : Nat) : (x ||| 2 ^ p).testBit p = true := by
  rw [Nat.testBit_or, Nat.testBit_two_pow, decide_eq_true rfl]
  simp

theorem xor_two_pow_shiftRight (x p k : Nat) (hk : p < k) :
    (x ^^^ 2 ^ p) >>> k = x >>> k := by
  apply Nat.eq_of_testBit_eq
  intro i
  rw [Nat.testBit_shiftRight, Nat.testBit_shiftRight, Nat.testBit_xor,
    Nat.testBit_two_pow, decide_eq_false (by omega)]
  simp

theorem xor_two_pow_testBit_ne (x p q : Nat) (h : q ≠ p) :
    (x ^^^ 2 ^ p).testBit q = x.testBit q := by
  rw [Nat.testBit_xor, Nat.testBit_two_pow, decide_eq_false (fun hc => h hc.symm)]
  simp

theorem or_two_pow_testBit_ne (x p q : Nat) (h : q ≠ p) :
    (x ||| 2 ^ p).testBit q = x.testBit q := by
  rw [Nat.testBit_or, Nat.testBit_two_pow, decide_eq_false (fun hc => h hc.symm)]
  simp

theorem END_BIT_eq : END_BIT = 2 ^ 16 := by decide

theorem and_or_distrib (a b c : Nat) : (a ||| b) &&& c = (a &&& c) ||| (b &&& c) := by
  apply Nat.eq_of_testBit_eq
  intro i
  rw [Nat.testBit_and, Nat.testBit_or, Nat.testBit_or, Nat.testBit_and, Nat.testBit_and]
  cases a.testBit i <;> cases b.testBit i <;> cases c.testBit i <;> rfl

theorem and_xor_distrib (a b c : Nat) : (a ^^^ b) &&& c = (a &&& c) ^^^ (b &&& c) := by
  apply Nat.eq_of_testBit_eq
  intro i
  rw [Nat.testBit_and, Nat.testBit_xor, Nat.testBit_xor, Nat.testBit_and, Nat.testBit_and]
  cases a.testBit i <;> cases b.testBit i <;> cases c.testBit i <;> rfl

theorem or_two_pow_and_two_pow (x p q : Nat) (h : q ≠ p) :
    (x ||| 2 ^ p) &&& 2 ^ q = x &&& 2 ^ q := by
  rw [Nat.and_two_pow, Nat.and_two_pow, or_two_pow_testBit_ne x p q h]

theorem xor_two_pow_and_two_pow (x p q : Nat) (h : q ≠ p) :
    (x ^^^ 2 ^ p) &&& 2 ^ q = x &&& 2 ^ q := by
  rw [Nat.and_two_pow, Nat.and_two_pow, xor_two_pow_testBit_ne x p q h]

theorem pos_and_of_testBit (x p : Nat) (h : x.testBit p = true) : 0 < x &&& 2 ^ p := by
  rw [and_two_pow_of_testBit_true x p h]
  exact Nat.two_pow_pos p

theorem insert_loop_congr {α : Type} (bl : Nat) :
    (∀ (t : TreeBitmap α) (n1 n2 : List Nat) value cur_hdl cur_index loop_count,
      (∀ k, n1.getD k 0 = n2.getD k 0) →
      t.insertLoop n1 value cur_hdl cur_index bl loop_count =
        t.insertLoop n2 value cur_hdl cur_index bl loop_count) ∧
    (∀ (t : TreeBitmap α) (n1 n2 : List Nat) value cur_hdl cur_index loop_count,
      (∀ k, n1.getD k 0 = n2.getD k 0) →
      t.insertRest n1 value cur_hdl cur_index bl loop_count =
        t.insertRest n2 value cur_hdl cur_index bl loop_count) := by
  induction bl using Nat.strong_induction_on with
  | _ bl ih =>
    have hQ : ∀ (t : TreeBitmap α) (n1 n2 : List Nat) value cur_hdl cur_index loop_count,
        (∀ k, n1.getD k 0 = n2.getD k 0) →
        t.insertRest n1 value cur_hdl cur_index bl loop_count =
          t.insertRest n2 value cur_hdl cur_index bl loop_count := by
      intro t n1 n2 value cur_hdl cur_index loop_count h
      rw [TreeBitmap.insertRest, TreeBitmap.insertRest, h loop_count]
      split
      · rfl
      · have h4 : ¬ bl ≤ 3 := by
          intro hx
          exact absurd (Or.inr hx) (by assumption)
        dsimp only
        repeat' split
        all_goals try rfl
        all_goals exact (ih (bl - 4) (by omega)).1 _ n1 n2 _ _ _ _ h
    refine ⟨?_, hQ⟩
    intro t n1 n2 value cur_hdl cur_index loop_count h
    rw [TreeBitmap.insertLoop, TreeBitmap.insertLoop, h loop_count]
    split
    · split
      · exact (ih (bl - 4) (by omega)).1 _ n1 n2 _ _ _ _ h
      · exact hQ _ n1 n2 _ _ _ _ h
    · exact hQ _ n1 n2 _ _ _ _ h
    · exact hQ _ n1 n2 _ _ _ _ h

theorem getD_append_replicate_zero (l : List Nat) (k i : Nat) :
    (l ++ List.replicate k 0).getD i 0 = l.getD i 0 := by
  induction l generalizing i with
  | nil =>
    simp only [List.nil_append]
    cases Nat.lt_or_ge i k with
    | inl h => simp [List.getD_eq_getElem?_getD, List.getElem?_replicate, h]
    | inr h =>
      have h1 : (List.replicate k (0 : Nat)).length ≤ i := by simp; omega
      have h2 : (List.nil (α := Nat)).length ≤ i := by simp
      rw [List.getD_eq_default _ _ h1, List.getD_eq_default _ _ h2]
  | cons x xs ihl =>
    cases i with
    | zero => rfl
    | succ j => simpa using ihl j

/-- Claim C10: `insert` is total in the nibble slice; past its end it reads the
nibble value 0, so appending any number of zero nibbles leaves the result (returned
option and new state) unchanged, no matter how many trie levels `masklen` requires. -/
theorem insert_total_in_nibble_length {α : Type} (t : TreeBitmap α) (nibbles : List Nat)
    (k masklen : Nat) (value : α) :
    t.insert (nibbles ++ List.replicate k 0) masklen value =
      t.insert nibbles masklen value := by
  unfold TreeBitmap.insert
  exact (insert_loop_congr masklen).1 t _ nibbles value _ 0 0
    (fun j => getD_append_replicate_zero nibbles k j)

def NodeInv (n : Node) : Prop :=
  count_ones n.external = 0 → n.child_ptr = 0

def bufInv (b : BucketVec Node) : Prop := ∀ c, NodeInv (b.buf c)

def ArenaInv (a : Allocator Node) : Prop := ∀ i, bufInv (a.buckets i)

theorem alloc_slot_buf {α : Type} (b : BucketVec α) : b.alloc_slot.2.buf = b.buf := by
  obtain ⟨buf, len, fl, sp⟩ := b
  cases fl <;> rfl

theorem bufInv_alloc_slot (b : BucketVec Node) (h : bufInv b) : bufInv b.alloc_slot.2 := by
  intro c
  rw [alloc_slot_buf]
  exact h c

theorem bufInv_free_slot (b : BucketVec Node) (s : Nat) (h : bufInv b) :
    bufInv (b.free_slot s) := h

theorem bufInv_set_slot (b : BucketVec Node) (s i : Nat) (v : Node) (h : bufInv b)
    (hv : NodeInv v) : bufInv (b.set_slot_entry s i v) := by
  intro c
  show NodeInv (updf b.buf (s + i) v c)
  unfold updf
  split
  · exact hv
  · exact h c

theorem bufInv_replace_slot (b : BucketVec Node) (s i : Nat) (v : Node) (h : bufInv b)
    (hv : NodeInv v) : bufInv (b.replace_slot_entry s i v).2 :=
  bufInv_set_slot b s i v h hv

theorem bufInv_insert_slot (b : BucketVec Node) (s i : Nat) (v : Node) (h : bufInv b)
    (hv : NodeInv v) : bufInv (b.insert_slot_entry s i v) := by
  intro c
  show NodeInv (if c = s + i then v else if s + i < c ∧ c < s + b.spacing
    then b.buf (c - 1) else b.buf c)
  split
  · exact hv
  · split
    · exact h _
    · exact h _

theorem bufInv_remove_slot (b : BucketVec Node) (s i : Nat) (h : bufInv b) :
    bufInv (b.remove_slot_entry s i).2 := by
  intro c
  show NodeInv (if s + i ≤ c ∧ c + 1 < s + b.spacing then b.buf (c + 1) else b.buf c)
  split
  · exact h _
  · exact h _

theorem bufInv_move_src (b dst : BucketVec Node) (s : Nat) (h : bufInv b) :
    bufInv (b.move_slot s dst).2.1 := h

theorem bufInv_move_dst (b dst : BucketVec Node) (s : Nat) (hb : bufInv b)
    (hd : bufInv dst) : bufInv (b.move_slot s dst).2.2 := by
  intro c
  show NodeInv (if (b.move_slot s dst).1 ≤ c ∧
      c < (b.move_slot s dst).1 + min b.spacing dst.spacing
    then b.buf (s + (c - (b.move_slot s dst).1)) else dst.alloc_slot.2.buf c)
  split
  · exact hb _
  · rw [alloc_slot_buf]
    exact hd _

theorem arenaInv_updf (a : Allocator Node) (i : Nat) (X : BucketVec Node)
    (h : ArenaInv a) (hX : bufInv X) : ArenaInv ⟨updf a.buckets i X⟩ := by
  intro j
  show bufInv (updf a.buckets i X j)
  unfold updf
  split
  · exact hX
  · exact h j

theorem arenaInv_alloc (a : Allocator Node) (count : Nat) (h : ArenaInv a) :
    ArenaInv (a.alloc count).2 :=
  arenaInv_updf a _ _ h (bufInv_alloc_slot _ (h _))

theorem arenaInv_free (a : Allocator Node) (hdl : AllocatorHandle) (h : ArenaInv a) :
    ArenaInv (a.free hdl).2 :=
  arenaInv_updf a _ _ h (bufInv_free_slot _ _ (h _))

theorem arenaInv_set (a : Allocator Node) (hdl : AllocatorHandle) (i : Nat) (v : Node)
    (h : ArenaInv a) (hv : NodeInv v) : ArenaInv (a.set hdl i v) :=
  arenaInv_updf a _ _ h (bufInv_set_slot _ _ _ _ (h _) hv)

theorem arenaInv_replace (a : Allocator Node) (hdl : AllocatorHandle) (i : Nat)
    (v : Node) (h : ArenaInv a) (hv : NodeInv v) : ArenaInv (a.replace hdl i v).2 :=
  arenaInv_updf a _ _ h (bufInv_replace_slot _ _ _ _ (h _) hv)

theorem bufInv_updf (f : Nat → BucketVec Node) (i : Nat) (X : BucketVec Node)
    (h : ∀ j, bufInv (f j)) (hX : bufInv X) (j : Nat) : bufInv (updf f i X j) := by
  unfold updf
  split
  · exact hX
  · exact h j

theorem arenaInv_insert (a : Allocator Node) (hdl : AllocatorHandle) (i : Nat)
    (v : Node) (h : ArenaInv a) (hv : NodeInv v) : ArenaInv (a.insert hdl i v).2 := by
  unfold Allocator.insert
  dsimp only
  split
  · intro j
    exact bufInv_updf _ _ _ h (bufInv_insert_slot _ _ _ _ (h _) hv) j
  · intro j
    apply bufInv_updf
    · apply bufInv_updf
      · apply bufInv_updf
        · exact h
        · exact bufInv_move_src _ _ _ (h _)
      · exact bufInv_move_dst _ _ _ (h _) (h _)
    · apply bufInv_insert_slot
      · apply bufInv_updf
        · apply bufInv_updf
          · exact h
          · exact bufInv_move_src _ _ _ (h _)
        · exact bufInv_move_dst _ _ _ (h _) (h _)
      · exact hv

theorem arenaInv_remove (a : Allocator Node) (hdl : AllocatorHandle) (i : Nat)
    (h : ArenaInv a) : ArenaInv (a.remove hdl i).2.2 := by
  unfold Allocator.remove
  dsimp only
  split
  · intro j
    exact bufInv_updf _ _ _ h (bufInv_remove_slot _ _ _ (h _)) j
  · intro j
    apply bufInv_updf
    · apply bufInv_updf
      · exact bufInv_updf _ _ _ h (bufInv_remove_slot _ _ _ (h _))
      · apply bufInv_move_src
        exact bufInv_updf _ _ _ h (bufInv_remove_slot _ _ _ (h _)) _
    · apply bufInv_move_dst
      · exact bufInv_updf _ _ _ h (bufInv_remove_slot _ _ _ (h _)) _
      · exact bufInv_updf _ _ _ h (bufInv_remove_slot _ _ _ (h _)) _

/-! C9 layer 2: row facts and node-level invariant lemmas -/

theorem lookup_row_len : ∀ ml, (INTERNAL_LOOKUP_TABLE.getD ml []).length ≤ 16 := by
  intro ml
  match ml with
  | 0 => decide
  | 1 => decide
  | 2 => decide
  | 3 => decide
  | 4 => decide
  | n + 5 =>
    rw [List.getD_eq_default]
    · exact Nat.zero_le 16
    · show INTERNAL_LOOKUP_TABLE.length ≤ n + 5
      have h5 : INTERNAL_LOOKUP_TABLE.length = 5 := rfl
      omega

theorem gen_bitmap_ge16 (nib ml : Nat) (h : 16 ≤ nib) : gen_bitmap nib ml = 0 := by
  unfold gen_bitmap
  rw [List.getD_eq_default]
  exact Nat.le_trans (lookup_row_len ml) h

theorem gen_bitmap_low_ext_dec : ∀ ml, ml < 4 → ∀ nib, nib < 16 →
    gen_bitmap nib ml &&& END_BIT_MASK &&& EXT_MASK = 0 := by decide

theorem bitmap_low_ext (nib ml : Nat) (h : ml < 4) :
    gen_bitmap nib ml &&& END_BIT_MASK &&& EXT_MASK = 0 := by
  by_cases h16 : nib < 16
  · exact gen_bitmap_low_ext_dec ml h nib h16
  · rw [gen_bitmap_ge16 nib ml (by omega), Nat.zero_and, Nat.zero_and]

theorem gen_bitmap_row4 : ∀ nib, nib < 16 →
    gen_bitmap nib 4 &&& END_BIT_MASK = 2 ^ (15 - nib) := by decide

theorem two_pow_and_EXT : ∀ q, q < 16 → 2 ^ q &&& EXT_MASK = 2 ^ q := by decide

theorem external_lt (n : Node) : n.external < 2 ^ 32 := by
  unfold Node.external
  split
  · exact Nat.two_pow_pos 32
  · exact Nat.lt_of_le_of_lt Nat.and_le_right (by decide)

theorem count_ones_pos_of_testBit (x q : Nat) (hx : x < 2 ^ 32) (hq : q < 32)
    (h : x.testBit q = true) : 0 < count_ones x := by
  rw [count_ones32_eq_countP x hx]
  exact List.countP_pos.mpr ⟨q, List.mem_range.mpr hq, h⟩

theorem external_endnode (n : Node) (he : n.is_endnode = true) : n.external = 0 := by
  unfold Node.external
  rw [he, if_pos rfl]

theorem internal_endnode (n : Node) (he : n.is_endnode = true) :
    n.internal = n.bitmap &&& END_BIT_MASK := by
  unfold Node.internal
  rw [he, if_pos rfl]

theorem make_normalnode_not_endnode (n : Node) :
    n.make_normalnode.is_endnode = false := by
  show decide (0 < n.bitmap &&& END_BIT_MASK &&& END_BIT) = false
  rw [and_end_bit_mask_zero]
  rfl

theorem make_endnode_is_endnode (n : Node) : n.make_endnode.is_endnode = true := by
  show decide (0 < (n.bitmap ||| END_BIT) &&& END_BIT) = true
  rw [END_BIT_eq]
  exact decide_eq_true
    (pos_and_of_testBit (n.bitmap ||| 2 ^ 16) 16 (or_two_pow_testBit_self _ _))

theorem nodeInv_or (n : Node) (m x : Nat) (hm : m &&& END_BIT = 0)
    (hcase : n.is_endnode = true ∨ m &&& EXT_MASK = 0) (h : NodeInv n) :
    NodeInv { n.set_internal m with result_ptr := x } := by
  have hbit : (n.bitmap ||| m) &&& END_BIT = n.bitmap &&& END_BIT := by
    rw [and_or_distrib, hm, Nat.or_zero]
  have hend : ({ n.set_internal m with result_ptr := x } : Node).is_endnode =
      n.is_endnode := by
    show decide (0 < (n.bitmap ||| m) &&& END_BIT) = decide (0 < n.bitmap &&& END_BIT)
    rw [hbit]
  intro habs
  show n.child_ptr = 0
  rcases hcase with hc | hc
  · refine h ?_
    rw [external_endnode n hc]
    exact count_ones_zero
  · apply h
    cases he : n.is_endnode
    · have hx : ({ n.set_internal m with result_ptr := x } : Node).external =
          n.external := by
        unfold Node.external
        rw [hend, he]
        rw [if_neg (by simp), if_neg (by simp)]
        show (n.bitmap ||| m) &&& EXT_MASK = n.bitmap &&& EXT_MASK
        rw [and_or_distrib, hc, Nat.or_zero]
      rw [hx] at habs
      exact habs
    · rw [external_endnode n he]
      exact count_ones_zero

theorem nodeInv_xor (n : Node) (m x : Nat) (hm : m &&& END_BIT = 0)
    (hcase : n.is_endnode = true ∨ m &&& EXT_MASK = 0) (h : NodeInv n) :
    NodeInv { n.unset_internal m with result_ptr := x } := by
  have hbit : (n.bitmap ^^^ m) &&& END_BIT = n.bitmap &&& END_BIT := by
    rw [and_xor_distrib, hm, Nat.xor_zero]
  have hend : ({ n.unset_internal m with result_ptr := x } : Node).is_endnode =
      n.is_endnode := by
    show decide (0 < (n.bitmap ^^^ m) &&& END_BIT) = decide (0 < n.bitmap &&& END_BIT)
    rw [hbit]
  intro habs
  show n.child_ptr = 0
  rcases hcase with hc | hc
  · refine h ?_
    rw [external_endnode n hc]
    exact count_ones_zero
  · apply h
    cases he : n.is_endnode
    · have hx : ({ n.unset_internal m with result_ptr := x } : Node).external =
          n.external := by
        unfold Node.external
        rw [hend, he]
        rw [if_neg (by simp), if_neg (by simp)]
        show (n.bitmap ^^^ m) &&& EXT_MASK = n.bitmap &&& EXT_MASK
        rw [and_xor_distrib, hc, Nat.xor_zero]
      rw [hx] at habs
      exact habs
    · rw [external_endnode n he]
      exact count_ones_zero

theorem external_set_ext (n : Node) (q o : Nat) (hq : q < 16)
    (hend : n.is_endnode = false) :
    ({ n.set_external (2 ^ q) with child_ptr := o } : Node).external =
      n.external ||| 2 ^ q := by
  have h1 : ({ n.set_external (2 ^ q) with child_ptr := o } : Node).is_endnode =
      n.is_endnode := by
    show decide (0 < (n.bitmap ||| 2 ^ q) &&& END_BIT) =
      decide (0 < n.bitmap &&& END_BIT)
    rw [END_BIT_eq, or_two_pow_and_two_pow n.bitmap q 16 (by omega)]
  unfold Node.external
  rw [h1, hend]
  rw [if_neg (by simp), if_neg (by simp)]
  show (n.bitmap ||| 2 ^ q) &&& EXT_MASK = n.bitmap &&& EXT_MASK ||| 2 ^ q
  rw [and_or_distrib, two_pow_and_EXT q hq]

theorem external_unset_ext (n : Node) (q o : Nat) (hq : q < 16)
    (hend : n.is_endnode = false) :
    ({ n.unset_external (2 ^ q) with child_ptr := o } : Node).external =
      n.external ^^^ 2 ^ q := by
  have h1 : ({ n.unset_external (2 ^ q) with child_ptr := o } : Node).is_endnode =
      n.is_endnode := by
    show decide (0 < (n.bitmap ^^^ 2 ^ q) &&& END_BIT) =
      decide (0 < n.bitmap &&& END_BIT)
    rw [END_BIT_eq, xor_two_pow_and_two_pow n.bitmap q 16 (by omega)]
  unfold Node.external
  rw [h1, hend]
  rw [if_neg (by simp), if_neg (by simp)]
  show (n.bitmap ^^^ 2 ^ q) &&& EXT_MASK = n.bitmap &&& EXT_MASK ^^^ 2 ^ q
  rw [and_xor_distrib, two_pow_and_EXT q hq]

theorem arenaInv_get (a : Allocator Node) (h : ArenaInv a) (hdl : AllocatorHandle)
    (i : Nat) : NodeInv (a.get hdl i) :=
  h (choose_bucket hdl.len) (hdl.offset + i)

theorem allocator_remove_hdl_len {α : Type} (a : Allocator α) (hdl : AllocatorHandle)
    (i : Nat) : (a.remove hdl i).2.1.len = hdl.len - 1 := by
  unfold Allocator.remove
  dsimp only
  split <;> rfl

theorem match_external_chase (n : Node) (mm : Nat) (ch : AllocatorHandle) (idx : Nat)
    (h : n.match_external mm = MatchResult.Chase ch idx) :
    0 < n.external &&& mm ∧ ch = n.child_handle := by
  unfold Node.match_external at h
  dsimp only at h
  split at h
  · injection h with h1 h2
    exact ⟨by assumption, h1.symm⟩
  · exact MatchResult.noConfusion h

/-! C9 layer 3: the push_down, insert and remove walks preserve the arena invariant -/

theorem nodeInv_pd_out (node : Node) (he : node.is_endnode = true)
    (hpos : 0 < count_ones (node.internal &&& 0x0000ffff)) (rp cp : Nat) :
    NodeInv (Node.make_normalnode { node with result_ptr := rp, child_ptr := cp }) := by
  intro habs
  exfalso
  have hip : node.internal &&& 0x0000ffff = node.bitmap &&& EXT_MASK := by
    rw [internal_endnode node he, Nat.and_assoc]
    rw [show END_BIT_MASK &&& 0x0000ffff = EXT_MASK from by decide]
  have hx : (Node.make_normalnode
      { node with result_ptr := rp, child_ptr := cp }).external =
      node.bitmap &&& EXT_MASK := by
    have hend := make_normalnode_not_endnode
      ({ node with result_ptr := rp, child_ptr := cp } : Node)
    unfold Node.external
    rw [hend]
    rw [if_neg (by simp)]
    show node.bitmap &&& END_BIT_MASK &&& EXT_MASK = node.bitmap &&& EXT_MASK
    rw [Nat.and_assoc, show END_BIT_MASK &&& EXT_MASK = EXT_MASK from by decide]
  rw [hx] at habs
  rw [hip] at hpos
  omega

theorem push_down_loop_arena {α : Type} : ∀ (k : Nat) (results : Allocator α)
    (trienodes : Allocator Node) (rh ch : AllocatorHandle) (ra : Nat),
    ArenaInv trienodes →
    ArenaInv (push_down_loop results trienodes rh ch ra k).2.1 := by
  intro k
  induction k with
  | zero => exact fun _ _ _ _ _ h => h
  | succ k ih =>
    intro results trienodes rh ch ra h
    rw [push_down_loop]
    exact ih _ _ _ _ _ (arenaInv_insert _ _ _ _ h (fun _ => rfl))

theorem push_down_inv {α : Type} (t : TreeBitmap α) (node : Node)
    (ha : ArenaInv t.trienodes) (hn : NodeInv node) (he : node.is_endnode = true) :
    ArenaInv (t.push_down node).2.trienodes ∧ NodeInv (t.push_down node).1 ∧
      (t.push_down node).1.is_endnode = false := by
  unfold TreeBitmap.push_down
  dsimp only
  split
  case isTrue hpos =>
    split
    case isTrue hzero =>
      exact ⟨push_down_loop_arena _ _ _ _ _ _ (arenaInv_alloc _ _ ha),
        nodeInv_pd_out node he hpos 0 _, make_normalnode_not_endnode _⟩
    case isFalse hzero =>
      exact ⟨push_down_loop_arena _ _ _ _ _ _ (arenaInv_alloc _ _ ha),
        nodeInv_pd_out node he hpos _ _, make_normalnode_not_endnode _⟩
  case isFalse hpos =>
    refine ⟨ha, ?_, make_normalnode_not_endnode _⟩
    intro habs
    show node.child_ptr = 0
    refine hn ?_
    rw [external_endnode node he]
    exact count_ones_zero

theorem insert_tail_arenaInv {α : Type} (fuel : Nat) (t1 : TreeBitmap α) (c1 : Node)
    (nibbles : List Nat) (value : α) (cur_hdl : AllocatorHandle)
    (cur_index bits_left loop_count : Nat)
    (IH : ∀ (t : TreeBitmap α) (nb : List Nat) (v : α) (h : AllocatorHandle)
      (i bl lc : Nat), ArenaInv t.trienodes → (∀ k, nb.getD k 0 < 16) →
      ArenaInv (t.insertLoopF fuel nb v h i bl lc).2.trienodes)
    (h1 : ArenaInv t1.trienodes) (hc1 : NodeInv c1) (hend : c1.is_endnode = false)
    (hnib : ∀ k, nibbles.getD k 0 < 16) (hbl : 4 ≤ bits_left) :
    ArenaInv
      (let nibble := nibbles.getD loop_count 0
       let bitmap := gen_bitmap nibble (min 4 bits_left)
       let ac := if c1.child_count = 0 then t1.trienodes.alloc 0
         else (c1.child_handle, t1.trienodes)
       let child_index := count_ones (c1.external >>> trailing_zeros bitmap)
       if 0 < c1.external &&& (bitmap &&& END_BIT_MASK) then
         match c1.match_segment nibble with
         | MatchResult.Chase child_hdl2 index =>
             let t2 := { t1 with trienodes := ac.2.set cur_hdl cur_index c1 }
             t2.insertLoopF fuel nibbles value child_hdl2 index (bits_left - 4)
               (loop_count + 1)
         | _ => (none, t1)
       else
         let cur_node2 := c1.set_external (bitmap &&& END_BIT_MASK)
         let child_node := Node.new.make_endnode
         let ti := ac.2.insert ac.1 child_index child_node
         let cur_node3 := { cur_node2 with child_ptr := ti.1.offset }
         let t2 := { t1 with trienodes := ti.2.set cur_hdl cur_index cur_node3 }
         t2.insertLoopF fuel nibbles value ti.1 child_index (bits_left - 4)
           (loop_count + 1)).2.trienodes := by
  have hac : ArenaInv (if c1.child_count = 0 then t1.trienodes.alloc 0
      else (c1.child_handle, t1.trienodes)).2 := by
    split
    · exact arenaInv_alloc _ _ h1
    · exact h1
  by_cases hyes : 0 < c1.external &&&
      (gen_bitmap (nibbles.getD loop_count 0) (min 4 bits_left) &&& END_BIT_MASK)
  · rw [if_pos hyes]
    rcases c1.match_segment (nibbles.getD loop_count 0) with ⟨mh, mi, mb⟩ | ⟨ch2, idx2⟩ | -
    · exact h1
    · exact IH _ _ _ _ _ _ _ (arenaInv_set _ _ _ _ hac hc1) hnib
    · exact h1
  · rw [if_neg hyes]
    refine IH _ _ _ _ _ _ _ ?_ hnib
    refine arenaInv_set _ _ _ _ (arenaInv_insert _ _ _ _ hac (fun _ => rfl)) ?_
    have hnb := hnib loop_count
    have hm : gen_bitmap (nibbles.getD loop_count 0) (min 4 bits_left) &&&
        END_BIT_MASK = 2 ^ (15 - nibbles.getD loop_count 0) := by
      rw [min_eq_left hbl]
      exact gen_bitmap_row4 _ hnb
    rw [hm] at hyes ⊢
    intro habs
    rw [external_set_ext c1 _ _ (by omega) hend] at habs
    have htb : c1.external.testBit (15 - nibbles.getD loop_count 0) = false := by
      cases hval : c1.external.testBit (15 - nibbles.getD loop_count 0)
      · rfl
      · exact absurd (pos_and_of_testBit _ _ hval) hyes
    rw [count_or_two_pow _ _ (external_lt c1) (by omega) htb] at habs
    omega

theorem insertRestF_arenaInv {α : Type} (fuel : Nat)
    (IH : ∀ (t : TreeBitmap α) (nb : List Nat) (v : α) (h : AllocatorHandle)
      (i bl lc : Nat), ArenaInv t.trienodes → (∀ k, nb.getD k 0 < 16) →
      ArenaInv (t.insertLoopF fuel nb v h i bl lc).2.trienodes)
    (t : TreeBitmap α) (nibbles : List Nat) (value : α) (cur_hdl : AllocatorHandle)
    (cur_index bits_left loop_count : Nat)
    (ha : ArenaInv t.trienodes) (hnib : ∀ k, nibbles.getD k 0 < 16) :
    ArenaInv (t.insertRestF fuel nibbles value cur_hdl cur_index bits_left
      loop_count).2.trienodes := by
  unfold TreeBitmap.insertRestF
  dsimp only
  split
  case isTrue hfinal =>
    split
    · exact arenaInv_set _ _ _ _ ha (arenaInv_get _ ha _ _)
    · refine arenaInv_set _ _ _ _ ha
        (nodeInv_or _ _ _ (and_end_bit_mask_zero _) ?_ (arenaInv_get _ ha _ _))
      by_cases hend : (t.trienodes.get cur_hdl cur_index).is_endnode = true
      · exact Or.inl hend
      · rcases hfinal with hml | hml
        · exact absurd hml.1 hend
        · exact Or.inr (bitmap_low_ext _ _ (by omega))
  case isFalse hfinal =>
    have hbl : 4 ≤ bits_left := by
      have h3 : ¬ bits_left ≤ 3 := fun hx => hfinal (Or.inr hx)
      omega
    by_cases hend : (t.trienodes.get cur_hdl cur_index).is_endnode = true
    · rw [if_pos hend]
      obtain ⟨hA, hN, hE⟩ := push_down_inv t (t.trienodes.get cur_hdl cur_index) ha
        (arenaInv_get _ ha _ _) hend
      exact insert_tail_arenaInv fuel _ _ nibbles value cur_hdl cur_index bits_left
        loop_count IH hA hN hE hnib hbl
    · rw [if_neg hend]
      have hend2 : (t.trienodes.get cur_hdl cur_index).is_endnode = false := by
        revert hend
        cases (t.trienodes.get cur_hdl cur_index).is_endnode <;> simp
      exact insert_tail_arenaInv fuel t _ nibbles value cur_hdl cur_index bits_left
        loop_count IH ha (arenaInv_get _ ha _ _) hend2 hnib hbl

theorem insertLoopF_arenaInv {α : Type} : ∀ (fuel : Nat) (t : TreeBitmap α)
    (nibbles : List Nat) (value : α) (cur_hdl : AllocatorHandle)
    (cur_index bits_left loop_count : Nat), ArenaInv t.trienodes →
    (∀ k, nibbles.getD k 0 < 16) →
    ArenaInv (t.insertLoopF fuel nibbles value cur_hdl cur_index bits_left
      loop_count).2.trienodes := by
  intro fuel
  induction fuel with
  | zero => exact fun t _ _ _ _ _ _ ha _ => ha
  | succ fuel ih =>
    intro t nibbles value cur_hdl cur_index bits_left loop_count ha hnib
    rw [insertLoopF_succ]
    rcases hms : ((t.trienodes.get cur_hdl cur_index).match_segment
        (nibbles.getD loop_count 0)).chase with - | ⟨ch, idx⟩
    · exact insertRestF_arenaInv fuel ih t nibbles value cur_hdl cur_index bits_left
        loop_count ha hnib
    · cases h4 : decide (4 ≤ bits_left)
      · exact insertRestF_arenaInv fuel ih t nibbles value cur_hdl cur_index bits_left
          loop_count ha hnib
      · exact ih t nibbles value ch idx (bits_left - 4) (loop_count + 1) ha hnib

theorem insert_arenaInv {α : Type} (t : TreeBitmap α) (nibbles : List Nat)
    (masklen : Nat) (value : α) (ha : ArenaInv t.trienodes)
    (hnib : ∀ k, nibbles.getD k 0 < 16) :
    ArenaInv (t.insert nibbles masklen value).2.trienodes := by
  rw [insert_eq_insertF]
  exact insertLoopF_arenaInv (masklen + 2) t nibbles value _ 0 masklen 0 ha hnib

theorem remove_childF_inv {α : Type} [Inhabited α] : ∀ (fuel : Nat) (t : TreeBitmap α)
    (node : Node) (nibbles : List Nat) (masklen : Nat), ArenaInv t.trienodes →
    NodeInv node →
    ArenaInv (t.remove_childF fuel node nibbles masklen).2.2.trienodes ∧
      NodeInv (t.remove_childF fuel node nibbles masklen).2.1 := by
  intro fuel
  induction fuel with
  | zero => exact fun t node _ _ ha hn => ⟨ha, hn⟩
  | succ fuel ih =>
    intro t node nibbles masklen ha hn
    rw [TreeBitmap.remove_childF]
    dsimp only
    split
    case isTrue hfin =>
      split
      · refine ⟨ha, ?_⟩
        refine nodeInv_xor _ _ _ (and_end_bit_mask_zero _) ?_ hn
        by_cases hend : node.is_endnode = true
        · exact Or.inl hend
        · rcases hfin with hml | hml
          · exact Or.inr (bitmap_low_ext _ _ (by omega))
          · exact absurd hml.1 hend
      · exact ⟨ha, hn⟩
    case isFalse hfin =>
      split
      · rename_i child_node_hdl index heq
        have h4 : ¬ masklen < 4 := fun hx => hfin (Or.inl hx)
        obtain ⟨hpos, hch⟩ := match_external_chase _ _ _ _ heq
        by_cases hn16 : nibbles.getD 0 0 < 16
        · have hm : gen_bitmap (nibbles.getD 0 0) (min masklen 4) &&& END_BIT_MASK
              = 2 ^ (15 - nibbles.getD 0 0) := by
            rw [min_eq_right (by omega : (4:Nat) ≤ masklen)]
            exact gen_bitmap_row4 _ hn16
          rw [hm] at hpos ⊢
          have hendF : node.is_endnode = false := by
            cases hval : node.is_endnode
            · rfl
            · rw [external_endnode node hval, Nat.zero_and] at hpos
              exact absurd hpos (by omega)
          have hlt : node.external < 2 ^ 32 := external_lt node
          have htb : node.external.testBit (15 - nibbles.getD 0 0) = true := by
            cases hval : node.external.testBit (15 - nibbles.getD 0 0)
            · rw [and_two_pow_of_testBit_false _ _ hval] at hpos
              exact absurd hpos (by omega)
            · rfl
          obtain ⟨hA1, hN1⟩ := ih t (t.trienodes.get child_node_hdl index)
            (nibbles.drop 1) (masklen - 4) ha (arenaInv_get _ ha _ _)
          generalize hrc : TreeBitmap.remove_childF fuel t
            (t.trienodes.get child_node_hdl index) (nibbles.drop 1)
            (masklen - 4) = rc
          rw [hrc] at hA1 hN1
          obtain ⟨res, cn1, t1⟩ := rc
          dsimp only at hA1 hN1 ⊢
          have hN2 : NodeInv (if cn1.child_count = 0 ∧ cn1.is_endnode = false
              then cn1.make_endnode else cn1) := by
            split
            · rename_i hcond
              intro _
              exact hN1 hcond.1
            · exact hN1
          by_cases hemp : (if cn1.child_count = 0 ∧ cn1.is_endnode = false
              then cn1.make_endnode else cn1).is_empty = true
          · rw [if_pos hemp]
            dsimp only
            constructor
            · split
              · exact arenaInv_free _ _ (arenaInv_remove _ _ _ hA1)
              · exact arenaInv_remove _ _ _ hA1
            · intro habs
              rw [external_unset_ext node _ _ (by omega) hendF] at habs
              have hcnt := count_xor_two_pow node.external _ hlt (by omega) htb
              have h0 : (t1.trienodes.remove child_node_hdl index).2.1.len = 0 := by
                rw [allocator_remove_hdl_len, hch]
                show count_ones node.external - 1 = 0
                omega
              rw [if_pos h0]
              rfl
          · rw [if_neg hemp]
            dsimp only
            constructor
            · exact arenaInv_set _ _ _ _ hA1 hN2
            · intro habs
              have hxx : ({ node with child_ptr := child_node_hdl.offset } :
                  Node).external = node.external := rfl
              rw [hxx] at habs
              have := count_ones_pos_of_testBit node.external _ hlt (by omega) htb
              omega
        · exfalso
          rw [gen_bitmap_ge16 _ _ (by omega), Nat.zero_and, Nat.and_zero] at hpos
          exact absurd hpos (by omega)
      · exact ⟨ha, hn⟩

theorem remove_arenaInv {α : Type} [Inhabited α] (t : TreeBitmap α)
    (nibbles : List Nat) (masklen : Nat) (ha : ArenaInv t.trienodes) :
    ArenaInv (t.remove nibbles masklen).2.trienodes := by
  unfold TreeBitmap.remove
  dsimp only
  rw [← remove_childF_eq (masklen + 1) t _ nibbles masklen (by omega)]
  obtain ⟨hA, hN⟩ := remove_childF_inv (masklen + 1) t
    (t.trienodes.get (AllocatorHandle.generate 1 0) 0) nibbles masklen ha
    (arenaInv_get _ ha _ _)
  exact arenaInv_set _ _ _ _ hA hN

theorem arenaInv_with_capacity (α : Type) [Inhabited α] :
    ArenaInv (TreeBitmap.with_capacity α).trienodes := by
  have h0 : ArenaInv (Allocator.with_capacity Node) := fun _ _ _ => rfl
  show ArenaInv (((Allocator.with_capacity Node).alloc 0).2.insert
    ((Allocator.with_capacity Node).alloc 0).1 0 Node.new).2
  exact arenaInv_insert _ _ _ _ (arenaInv_alloc _ _ h0) (fun _ => rfl)

/-- The states reachable from `TreeBitmap::new` by `insert` (with each nibble below
16, the caller contract of the nibble encoding) and `remove`. -/
inductive Reach (α : Type) [Inhabited α] : TreeBitmap α → Prop where
  | new : Reach α (TreeBitmap.new α)
  | ins (t : TreeBitmap α) (nibbles : List Nat) (masklen : Nat) (value : α) :
      Reach α t → (∀ k, nibbles.getD k 0 < 16) →
      Reach α (t.insert nibbles masklen value).2
  | rem (t : TreeBitmap α) (nibbles : List Nat) (masklen : Nat) :
      Reach α t → Reach α (t.remove nibbles masklen).2

theorem reach_arenaInv {α : Type} [Inhabited α] {t : TreeBitmap α}
    (h : Reach α t) : ArenaInv t.trienodes := by
  induction h with
  | new => exact arenaInv_with_capacity α
  | ins t nibbles masklen value hr hnib ih =>
      exact insert_arenaInv t nibbles masklen value ih hnib
  | rem t nibbles masklen hr ih => exact remove_arenaInv t nibbles masklen ih

/-- Claim C9: in every TreeBitmap state reachable from `new()` by a sequence of
`insert` (with in-range nibbles) and `remove` operations, every node cell of the
trie-node arena whose endnode flag is set has `child_ptr = 0` and no external
(child) bits set. -/
theorem endnode_no_children {α : Type} [Inhabited α] (t : TreeBitmap α)
    (h : Reach α t) (i c : Nat)
    (he : ((t.trienodes.buckets i).buf c).is_endnode = true) :
    ((t.trienodes.buckets i).buf c).child_ptr = 0 ∧
      ((t.trienodes.buckets i).buf c).external = 0 := by
  have hext : ((t.trienodes.buckets i).buf c).external = 0 :=
    external_endnode _ he
  refine ⟨?_, hext⟩
  refine reach_arenaInv h i c ?_
  rw [hext]
  exact count_ones_zero

theorem endnode_no_children_witness :
    ((((TreeBitmap.new Nat).insert [0] 4 7).2.trienodes.buckets 0).buf
        1).is_endnode = true ∧
    (((((TreeBitmap.new Nat).insert [0] 4 7).2.trienodes.buckets 0).buf
        1).child_ptr = 0 ∧
      ((((TreeBitmap.new Nat).insert [0] 4 7).2.trienodes.buckets 0).buf
        1).external = 0) := by
  have hb : ∀ k, ([0] : List Nat).getD k 0 < 16 := by
    intro k
    match k with
    | 0 => decide
    | k + 1 =>
      show (0 : Nat) < 16
      decide
  have he : ((((TreeBitmap.new Nat).insert [0] 4 7).2.trienodes.buckets 0).buf
      1).is_endnode = true := by
    simp only [insert_eq_insertF]
    decide
  exact ⟨he, endnode_no_children _ (Reach.ins _ [0] 4 7 Reach.new hb) 0 1 he⟩

end TreeBitmapModel
